import Mathlib

/-!
The transformer pipeline of eth-contract-watcher.

A shallow embedding of `pkg/transformer/transformer.go` (`Transformer.Init`,
`Transformer.Execute`, `Transformer.methodPolling`).  The collaborators of the
transformer (parser, block retriever, header repository, log fetcher, converter,
event repository, poller) are Go interfaces; they are embedded as a record of
state-passing functions over an arbitrary world type `W`, so every theorem holds
for every implementation of them.  Every call the transformer makes is appended
to a trace together with what the collaborator answered.

Go maps are association lists; the order in which a `range` statement visits a
map is not fixed by the language, so every `range` over a map asks the world for
a shuffle code and visits the entries in the shuffled order.  `int64` values are
integers, and the one arithmetic operation of the code (`header.BlockNumber + 1`)
wraps modulo `2^64`.
-/

namespace ContractWatcher

/-! ## Machine integers -/

/-- Largest `int64`, `math.MaxInt64`. -/
def MaxInt64 : Int := 9223372036854775807

/-- Smallest `int64`. -/
def MinInt64 : Int := -9223372036854775808

/-- Two's-complement wrap of an integer into the `int64` range. -/
def wrapInt64 (x : Int) : Int :=
  (x + 9223372036854775808) % 18446744073709551616 - 9223372036854775808

/-! ## Go maps and `range` -/

/-- A Go `map[string]V`: an association list. -/
abbrev GoMap (V : Type) := List (String × V)

/-- Go `m[k]`: the value stored under `k`, or the zero value `z`. -/
def GoMap.getD {V : Type} (m : GoMap V) (k : String) (z : V) : V :=
  (List.lookup k m).getD z

/-- Go `m[k] = v`: overwrite the entry of `k`, or add one. -/
def GoMap.set {V : Type} (m : GoMap V) (k : String) (v : V) : GoMap V :=
  if m.any (fun p => p.1 == k) then m.map (fun p => if p.1 == k then (k, v) else p)
  else m ++ [(k, v)]

/-- Insert `x` into `l` at position `n` (taken modulo the number of positions). -/
def insertAt {α : Type} (n : Nat) (x : α) (l : List α) : List α :=
  l.take (n % (l.length + 1)) ++ x :: l.drop (n % (l.length + 1))

/-- The visiting order of one `range` over a map: each entry is inserted at the
position its code gives, so the result is always a rearrangement of the entries. -/
def shuffle {α : Type} : List Nat → List α → List α
  | _, [] => []
  | [], x :: xs => x :: shuffle [] xs
  | c :: cs, x :: xs => insertAt c x (shuffle cs xs)

/-- Go `strings.ToLower` on the ASCII strings the watcher handles (hex addresses and
Solidity identifiers): every character is lowercased. -/
def toLower (s : String) : String := ⟨s.data.map Char.toLower⟩

/-! ## Data model -/

/-- Go `error` values returned by collaborators; `sql.ErrNoRows` is told apart. -/
inductive GoError where
  | ErrNoRows
  | other (msg : String)
deriving DecidableEq, Repr

/-- Go `err.Error()`. -/
def GoError.Error : GoError → String
  | .ErrNoRows => "sql: no rows in result set"
  | .other msg => msg

/-- A `core.Header` of the header-sync database. -/
structure Header where
  ID : Int
  BlockNumber : Int
  Hash : String
deriving DecidableEq, Repr

/-- A `types.Event`: its name and its topic-0 signature `Sig()`. -/
structure Event where
  Name : String
  Sig : String
deriving DecidableEq, Repr

/-- A `types.Method`. -/
structure Method where
  Name : String
deriving DecidableEq, Repr

/-- A raw `gethTypes.Log`; `Address` holds `log.Address.Hex()`. -/
structure Log where
  Address : String
  Topics : List String
  Data : String
deriving DecidableEq, Repr

/-- A converted `types.Log` row. -/
structure ConvertedLog where
  ID : Int
  Values : List (String × String)
deriving DecidableEq, Repr

/-- A `contract.Contract`, with the fields `Init` fills in. -/
structure Contract where
  Name : String
  Network : String
  Address : String
  Abi : String
  ParsedAbi : String
  StartingBlock : Int
  Events : GoMap Event
  Methods : GoMap Method
  FilterArgs : GoMap Bool
  MethodArgs : GoMap Bool
  Piping : Bool
deriving DecidableEq, Repr

/-- A `config.ContractConfig`. -/
structure ContractConfig where
  Network : String
  Addresses : GoMap Bool
  Abis : GoMap String
  Events : GoMap (List String)
  Methods : GoMap (List String)
  EventArgs : GoMap (List String)
  MethodArgs : GoMap (List String)
  StartingBlocks : GoMap Int
  Piping : GoMap Bool
deriving DecidableEq, Repr

/-- The `Transformer` struct: configuration, contracts and the internally
configured variables. -/
structure Transformer where
  Config : ContractConfig
  Contracts : GoMap Contract
  contractAddresses : List String
  sortedEventIds : GoMap (List String)
  sortedMethodIds : GoMap (List String)
  eventIds : List String
  eventFilters : List String
  Start : Int
deriving DecidableEq, Repr

/-- One collaborator call, with its arguments and what it answered. -/
inductive Call where
  | Parse (addr : String) (err : Option GoError)
  | ParseAbiStr (abi : String) (err : Option GoError)
  | RetrieveFirstBlock (ret : Int) (err : Option GoError)
  | FetchContractData (abi addr method : String) (methodArgs : Option (List String))
      (blockNumber : Int) (out : String)
      (err : Option GoError)
  | AddCheckColumn (id : String) (err : Option GoError)
  | MissingHeadersForAll (lo hi : Int) (ids : List String) (err : Option GoError)
  | FetchLogs (addrs topics : List String) (header : Header) (logs : List Log)
      (err : Option GoError)
  | MarkHeaderCheckedForAll (id : Int) (ids : List String) (err : Option GoError)
  | ConverterUpdate (con : Option Contract)
  | ConvertBatch (logs : List Log) (events : GoMap Event) (id : Int) (err : Option GoError)
  | PersistLogs (logs : List ConvertedLog) (event : Event) (addr name : String)
      (err : Option GoError)
  | PollContractAt (con : Contract) (blockNumber : Int) (err : Option GoError)
deriving DecidableEq, Repr

/-- The collaborators of the transformer, as state-passing functions over a world
`W`.  A fallible Go function returning `(v, err)` answers a value and an optional
error. -/
structure Collaborators (W : Type) where
  rangeOrder : W → W × List Nat
  Parse : W → String → W × Option GoError
  ParseAbiStr : W → String → W × Option GoError
  Abi : W → String
  ParsedAbi : W → String
  GetEvents : W → List String → GoMap Event
  GetSelectMethods : W → List String → GoMap Method
  RetrieveFirstBlock : W → W × Int × Option GoError
  FetchContractData : W → String → String → String → Option (List String) → Int →
    W × String × Option GoError
  AddCheckColumn : W → String → W × Option GoError
  MissingHeadersForAll : W → Int → Int → List String → W × List Header × Option GoError
  MarkHeaderCheckedForAll : W → Int → List String → W × Option GoError
  FetchLogs : W → List String → List String → Header → W × List Log × Option GoError
  ConverterUpdate : W → Option Contract → W
  ConvertBatch : W → List Log → GoMap Event → Int → W × GoMap (List ConvertedLog) × Option GoError
  PersistLogs : W → List ConvertedLog → Event → String → String → W × Option GoError
  PollContractAt : W → Contract → Int → W × Option GoError

/-- How a Go function ended: `nil`, an error, or a run-time fault. -/
inductive Outcome where
  | ok
  | error (msg : String)
  | fault (msg : String)
deriving DecidableEq, Repr

/-- The result of running a piece of the transformer: the world afterwards, the
calls made, and how it ended. -/
structure Res (W : Type) where
  world : W
  trace : List Call
  out : Outcome

/-! ## Execute -/

/-- One `range` over a Go map: the world after asking for the order, and the
entries in the order they are visited. -/
def rangeMap {W V : Type} (C : Collaborators W) (w : W) (m : GoMap V) : W × List (String × V) :=
  ((C.rangeOrder w).1, shuffle (C.rangeOrder w).2 m)

/-- The body of the loop of `methodPolling`, over the contracts still to visit. -/
def pollContracts {W : Type} (C : Collaborators W) (sortedMethodIds : GoMap (List String))
    (header : Header) : List (String × Contract) → W → Res W
  | [], w => ⟨w, [], .ok⟩
  | (_, con) :: rest, w =>
    if con.Methods.length = 0 ∨ header.BlockNumber < con.StartingBlock then
      pollContracts C sortedMethodIds header rest w
    else
      match C.PollContractAt w con header.BlockNumber with
      | (w1, some pollingErr) =>
        ⟨w1, [Call.PollContractAt con header.BlockNumber (some pollingErr)],
          .error ("error polling contract " ++ con.Address ++ ": " ++ pollingErr.Error)⟩
      | (w1, none) =>
        match C.MarkHeaderCheckedForAll w1 header.ID (GoMap.getD sortedMethodIds con.Address []) with
        | (w2, some markCheckedErr) =>
          ⟨w2, [Call.PollContractAt con header.BlockNumber none,
              Call.MarkHeaderCheckedForAll header.ID (GoMap.getD sortedMethodIds con.Address [])
                (some markCheckedErr)],
            .error ("error marking header checked: " ++ markCheckedErr.Error)⟩
        | (w2, none) =>
          let r := pollContracts C sortedMethodIds header rest w2
          ⟨r.world, Call.PollContractAt con header.BlockNumber none ::
              Call.MarkHeaderCheckedForAll header.ID (GoMap.getD sortedMethodIds con.Address []) none ::
              r.trace, r.out⟩

/-- `Transformer.methodPolling`: poll the methods of every contract at a header. -/
def methodPolling {W : Type} (C : Collaborators W) (tr : Transformer) (header : Header)
    (sortedMethodIds : GoMap (List String)) (w : W) : Res W :=
  pollContracts C sortedMethodIds header (rangeMap C w tr.Contracts).2 (rangeMap C w tr.Contracts).1

/-- The first loop of a non-empty header: `sortedLogs[addr] = append(sortedLogs[addr], log)`
with `addr` the lowercased hex address of the log. -/
def sortLogs (allLogs : List Log) : GoMap (List Log) :=
  allLogs.foldl
    (fun sortedLogs log =>
      GoMap.set sortedLogs (toLower log.Address)
        (GoMap.getD sortedLogs (toLower log.Address) [] ++ [log]))
    []

/-- The loop over the converted logs of one contract: persist every non-empty
event bucket. -/
def persistEvents {W : Type} (C : Collaborators W) (con : Contract) :
    List (String × List ConvertedLog) → W → Res W
  | [], w => ⟨w, [], .ok⟩
  | (eventName, logs) :: rest, w =>
    if logs.length < 1 then persistEvents C con rest w
    else
      match C.PersistLogs w logs (GoMap.getD con.Events eventName ⟨"", ""⟩) con.Address con.Name with
      | (w1, some persistErr) =>
        ⟨w1, [Call.PersistLogs logs (GoMap.getD con.Events eventName ⟨"", ""⟩) con.Address con.Name
            (some persistErr)],
          .error ("error persisting logs: " ++ persistErr.Error)⟩
      | (w1, none) =>
        let r := persistEvents C con rest w1
        ⟨r.world, Call.PersistLogs logs (GoMap.getD con.Events eventName ⟨"", ""⟩) con.Address
            con.Name none :: r.trace, r.out⟩

/-- The loop over `sortedLogs`: convert and persist the logs of each contract.
`tr.Contracts[conAddr]` is a nil pointer when the address is not a key, and reading
`con.Events` through it is a run-time fault. -/
def processContracts {W : Type} (C : Collaborators W) (tr : Transformer) (header : Header) :
    List (String × List Log) → W → Res W
  | [], w => ⟨w, [], .ok⟩
  | (conAddr, logs) :: rest, w =>
    if logs = [] then processContracts C tr header rest w
    else
      match List.lookup conAddr tr.Contracts with
      | none =>
        ⟨C.ConverterUpdate w none, [Call.ConverterUpdate none],
          .fault "invalid memory address or nil pointer dereference"⟩
      | some con =>
        match C.ConvertBatch (C.ConverterUpdate w (some con)) logs con.Events header.ID with
        | (w1, _, some convertErr) =>
          ⟨w1, [Call.ConverterUpdate (some con),
              Call.ConvertBatch logs con.Events header.ID (some convertErr)],
            .error ("error converting logs: " ++ convertErr.Error)⟩
        | (w1, convertedLogs, none) =>
          let p := persistEvents C con (rangeMap C w1 convertedLogs).2 (rangeMap C w1 convertedLogs).1
          match p.out with
          | .ok =>
            let r := processContracts C tr header rest p.world
            ⟨r.world, Call.ConverterUpdate (some con) ::
                Call.ConvertBatch logs con.Events header.ID none :: (p.trace ++ r.trace), r.out⟩
          | out =>
            ⟨p.world, Call.ConverterUpdate (some con) ::
                Call.ConvertBatch logs con.Events header.ID none :: p.trace, out⟩

/-- The two statements that end the body of the header loop on both of its paths:
mark the header checked for all event ids, then poll the methods. -/
def markAndPoll {W : Type} (C : Collaborators W) (tr : Transformer) (header : Header) (w : W) :
    Res W :=
  match C.MarkHeaderCheckedForAll w header.ID tr.eventIds with
  | (w1, some markCheckedErr) =>
    ⟨w1, [Call.MarkHeaderCheckedForAll header.ID tr.eventIds (some markCheckedErr)],
      .error ("error marking header checked: " ++ markCheckedErr.Error)⟩
  | (w1, none) =>
    match (methodPolling C tr header tr.sortedMethodIds w1) with
    | ⟨w2, t, .ok⟩ => ⟨w2, Call.MarkHeaderCheckedForAll header.ID tr.eventIds none :: t, .ok⟩
    | ⟨w2, t, .error pollingErr⟩ =>
      ⟨w2, Call.MarkHeaderCheckedForAll header.ID tr.eventIds none :: t,
        .error ("error polling methods: " ++ pollingErr)⟩
    | ⟨w2, t, .fault msg⟩ =>
      ⟨w2, Call.MarkHeaderCheckedForAll header.ID tr.eventIds none :: t, .fault msg⟩

/-- The body of the header loop of `Execute` for one header, after `Start` has been
set to the header: fetch, convert and persist the logs, mark, poll. -/
def processHeader {W : Type} (C : Collaborators W) (tr : Transformer) (header : Header) (w : W) :
    Res W :=
  match C.FetchLogs w tr.contractAddresses tr.eventFilters header with
  | (w1, allLogs, some fetchErr) =>
    ⟨w1, [Call.FetchLogs tr.contractAddresses tr.eventFilters header allLogs (some fetchErr)],
      .error ("error fetching logs: " ++ fetchErr.Error)⟩
  | (w1, allLogs, none) =>
    if allLogs.length < 1 then
      let r := markAndPoll C tr header w1
      ⟨r.world, Call.FetchLogs tr.contractAddresses tr.eventFilters header allLogs none :: r.trace,
        r.out⟩
    else
      let p := processContracts C tr header (rangeMap C w1 (sortLogs allLogs)).2
        (rangeMap C w1 (sortLogs allLogs)).1
      match p.out with
      | .ok =>
        let r := markAndPoll C tr header p.world
        ⟨r.world, Call.FetchLogs tr.contractAddresses tr.eventFilters header allLogs none ::
          (p.trace ++ r.trace), r.out⟩
      | out =>
        ⟨p.world, Call.FetchLogs tr.contractAddresses tr.eventFilters header allLogs none ::
          p.trace, out⟩

/-- The result of `Execute`: the world and the value of `Start` afterwards, the
calls made before the header loop, the calls made for each header the loop
reached (in order), the value `Start` had when the loop left each of these headers
(in the same order), and how `Execute` ended. -/
structure ExecResult (W : Type) where
  world : W
  Start : Int
  before : List Call
  log : List (Header × List Call)
  starts : List Int
  out : Outcome

/-- The header loop of `Execute`.  `start` is the current value of `tr.Start`. -/
def headerLoop {W : Type} (C : Collaborators W) (tr : Transformer) :
    List Header → W → Int → ExecResult W
  | [], w, start => ⟨w, start, [], [], [], .ok⟩
  | header :: rest, w, _ =>
    match processHeader C tr header w with
    | ⟨w1, t, .ok⟩ =>
      let r := headerLoop C tr rest w1 (wrapInt64 (header.BlockNumber + 1))
      ⟨r.world, r.Start, [], (header, t) :: r.log,
        wrapInt64 (header.BlockNumber + 1) :: r.starts, r.out⟩
    | ⟨w1, t, out⟩ => ⟨w1, header.BlockNumber, [], [(header, t)], [header.BlockNumber], out⟩

/-- `Transformer.Execute`. -/
def Execute {W : Type} (C : Collaborators W) (tr : Transformer) (w : W) : ExecResult W :=
  if tr.Contracts.length = 0 then
    ⟨w, tr.Start, [], [], [], .error "error: transformer has no initialized contracts"⟩
  else
    match C.MissingHeadersForAll w tr.Start (-1) tr.eventIds with
    | (w1, _, some missingHeadersErr) =>
      ⟨w1, tr.Start, [Call.MissingHeadersForAll tr.Start (-1) tr.eventIds (some missingHeadersErr)],
        [], [], .error ("error getting missing headers: " ++ missingHeadersErr.Error)⟩
    | (w1, missingHeaders, none) =>
      let r := headerLoop C tr missingHeaders w1 tr.Start
      ⟨r.world, r.Start, [Call.MissingHeadersForAll tr.Start (-1) tr.eventIds none], r.log,
        r.starts, r.out⟩

/-- The transformer after `Execute`: only `Start` is written. -/
def ExecResult.transformer {W : Type} (r : ExecResult W) (tr : Transformer) : Transformer :=
  { tr with Start := r.Start }

/-! ## The header repository of the specification -/

/-- The state of the header repository: the `headers` table, the header ids that
have a `checked_headers` row, and the (header id, column) pairs that are TRUE. -/
structure HeaderDB where
  headers : List Header
  rows : List Int
  checked : List (Int × String)
deriving DecidableEq, Repr

/-- Ascending block number, ties broken by ascending id. -/
def headerLE (a b : Header) : Prop :=
  a.BlockNumber < b.BlockNumber ∨ (a.BlockNumber = b.BlockNumber ∧ a.ID ≤ b.ID)

instance : DecidableRel headerLE := fun a b =>
  inferInstanceAs (Decidable (a.BlockNumber < b.BlockNumber ∨ (a.BlockNumber = b.BlockNumber ∧ a.ID ≤ b.ID)))

/-- A header is missing for `ids` when it has no `checked_headers` row or one of
the listed columns is not TRUE for it. -/
def HeaderDB.isMissing (db : HeaderDB) (ids : List String) (h : Header) : Bool :=
  !(db.rows.contains h.ID) || ids.any (fun id => !(db.checked.contains (h.ID, id)))

/-- Modelled from the spec: `HeaderRepository.MissingHeadersForAll` (package
`repository`, not among the sources).  It returns the headers with
`lo ≤ block_number ≤ hi` (`hi < 0` means no upper bound) that are missing for
`ids`, in ascending block number, ties in ascending id. -/
def HeaderDB.MissingHeadersForAll (db : HeaderDB) (lo hi : Int) (ids : List String) :
    List Header :=
  List.insertionSort headerLE
    (db.headers.filter (fun h =>
      decide (lo ≤ h.BlockNumber) && (decide (hi < 0) || decide (h.BlockNumber ≤ hi)) &&
        db.isMissing ids h))

/-- Modelled from the spec: `HeaderRepository.MarkHeaderCheckedForAll` (package
`repository`, not among the sources).  It upserts the row of the header and sets
each listed column TRUE. -/
def HeaderDB.MarkHeaderCheckedForAll (db : HeaderDB) (id : Int) (ids : List String) : HeaderDB :=
  { db with rows := id :: db.rows, checked := ids.map (fun c => (id, c)) ++ db.checked }

/-- Collaborators over a world `E`, with their header repository replaced by the
header repository of the specification over a `HeaderDB`; every other collaborator
keeps acting on its own part of the world. -/
def withHeaderRepo {E : Type} (C : Collaborators E) : Collaborators (HeaderDB × E) where
  rangeOrder := fun w => ((w.1, (C.rangeOrder w.2).1), (C.rangeOrder w.2).2)
  Parse := fun w a => ((w.1, (C.Parse w.2 a).1), (C.Parse w.2 a).2)
  ParseAbiStr := fun w a => ((w.1, (C.ParseAbiStr w.2 a).1), (C.ParseAbiStr w.2 a).2)
  Abi := fun w => C.Abi w.2
  ParsedAbi := fun w => C.ParsedAbi w.2
  GetEvents := fun w names => C.GetEvents w.2 names
  GetSelectMethods := fun w names => C.GetSelectMethods w.2 names
  RetrieveFirstBlock := fun w => ((w.1, (C.RetrieveFirstBlock w.2).1), (C.RetrieveFirstBlock w.2).2)
  FetchContractData := fun w a b c args n =>
    ((w.1, (C.FetchContractData w.2 a b c args n).1), (C.FetchContractData w.2 a b c args n).2)
  AddCheckColumn := fun w id => ((w.1, (C.AddCheckColumn w.2 id).1), (C.AddCheckColumn w.2 id).2)
  MissingHeadersForAll := fun w lo hi ids => (w, w.1.MissingHeadersForAll lo hi ids, none)
  MarkHeaderCheckedForAll := fun w id ids => ((w.1.MarkHeaderCheckedForAll id ids, w.2), none)
  FetchLogs := fun w a t h => ((w.1, (C.FetchLogs w.2 a t h).1), (C.FetchLogs w.2 a t h).2)
  ConverterUpdate := fun w c => (w.1, C.ConverterUpdate w.2 c)
  ConvertBatch := fun w l e i => ((w.1, (C.ConvertBatch w.2 l e i).1), (C.ConvertBatch w.2 l e i).2)
  PersistLogs := fun w l e a n => ((w.1, (C.PersistLogs w.2 l e a n).1), (C.PersistLogs w.2 l e a n).2)
  PollContractAt := fun w c n => ((w.1, (C.PollContractAt w.2 c n).1), (C.PollContractAt w.2 c n).2)

/-! ## Concrete collaborators used to run the code on examples -/

/-- Collaborators without state that answer every call with success and an empty
value, and visit every map in its stored order. -/
def quietCollab : Collaborators Unit where
  rangeOrder := fun w => (w, [])
  Parse := fun w _ => (w, none)
  ParseAbiStr := fun w _ => (w, none)
  Abi := fun _ => ""
  ParsedAbi := fun _ => ""
  GetEvents := fun _ _ => []
  GetSelectMethods := fun _ _ => []
  RetrieveFirstBlock := fun w => (w, 0, none)
  FetchContractData := fun w _ _ _ _ _ => (w, "", none)
  AddCheckColumn := fun w _ => (w, none)
  MissingHeadersForAll := fun w _ _ _ => (w, [], none)
  MarkHeaderCheckedForAll := fun w _ _ => (w, none)
  FetchLogs := fun w _ _ _ => (w, [], none)
  ConverterUpdate := fun w _ => w
  ConvertBatch := fun w _ _ _ => (w, [], none)
  PersistLogs := fun w _ _ _ _ => (w, none)
  PollContractAt := fun w _ _ => (w, none)


/-! ## Init -/

/-- The result of running a piece of `Init`: the world, the transformer as written so
far, the calls made, and how it ended. -/
structure InitStep (W : Type) where
  world : W
  tr : Transformer
  trace : List Call
  out : Outcome

/-- The event id (and checked-column name) `strings.ToLower(event.Name + "_" + con.Address)`;
the same expression gives the method id. -/
def columnID (name address : String) : String :=
  toLower (name ++ "_" ++ address)

/-- The loop of `Init` over `con.Events`: add a check column for each event id and keep
track of the id and of the topic-0 signature. -/
def addEventColumns {W : Type} (C : Collaborators W) (con : Contract) :
    List (String × Event) → W → Transformer → InitStep W
  | [], w, tr => ⟨w, tr, [], .ok⟩
  | (_, event) :: rest, w, tr =>
    match C.AddCheckColumn w (columnID event.Name con.Address) with
    | (w1, some addColumnErr) =>
      ⟨w1, tr, [Call.AddCheckColumn (columnID event.Name con.Address) (some addColumnErr)],
        .error ("error adding check column: " ++ addColumnErr.Error)⟩
    | (w1, none) =>
      let r := addEventColumns C con rest w1
        { tr with
          sortedEventIds := GoMap.set tr.sortedEventIds con.Address
            (GoMap.getD tr.sortedEventIds con.Address [] ++ [columnID event.Name con.Address])
          eventIds := tr.eventIds ++ [columnID event.Name con.Address]
          eventFilters := tr.eventFilters ++ [event.Sig] }
      ⟨r.world, r.tr, Call.AddCheckColumn (columnID event.Name con.Address) none :: r.trace, r.out⟩

/-- The loop of `Init` over `con.Methods`: add a check column for each method id and keep
track of the id. -/
def addMethodColumns {W : Type} (C : Collaborators W) (con : Contract) :
    List (String × Method) → W → Transformer → InitStep W
  | [], w, tr => ⟨w, tr, [], .ok⟩
  | (_, m) :: rest, w, tr =>
    match C.AddCheckColumn w (columnID m.Name con.Address) with
    | (w1, some addColumnErr) =>
      ⟨w1, tr, [Call.AddCheckColumn (columnID m.Name con.Address) (some addColumnErr)],
        .error ("error adding check column: " ++ addColumnErr.Error)⟩
    | (w1, none) =>
      let r := addMethodColumns C con rest w1
        { tr with
          sortedMethodIds := GoMap.set tr.sortedMethodIds con.Address
            (GoMap.getD tr.sortedMethodIds con.Address [] ++ [columnID m.Name con.Address]) }
      ⟨r.world, r.tr, Call.AddCheckColumn (columnID m.Name con.Address) none :: r.trace, r.out⟩

/-- The argument whitelist as a set: `args[arg] = true` for every configured argument. -/
def argSet (args : List String) : GoMap Bool :=
  args.foldl (fun m arg => GoMap.set m arg true) []

/-- The first block `Init` uses: 0 when `RetrieveFirstBlock` signals `sql.ErrNoRows`,
raised to the configured starting block when it lies below it. -/
def firstBlockFor (ret : Int) (err : Option GoError) (configured : Int) : Int :=
  let firstBlock := if err = some GoError.ErrNoRows then 0 else ret
  if firstBlock < configured then configured else firstBlock

/-- Modelled from the spec: `contract.Contract.Init` (package `contract`, not among the
sources) prepares the contract's internal caches for piping and returns the contract;
the fields the transformer reads are left as they are. -/
def Contract.Init (con : Contract) : Contract := con

/-- The contract object `Init` aggregates for an address: `name` is what the `name()` call
wrote, `w2` the world after that call, `ret` and `retrieveErr` what `RetrieveFirstBlock`
answered. -/
def newContract {W : Type} (C : Collaborators W) (tr : Transformer) (contractAddr : String)
    (w2 : W) (name : String) (ret : Int) (retrieveErr : Option GoError) : Contract :=
  Contract.Init
    { Name := name
      Network := tr.Config.Network
      Address := contractAddr
      Abi := C.Abi w2
      ParsedAbi := C.ParsedAbi w2
      StartingBlock :=
        firstBlockFor ret retrieveErr (GoMap.getD tr.Config.StartingBlocks contractAddr 0)
      Events := C.GetEvents w2 (GoMap.getD tr.Config.Events contractAddr [])
      Methods := C.GetSelectMethods w2 (GoMap.getD tr.Config.Methods contractAddr [])
      FilterArgs := argSet (GoMap.getD tr.Config.EventArgs contractAddr [])
      MethodArgs := argSet (GoMap.getD tr.Config.MethodArgs contractAddr [])
      Piping := GoMap.getD tr.Config.Piping contractAddr false }

/-- The end of the body of the loop of `Init`, once the contract is stored: the check
columns of its events, those of its methods, and the update of `Start`. -/
def addColumns {W : Type} (C : Collaborators W) (con : Contract) (w2 : W) (tr1 : Transformer) :
    InitStep W :=
  match addEventColumns C con (rangeMap C w2 con.Events).2 (rangeMap C w2 con.Events).1
      { tr1 with sortedEventIds := GoMap.set tr1.sortedEventIds con.Address [] } with
  | ⟨w3, tr2, evTrace, .ok⟩ =>
    match addMethodColumns C con (rangeMap C w3 con.Methods).2 (rangeMap C w3 con.Methods).1
        { tr2 with sortedMethodIds := GoMap.set tr2.sortedMethodIds con.Address [] } with
    | ⟨w4, tr3, meTrace, .ok⟩ =>
      ⟨w4, if con.StartingBlock < tr3.Start then { tr3 with Start := con.StartingBlock } else tr3,
        evTrace ++ meTrace, .ok⟩
    | ⟨w4, tr3, meTrace, out⟩ => ⟨w4, tr3, evTrace ++ meTrace, out⟩
  | ⟨w3, tr2, evTrace, out⟩ => ⟨w3, tr2, evTrace, out⟩

/-- The part of the body of the loop of `Init` that follows the first block: contract
name, contract object, check columns, `Start`.  `parseCall` is the parser call already
made for this address, `ret` and `retrieveErr` what `RetrieveFirstBlock` answered. -/
def buildFrom {W : Type} (C : Collaborators W) (contractAddr : String) (tr : Transformer)
    (parseCall : Call) (w1 : W) (ret : Int) (retrieveErr : Option GoError) : InitStep W :=
  match C.FetchContractData w1 (C.Abi w1) contractAddr "name" none (-1) with
  | (w2, name, pollingErr) =>
    match addColumns C (newContract C tr contractAddr w2 name ret retrieveErr) w2
        { tr with
          Contracts := GoMap.set tr.Contracts contractAddr
            (newContract C tr contractAddr w2 name ret retrieveErr)
          contractAddresses := tr.contractAddresses ++
            [(newContract C tr contractAddr w2 name ret retrieveErr).Address] } with
    | ⟨w3, tr1, t, out⟩ =>
      ⟨w3, tr1, parseCall :: Call.RetrieveFirstBlock ret retrieveErr ::
        Call.FetchContractData (C.Abi w1) contractAddr "name" none (-1) name pollingErr :: t,
        out⟩

/-- The part of the body of the loop of `Init` that follows the ABI: the first block,
then the rest. -/
def buildContract {W : Type} (C : Collaborators W) (contractAddr : String) (w : W)
    (tr : Transformer) (parseCall : Call) : InitStep W :=
  match C.RetrieveFirstBlock w with
  | (w1, ret, some retrieveErr) =>
    if retrieveErr = GoError.ErrNoRows then
      buildFrom C contractAddr tr parseCall w1 ret (some retrieveErr)
    else
      ⟨w1, tr, [parseCall, Call.RetrieveFirstBlock ret (some retrieveErr)],
        .error ("error retrieving first block: " ++ retrieveErr.Error)⟩
  | (w1, ret, none) => buildFrom C contractAddr tr parseCall w1 ret none

/-- The body of the loop of `Init` for one configured address. -/
def initContract {W : Type} (C : Collaborators W) (contractAddr : String) (w : W)
    (tr : Transformer) : InitStep W :=
  if GoMap.getD tr.Config.Abis contractAddr "" = "" then
    match C.Parse w contractAddr with
    | (w1, some parseErr) =>
      ⟨w1, tr, [Call.Parse contractAddr (some parseErr)],
        .error ("error parsing contract by address: " ++ parseErr.Error)⟩
    | (w1, none) => buildContract C contractAddr w1 tr (Call.Parse contractAddr none)
  else
    match C.ParseAbiStr w (GoMap.getD tr.Config.Abis contractAddr "") with
    | (w1, some parseErr) =>
      ⟨w1, tr, [Call.ParseAbiStr (GoMap.getD tr.Config.Abis contractAddr "") (some parseErr)],
        .error ("error parsing contract abi: " ++ parseErr.Error)⟩
    | (w1, none) =>
      buildContract C contractAddr w1 tr
        (Call.ParseAbiStr (GoMap.getD tr.Config.Abis contractAddr "") none)

/-- The result of `Init`: the world and the transformer afterwards, the calls made for
each configured address the loop reached (in order), and how `Init` ended. -/
structure InitResult (W : Type) where
  world : W
  tr : Transformer
  log : List (String × List Call)
  out : Outcome

/-- The loop of `Init` over the configured addresses still to visit. -/
def initLoop {W : Type} (C : Collaborators W) :
    List (String × Bool) → W → Transformer → InitResult W
  | [], w, tr => ⟨w, tr, [], .ok⟩
  | (contractAddr, _) :: rest, w, tr =>
    match initContract C contractAddr w tr with
    | ⟨w1, tr1, t, .ok⟩ =>
      let r := initLoop C rest w1 tr1
      ⟨r.world, r.tr, (contractAddr, t) :: r.log, r.out⟩
    | ⟨w1, tr1, t, out⟩ => ⟨w1, tr1, [(contractAddr, t)], out⟩

/-- `Transformer.Init`. -/
def Init {W : Type} (C : Collaborators W) (tr : Transformer) (w : W) : InitResult W :=
  initLoop C (rangeMap C w tr.Config.Addresses).2 (rangeMap C w tr.Config.Addresses).1
    { tr with
      contractAddresses := []
      sortedEventIds := []
      sortedMethodIds := []
      eventIds := []
      eventFilters := []
      Start := MaxInt64 }

/-! ## Reading traces -/

/-- The error a call answered, if any. -/
def Call.err : Call → Option GoError
  | .Parse _ e => e
  | .ParseAbiStr _ e => e
  | .RetrieveFirstBlock _ e => e
  | .FetchContractData _ _ _ _ _ _ e => e
  | .AddCheckColumn _ e => e
  | .MissingHeadersForAll _ _ _ e => e
  | .FetchLogs _ _ _ _ e => e
  | .MarkHeaderCheckedForAll _ _ e => e
  | .ConverterUpdate _ => none
  | .ConvertBatch _ _ _ e => e
  | .PersistLogs _ _ _ _ e => e
  | .PollContractAt _ _ e => e

/-- The call answered an error. -/
def Call.failed (c : Call) : Bool := c.err.isSome

def Call.isFetchLogs : Call → Bool
  | .FetchLogs _ _ _ _ _ => true
  | _ => false

def Call.isConvertBatch : Call → Bool
  | .ConvertBatch _ _ _ _ => true
  | _ => false

def Call.isPersistLogs : Call → Bool
  | .PersistLogs _ _ _ _ _ => true
  | _ => false

def Call.isPollContractAt : Call → Bool
  | .PollContractAt _ _ _ => true
  | _ => false

def Call.isMark : Call → Bool
  | .MarkHeaderCheckedForAll _ _ _ => true
  | _ => false

/-- The columns a `MarkHeaderCheckedForAll` call lists; no column for any other call. -/
def Call.markIds : Call → List String
  | .MarkHeaderCheckedForAll _ ids _ => ids
  | _ => []

/-- Calls of the event phase of a header: fetching, converting, persisting. -/
def Call.isEventPhase : Call → Bool
  | .FetchLogs _ _ _ _ _ => true
  | .ConverterUpdate _ => true
  | .ConvertBatch _ _ _ _ => true
  | .PersistLogs _ _ _ _ _ => true
  | _ => false

/-- Calls of the marking and polling phase of a header. -/
def Call.isMarkPhase : Call → Bool
  | .MarkHeaderCheckedForAll _ _ _ => true
  | .PollContractAt _ _ _ => true
  | _ => false

/-- The value of `Start` after the header loop went through all of `hs`. -/
def startAfter (start : Int) (hs : List Header) : Int :=
  match hs.getLast? with
  | none => start
  | some h => wrapInt64 (h.BlockNumber + 1)

/-- A log entry of a header whose processing ended without error. -/
def OkRun (C : Collaborators W) (tr : Transformer) (e : Header × List Call) : Prop :=
  ∃ w, (processHeader C tr e.1 w).trace = e.2 ∧ (processHeader C tr e.1 w).out = .ok

/-- The header has a `checked_headers` row with every column of `ids` TRUE. -/
def HeaderDB.marked (db : HeaderDB) (ids : List String) (id : Int) : Prop :=
  id ∈ db.rows ∧ ∀ c ∈ ids, (id, c) ∈ db.checked

/-- The repository `b` has the headers of `a` and at least its check marks. -/
def HeaderDB.le (a b : HeaderDB) : Prop :=
  b.headers = a.headers ∧ a.rows ⊆ b.rows ∧ a.checked ⊆ b.checked

def Call.isAddCheckColumn : Call → Bool
  | .AddCheckColumn _ _ => true
  | _ => false

def Call.isRetrieveFirstBlock : Call → Bool
  | .RetrieveFirstBlock _ _ => true
  | _ => false

/-- What one pass of the loop of `Init` leaves for the address `addr`: the contract stored
under it, the lists of its event and method ids, and the calls of the pass. -/
def BuiltAt (cfg : ContractConfig) (t : Transformer) (trace : List Call) (addr : String) : Prop :=
  ∃ (con : Contract) (evs : List (String × Event)) (ms : List (String × Method)) (ret : Int)
    (err : Option GoError) (pc fc : Call),
    List.lookup addr t.Contracts = some con ∧ con.Address = addr ∧
    con.StartingBlock = firstBlockFor ret err (GoMap.getD cfg.StartingBlocks addr 0) ∧
    (err = none ∨ err = some GoError.ErrNoRows) ∧
    evs.Perm con.Events ∧ ms.Perm con.Methods ∧
    GoMap.getD t.sortedEventIds addr [] = evs.map (fun p => columnID p.2.Name addr) ∧
    GoMap.getD t.sortedMethodIds addr [] = ms.map (fun p => columnID p.2.Name addr) ∧
    trace = pc :: Call.RetrieveFirstBlock ret err :: fc ::
      (evs.map (fun p => Call.AddCheckColumn (columnID p.2.Name addr) none) ++
        ms.map (fun p => Call.AddCheckColumn (columnID p.2.Name addr) none)) ∧
    pc.isRetrieveFirstBlock = false ∧ fc.isRetrieveFirstBlock = false

/-- The keys other than `addr` are as before in the three maps `Init` writes. -/
def SameElsewhere (t0 t1 : Transformer) (addr : String) : Prop :=
  ∀ k, k ≠ addr →
    List.lookup k t1.Contracts = List.lookup k t0.Contracts ∧
    List.lookup k t1.sortedEventIds = List.lookup k t0.sortedEventIds ∧
    List.lookup k t1.sortedMethodIds = List.lookup k t0.sortedMethodIds

/-- A contract with one event and one method, watched from block `startingBlock`. -/
def demoContract (addr : String) (startingBlock : Int) : Contract :=
  { Name := "", Network := "", Address := addr, Abi := "", ParsedAbi := "",
    StartingBlock := startingBlock,
    Events := [("Transfer", ⟨"Transfer", "0xddf252ad"⟩)],
    Methods := [("balanceOf", ⟨"balanceOf"⟩)],
    FilterArgs := [], MethodArgs := [], Piping := false }

/-- The empty contract configuration. -/
def emptyConfig : ContractConfig :=
  { Network := "", Addresses := [], Abis := [], Events := [], Methods := [], EventArgs := [],
    MethodArgs := [], StartingBlocks := [], Piping := [] }

/-- The transformer `Init` builds for the single contract `0xaa` watched from
block `start`. -/
def demoTransformer (start : Int) : Transformer :=
  { Config := emptyConfig,
    Contracts := [("0xaa", demoContract "0xaa" start)],
    contractAddresses := ["0xaa"],
    sortedEventIds := [("0xaa", ["transfer_0xaa"])],
    sortedMethodIds := [("0xaa", ["balanceof_0xaa"])],
    eventIds := ["transfer_0xaa"],
    eventFilters := ["0xddf252ad"],
    Start := start }

/-- The transformer `Init` builds for two contracts: `0xaa` watched from block 0
and `0xbb` watched from block 10. -/
def demoTransformer2 : Transformer :=
  { Config := emptyConfig,
    Contracts := [("0xaa", demoContract "0xaa" 0), ("0xbb", demoContract "0xbb" 10)],
    contractAddresses := ["0xaa", "0xbb"],
    sortedEventIds := [("0xaa", ["transfer_0xaa"]), ("0xbb", ["transfer_0xbb"])],
    sortedMethodIds := [("0xaa", ["balanceof_0xaa"]), ("0xbb", ["balanceof_0xbb"])],
    eventIds := ["transfer_0xaa", "transfer_0xbb"],
    eventFilters := ["0xddf252ad", "0xddf252ad"],
    Start := 0 }

/-- Collaborators that find one `Transfer` log of contract `0xAA` at every header
with block number 5 (and no log elsewhere) and convert every log into one row. -/
def demoCollab : Collaborators Unit :=
  { quietCollab with
    FetchLogs := fun w _ _ h =>
      (w, if h.BlockNumber = 5 then [⟨"0xAA", ["0xddf252ad"], "0x2a"⟩] else [], none)
    ConvertBatch := fun w logs _ id => (w, [("Transfer", logs.map (fun _ => ⟨id, []⟩))], none) }

/-- As `demoCollab`, but `PersistLogs` fails. -/
def persistFails : Collaborators Unit :=
  { demoCollab with PersistLogs := fun w _ _ _ _ => (w, some (.other "sql: connection refused")) }

/-- As `demoCollab`, but `PollContractAt` fails. -/
def pollFails : Collaborators Unit :=
  { demoCollab with PollContractAt := fun w _ _ => (w, some (.other "rpc: timeout")) }

/-- A headers table with blocks 5 and 6, nothing checked. -/
def demoDB : HeaderDB := ⟨[⟨1, 5, "0xh5"⟩, ⟨2, 6, "0xh6"⟩], [], []⟩

/-- A headers table with an unchecked header at block 5 and one at the largest
`int64` block number. -/
def edgeDB : HeaderDB := ⟨[⟨1, 5, "0xh5"⟩, ⟨2, 9223372036854775807, "0xhmax"⟩], [], []⟩

/-- Answers of collaborators that depend only on the arguments of the call: what the
parser says for an address or an ABI string (`source` is the address or ABI string parsed
last), the first block, the contract name, and whether a check column can be added. -/
structure Responses where
  parse : String → Option GoError
  parseAbiStr : String → Option GoError
  abi : String → String
  parsedAbi : String → String
  getEvents : String → List String → GoMap Event
  getSelectMethods : String → List String → GoMap Method
  firstBlock : Int × Option GoError
  contractName : String → String → String × Option GoError
  addCheckColumn : String → Option GoError

/-- The world of scripted collaborators: the source the parser holds, and the shuffle
codes the coming `range` statements will get. -/
structure ScriptWorld where
  source : String
  orders : List (List Nat)
deriving DecidableEq, Repr

/-- Collaborators that answer from a table of responses; the only state is the source
the parser holds and the list of coming shuffle codes. -/
def scripted (R : Responses) : Collaborators ScriptWorld where
  rangeOrder := fun w => ({ w with orders := w.orders.tail }, w.orders.headD [])
  Parse := fun w addr => ({ w with source := addr }, R.parse addr)
  ParseAbiStr := fun w s => ({ w with source := s }, R.parseAbiStr s)
  Abi := fun w => R.abi w.source
  ParsedAbi := fun w => R.parsedAbi w.source
  GetEvents := fun w names => R.getEvents w.source names
  GetSelectMethods := fun w names => R.getSelectMethods w.source names
  RetrieveFirstBlock := fun w => (w, R.firstBlock)
  FetchContractData := fun w a addr _ _ _ => (w, R.contractName a addr)
  AddCheckColumn := fun w id => (w, R.addCheckColumn id)
  MissingHeadersForAll := fun w _ _ _ => (w, [], none)
  MarkHeaderCheckedForAll := fun w _ _ => (w, none)
  FetchLogs := fun w _ _ _ => (w, [], none)
  ConverterUpdate := fun w _ => w
  ConvertBatch := fun w _ _ _ => (w, [], none)
  PersistLogs := fun w _ _ _ _ => (w, none)
  PollContractAt := fun w _ _ => (w, none)

/-- Responses of a chain where every contract has the events and methods asked for, the
headers table starts at block 3, and no contract has a `name()`. -/
def demoResponses : Responses where
  parse := fun _ => none
  parseAbiStr := fun _ => none
  abi := fun source => "abi of " ++ source
  parsedAbi := fun source => "parsed abi of " ++ source
  getEvents := fun _ names => names.map (fun n => (n, ⟨n, "topic0 of " ++ n⟩))
  getSelectMethods := fun _ names => names.map (fun n => (n, ⟨n⟩))
  firstBlock := (3, none)
  contractName := fun _ _ => ("", some (.other "abi: no method name"))
  addCheckColumn := fun _ => none

/-- A configuration with two contracts: `0xaa` from block 0 with events `Transfer` and
`Approval` and method `balanceOf`, and `0xbb` from block 10 with event `Transfer`. -/
def demoConfig : ContractConfig :=
  { Network := "", Addresses := [("0xaa", true), ("0xbb", true)], Abis := [],
    Events := [("0xaa", ["Transfer", "Approval"]), ("0xbb", ["Transfer"])],
    Methods := [("0xaa", ["balanceOf"])],
    EventArgs := [], MethodArgs := [],
    StartingBlocks := [("0xaa", 0), ("0xbb", 10)], Piping := [] }

/-- A transformer as `NewTransformer` returns it for `demoConfig`. -/
def newTransformer (config : ContractConfig) : Transformer :=
  { Config := config, Contracts := [], contractAddresses := [], sortedEventIds := [],
    sortedMethodIds := [], eventIds := [], eventFilters := [], Start := 0 }

/-! ## What Init builds under scripted collaborators -/

/-- What the parser is given for an address: the configured ABI string, or the address
itself when the configuration carries no ABI for it. -/
def parsedSource (cfg : ContractConfig) (addr : String) : String :=
  if GoMap.getD cfg.Abis addr "" = "" then addr else GoMap.getD cfg.Abis addr ""

/-- The contract `Init` builds for an address when the collaborators answer from the
table `R`. -/
def builtContract (R : Responses) (cfg : ContractConfig) (addr : String) : Contract :=
  { Name := (R.contractName (R.abi (parsedSource cfg addr)) addr).1
    Network := cfg.Network
    Address := addr
    Abi := R.abi (parsedSource cfg addr)
    ParsedAbi := R.parsedAbi (parsedSource cfg addr)
    StartingBlock := firstBlockFor R.firstBlock.1 R.firstBlock.2 (GoMap.getD cfg.StartingBlocks addr 0)
    Events := R.getEvents (parsedSource cfg addr) (GoMap.getD cfg.Events addr [])
    Methods := R.getSelectMethods (parsedSource cfg addr) (GoMap.getD cfg.Methods addr [])
    FilterArgs := argSet (GoMap.getD cfg.EventArgs addr [])
    MethodArgs := argSet (GoMap.getD cfg.MethodArgs addr [])
    Piping := GoMap.getD cfg.Piping addr false }

/-- The update of `Start` at the end of a pass of the loop of `Init`. -/
def lowerStart (start : Int) (con : Contract) : Int :=
  if con.StartingBlock < start then con.StartingBlock else start

/-! ## Reading the passes of Init -/

/-- How a loop over check columns can end: without error, or on the failed
`AddCheckColumn` call that is its last call. -/
def ColumnsEnd (trace : List Call) (out : Outcome) : Prop :=
  (out = .ok ∧ ∀ d ∈ trace, d.failed = false) ∨
  ∃ id e, trace.getLast? = some (Call.AddCheckColumn id (some e)) ∧
    out = .error ("error adding check column: " ++ e.Error)

/-- The parser call `Init` makes for an address: `Parse` when the configuration carries
no ABI for it, `ParseAbiStr` with the configured ABI otherwise. -/
def parseCallOf (cfg : ContractConfig) (addr : String) (err : Option GoError) : Call :=
  if GoMap.getD cfg.Abis addr "" = "" then Call.Parse addr err
  else Call.ParseAbiStr (GoMap.getD cfg.Abis addr "") err

/-- The error `Init` returns when the parser call for an address fails. -/
def parseErrorOf (cfg : ContractConfig) (addr : String) (e : GoError) : String :=
  if GoMap.getD cfg.Abis addr "" = "" then "error parsing contract by address: " ++ e.Error
  else "error parsing contract abi: " ++ e.Error

/-- A pass of the loop of `Init` that got past the first block: the calls it made, the
contract it stored under the address, and how it ended. -/
def PassBuilt {W : Type} (cfg : ContractConfig) (addr : String) (start : Int) (s : InitStep W)
    (pc : Call) : Prop :=
  ∃ (ret : Int) (err : Option GoError) (abi name : String) (perr : Option GoError)
    (cols : List Call) (con : Contract),
    (err = none ∨ err = some GoError.ErrNoRows) ∧
    s.trace = pc :: Call.RetrieveFirstBlock ret err ::
      Call.FetchContractData abi addr "name" none (-1) name perr :: cols ∧
    (∀ d ∈ cols, d.isAddCheckColumn = true) ∧
    ColumnsEnd cols s.out ∧
    List.lookup addr s.tr.Contracts = some con ∧
    con.Name = name ∧ con.Address = addr ∧
    con.StartingBlock = firstBlockFor ret err (GoMap.getD cfg.StartingBlocks addr 0) ∧
    (s.out = .ok → s.tr.Start = if con.StartingBlock < start then con.StartingBlock else start)

def Call.isParse : Call → Bool
  | .Parse _ _ => true
  | _ => false

def Call.isParseAbiStr : Call → Bool
  | .ParseAbiStr _ _ => true
  | _ => false

/-- Calls of the converter and of the event repository. -/
def Call.isConvertPhase : Call → Bool
  | .ConverterUpdate _ => true
  | .ConvertBatch _ _ _ _ => true
  | .PersistLogs _ _ _ _ _ => true
  | _ => false

/-! ## More concrete collaborators -/

/-- As `demoResponses`, but the headers table is empty: `RetrieveFirstBlock` signals
`sql.ErrNoRows`. -/
def noRowsResponses : Responses :=
  { demoResponses with firstBlock := (0, some GoError.ErrNoRows) }

/-- As `demoResponses`, but no ABI can be resolved by address. -/
def parseFailsResponses : Responses :=
  { demoResponses with parse := fun _ => some (.other "no abi found") }

/-- Modelled from the spec: `Parser.GetEvents` (package `parser`, not among the sources)
returns the events of the parsed ABI whose names appear in `names`; empty `names` selects
all of them. -/
def specGetEvents (abiEvents : List Event) (names : List String) : GoMap Event :=
  (abiEvents.filter (fun e => names.isEmpty || names.contains e.Name)).map (fun e => (e.Name, e))

/-- Modelled from the spec: `Parser.GetSelectMethods` (package `parser`, not among the
sources) returns the constant methods of the parsed ABI whose names appear in `names`. -/
def specGetSelectMethods (abiMethods : List Method) (names : List String) : GoMap Method :=
  (abiMethods.filter (fun m => names.contains m.Name)).map (fun m => (m.Name, m))

/-- Responses of a chain where every contract has the ABI of a token with the event
`Transfer` and the constant method `balanceOf`, and nothing else. -/
def tokenResponses : Responses :=
  { demoResponses with
    getEvents := fun _ names => specGetEvents [⟨"Transfer", "topic0 of Transfer"⟩] names
    getSelectMethods := fun _ names => specGetSelectMethods [⟨"balanceOf"⟩] names }

/-- A configuration that asks contract `0xaa` for the event `Bogus` and the method `bogus`,
which its ABI does not have, next to `Transfer` and `balanceOf`. -/
def unknownNameConfig : ContractConfig :=
  { Network := "", Addresses := [("0xaa", true)], Abis := [],
    Events := [("0xaa", ["Transfer", "Bogus"])],
    Methods := [("0xaa", ["balanceOf", "bogus"])],
    EventArgs := [], MethodArgs := [], StartingBlocks := [("0xaa", 0)], Piping := [] }

/-- Modelled from the spec: `BlockRetriever.RetrieveFirstBlock` (package `retriever`, not
among the sources) returns the smallest block number of the headers table and signals
`sql.ErrNoRows` when the table is empty. -/
def HeaderDB.RetrieveFirstBlock (db : HeaderDB) : Int × Option GoError :=
  match db.headers.map Header.BlockNumber with
  | [] => (0, some GoError.ErrNoRows)
  | b :: bs => (bs.foldl min b, none)

/-- Collaborators over a world `E` with their header repository and their block retriever
replaced by those of the specification over a `HeaderDB`. -/
def withHeaderStore {E : Type} (C : Collaborators E) : Collaborators (HeaderDB × E) :=
  { withHeaderRepo C with RetrieveFirstBlock := fun w => (w, w.1.RetrieveFirstBlock) }

/-- The configuration of the empty-range scenario: one contract, watched from block 100. -/
def scenarioConfig : ContractConfig :=
  { Network := "", Addresses := [("0xaa", true)], Abis := [],
    Events := [("0xaa", ["Transfer"])], Methods := [],
    EventArgs := [], MethodArgs := [], StartingBlocks := [("0xaa", 100)], Piping := [] }

/-- An empty headers table. -/
def emptyDB : HeaderDB := ⟨[], [], []⟩

/-! ## The fetcher (`pkg/fetcher/base_fetcher.go`) -/

/-- An `ethereum.CallMsg` as the fetcher fills it: the callee and the call data. -/
structure CallMsg where
  To : String
  Data : List Nat
deriving DecidableEq, Repr

/-- The ABI library the fetcher uses (`abi.ParseAbi`, `Pack`, `Unpack`) and
`common.HexToAddress`.  `Unpack` answers what the result variable holds afterwards. -/
structure AbiLib where
  ParseAbi : String → String × Option GoError
  Pack : String → String → List String → List Nat × Option GoError
  Unpack : String → String → String → List Nat → String × Option GoError
  HexToAddress : String → String

/-- An `ethereum.FilterQuery`: the block hash or block range, the contract addresses and
the topic lists a log must match. -/
structure FilterQuery where
  BlockHash : Option String
  FromBlock : Option Int
  ToBlock : Option Int
  Addresses : List String
  Topics : List (List String)
deriving DecidableEq, Repr

/-- The `core.EthClient` of the fetcher, as state-passing functions over a world `W`. -/
structure EthClient (W : Type) where
  CallContract : W → CallMsg → Option Int → W × List Nat × Option GoError
  FilterLogs : W → FilterQuery → W × List Log × Option GoError

/-- One `eth_call` issued through the client: the message, the block number (`none` is
the nil pointer, which asks for the latest block), and what the client answered. -/
structure EthCall where
  msg : CallMsg
  blockNumber : Option Int
  output : List Nat
  err : Option GoError
deriving DecidableEq, Repr

/-- The result of a fetcher method: the world afterwards, the calls issued, what the result
variable holds afterwards, and the error returned. -/
structure FetchResult (W : Type) where
  world : W
  calls : List EthCall
  result : String
  err : Option GoError

/-- The result of `FetchEthLogsWithCustomQuery`: the world afterwards, the queries passed
to `FilterLogs` on the client, the logs and the error returned. -/
structure LogsResult (W : Type) where
  world : W
  queries : List FilterQuery
  logs : List Log
  err : Option GoError

/-- `Fetcher.FetchEthLogsWithCustomQuery`: one `FilterLogs` on the client; on an error the
empty slice `[]types.Log{}` is returned with it.  (The time-out of the context is not
modelled.) -/
def Fetcher.FetchEthLogsWithCustomQuery {W : Type} (client : EthClient W) (w : W)
    (query : FilterQuery) : LogsResult W :=
  match client.FilterLogs w query with
  | (w1, _, some err) => ⟨w1, [query], [], some err⟩
  | (w1, gethLogs, none) => ⟨w1, [query], gethLogs, none⟩

/-- `Fetcher.callContract`: one `CallContract` on the client, addressed to
`common.HexToAddress(contractHash)`.  (The time-out of the context is not modelled.) -/
def Fetcher.callContract {W : Type} (L : AbiLib) (client : EthClient W) (w : W)
    (contractHash : String) (input : List Nat) (blockNumber : Option Int) :
    W × List Nat × Option GoError × EthCall :=
  match client.CallContract w ⟨L.HexToAddress contractHash, input⟩ blockNumber with
  | (w1, output, err) =>
    (w1, output, err, ⟨⟨L.HexToAddress contractHash, input⟩, blockNumber, output, err⟩)

/-- The packing step of `FetchContractData`: `parsed.Pack(method, methodArgs...)` when
arguments are given, `parsed.Pack(method)` when `methodArgs` is nil. -/
def Fetcher.packInput (L : AbiLib) (parsed method : String) (methodArgs : Option (List String)) :
    List Nat × Option GoError :=
  match methodArgs with
  | some args => L.Pack parsed method args
  | none => L.Pack parsed method []

/-- `Fetcher.FetchContractData`: parse the ABI, pack the call, call the contract at
`blockNumber` (at the latest block when `blockNumber` is not positive), unpack into
`result`. -/
def Fetcher.FetchContractData {W : Type} (L : AbiLib) (client : EthClient W) (w : W)
    (abiJSON address method : String) (methodArgs : Option (List String)) (result : String)
    (blockNumber : Int) : FetchResult W :=
  match L.ParseAbi abiJSON with
  | (_, some err) => ⟨w, [], result, some err⟩
  | (parsed, none) =>
    match Fetcher.packInput L parsed method methodArgs with
    | (_, some err) => ⟨w, [], result, some err⟩
    | (input, none) =>
      match Fetcher.callContract L client w address input
          (if blockNumber > 0 then some blockNumber else none) with
      | (w1, _, some err, call) => ⟨w1, [call], result, some err⟩
      | (w1, output, none, call) =>
        ⟨w1, [call], (L.Unpack parsed result method output).1,
          (L.Unpack parsed result method output).2⟩

/-- An ABI library that packs a call into the length of the method name followed by the
number of arguments, and unpacks every output into the string `ok`. -/
def demoAbiLib : AbiLib where
  ParseAbi := fun abiJSON => (abiJSON, none)
  Pack := fun _ method args => ([method.length, args.length], none)
  Unpack := fun _ _ _ _ => ("ok", none)
  HexToAddress := fun s => toLower s

/-- A client without state that answers every call with one zero byte and every log
query with one log of the first address asked for. -/
def demoClient : EthClient Unit where
  CallContract := fun w _ _ => (w, [0], none)
  FilterLogs := fun w q => (w, [⟨q.Addresses.headD "", [], ""⟩], none)

/-- A client whose node cannot be reached. -/
def downClient : EthClient Unit where
  CallContract := fun w _ _ => (w, [], some (.other "connection refused"))
  FilterLogs := fun w _ => (w, [⟨"0xaa", [], ""⟩], some (.other "connection refused"))

/-! ## The interface fetcher (`pkg/fetcher/interface_fetcher.go`) -/

/-- The values of package `constants` that `FetchABI` reads (the package is not among the
sources): the ABI of `supportsInterface`, the bytes of the nine interface signatures, and
the eight ABI fragments. -/
structure ResolverConstants where
  SupportsInterfaceABI : String
  MetaSig : String
  AddrChangeSig : String
  NameChangeSig : String
  ContentChangeSig : String
  AbiChangeSig : String
  PubkeyChangeSig : String
  ContentHashChangeSig : String
  MultihashChangeSig : String
  TextChangeSig : String
  AddrChangeInterface : String
  NameChangeInterface : String
  ContentChangeInterface : String
  AbiChangeInterface : String
  PubkeyChangeInterface : String
  ContenthashChangeInterface : String
  MultihashChangeInterface : String
  TextChangeInterface : String
deriving DecidableEq, Repr

/-- The method `Fetcher.FetchBool` (not among the sources) that `getSupportsInterface`
calls, as a state-passing function: method, ABI, address, block number, arguments. -/
structure BoolFetcher (W : Type) where
  FetchBool : W → String → String → String → Int → List String → W × Bool × Option GoError

/-- One `getSupportsInterface` call with what it answered. -/
structure SupportsCall where
  contractAbi : String
  contractAddress : String
  blockNumber : Int
  methodArgs : List String
  supports : Bool
  err : Option GoError
deriving DecidableEq, Repr

/-- The state of `FetchABI` between two of its blocks: the world, the calls made so far
and the value of `abiStr`. -/
structure AbiState (W : Type) where
  world : W
  calls : List SupportsCall
  abiStr : String

/-- The result of `FetchABI`: the world afterwards, the `getSupportsInterface` calls made,
the string and the error returned. -/
structure AbiResult (W : Type) where
  world : W
  calls : List SupportsCall
  abi : String
  err : Option GoError

/-- `Fetcher.getSupportsInterface`. -/
def Fetcher.getSupportsInterface {W : Type} (F : BoolFetcher W) (w : W)
    (contractAbi contractAddress : String) (blockNumber : Int) (methodArgs : List String) :
    W × Bool × Option GoError :=
  F.FetchBool w "supportsInterface" contractAbi contractAddress blockNumber methodArgs

/-- One of the eight blocks of `FetchABI` that follow the meta check: ask for the
signature, and append the fragment and a comma when `err == nil && supports`. -/
def Fetcher.addInterface {W : Type} (F : BoolFetcher W) (a resolverAddr : String)
    (blockNumber : Int) (sig iface : String) (s : AbiState W) : AbiState W :=
  match Fetcher.getSupportsInterface F s.world a resolverAddr blockNumber [sig] with
  | (w1, supports, err) =>
    ⟨w1, s.calls ++ [⟨a, resolverAddr, blockNumber, [sig], supports, err⟩],
      if err = none ∧ supports = true then s.abiStr ++ iface ++ "," else s.abiStr⟩

/-- Go `s[:len(s)-1]` on a string whose last byte is a whole character (in `FetchABI` it
is `[` or `,`): the string without its last character. -/
def dropLastByte (s : String) : String := ⟨s.data.dropLast⟩

/-- `Fetcher.FetchABI`: the meta check, the eight blocks in the order of the source, and
the closing statement `abiStr = abiStr[:len(abiStr)-1] + "]"`. -/
def Fetcher.FetchABI {W : Type} (K : ResolverConstants) (F : BoolFetcher W) (w : W)
    (resolverAddr : String) (blockNumber : Int) : AbiResult W :=
  match Fetcher.getSupportsInterface F w K.SupportsInterfaceABI resolverAddr blockNumber
      [K.MetaSig] with
  | (w1, supports, some err) =>
    ⟨w1, [⟨K.SupportsInterfaceABI, resolverAddr, blockNumber, [K.MetaSig], supports, some err⟩],
      "", some (.other ("call to getSupportsInterface failed: " ++ err.Error))⟩
  | (w1, false, none) =>
    ⟨w1, [⟨K.SupportsInterfaceABI, resolverAddr, blockNumber, [K.MetaSig], false, none⟩],
      "", some (.other "contract does not support interface")⟩
  | (w1, true, none) =>
    let a := K.SupportsInterfaceABI
    let s0 : AbiState W :=
      ⟨w1, [⟨K.SupportsInterfaceABI, resolverAddr, blockNumber, [K.MetaSig], true, none⟩], "["⟩
    let s1 := Fetcher.addInterface F a resolverAddr blockNumber K.AddrChangeSig
      K.AddrChangeInterface s0
    let s2 := Fetcher.addInterface F a resolverAddr blockNumber K.NameChangeSig
      K.NameChangeInterface s1
    let s3 := Fetcher.addInterface F a resolverAddr blockNumber K.ContentChangeSig
      K.ContentChangeInterface s2
    let s4 := Fetcher.addInterface F a resolverAddr blockNumber K.AbiChangeSig
      K.AbiChangeInterface s3
    let s5 := Fetcher.addInterface F a resolverAddr blockNumber K.PubkeyChangeSig
      K.PubkeyChangeInterface s4
    let s6 := Fetcher.addInterface F a resolverAddr blockNumber K.ContentHashChangeSig
      K.ContenthashChangeInterface s5
    let s7 := Fetcher.addInterface F a resolverAddr blockNumber K.MultihashChangeSig
      K.MultihashChangeInterface s6
    let s8 := Fetcher.addInterface F a resolverAddr blockNumber K.TextChangeSig
      K.TextChangeInterface s7
    ⟨s8.world, s8.calls, dropLastByte s8.abiStr ++ "]", none⟩

/-! ### Reading the result of `FetchABI` -/

/-- The eight optional interfaces in the order `FetchABI` asks for them: signature and
ABI fragment. -/
def ResolverConstants.optional (K : ResolverConstants) : List (String × String) :=
  [(K.AddrChangeSig, K.AddrChangeInterface), (K.NameChangeSig, K.NameChangeInterface),
   (K.ContentChangeSig, K.ContentChangeInterface), (K.AbiChangeSig, K.AbiChangeInterface),
   (K.PubkeyChangeSig, K.PubkeyChangeInterface),
   (K.ContentHashChangeSig, K.ContenthashChangeInterface),
   (K.MultihashChangeSig, K.MultihashChangeInterface),
   (K.TextChangeSig, K.TextChangeInterface)]

/-- The call reported the interface as supported: no error and `true`. -/
def SupportsCall.accepted (c : SupportsCall) : Bool := c.err.isNone && c.supports

/-- The fragments of the interfaces `l` (signature and fragment) whose call, at the same
position in `calls`, reported the interface as supported. -/
def pickAccepted (calls : List SupportsCall) (l : List (String × String)) : List String :=
  (List.zip calls l).filterMap (fun p => if p.1.accepted = true then some p.2.2 else none)

/-- The fragments of the interfaces reported as supported, in the order asked: `calls`
are the answers for the eight optional interfaces. -/
def ResolverConstants.chosen (K : ResolverConstants) (calls : List SupportsCall) :
    List String :=
  pickAccepted calls K.optional

/-- Every string of a list followed by a comma, one after the other: what `abiStr` holds
after the opening bracket before the closing statement. -/
def commaEach : List String → String
  | [] => ""
  | x :: rest => x ++ "," ++ commaEach rest

/-- The eight blocks of `FetchABI` as one loop over a list of interfaces. -/
def Fetcher.addInterfaces {W : Type} (F : BoolFetcher W) (a resolverAddr : String)
    (blockNumber : Int) (l : List (String × String)) (s : AbiState W) : AbiState W :=
  l.foldl (fun s p => Fetcher.addInterface F a resolverAddr blockNumber p.1 p.2 s) s

/-- A fetcher that reports every failed call as an unsupported interface, and acts on the
world as the given one. -/
def failuresAsUnsupported {W : Type} (F : BoolFetcher W) : BoolFetcher W where
  FetchBool := fun w m a c n args =>
    ((F.FetchBool w m a c n args).1,
      (F.FetchBool w m a c n args).2.1 && (F.FetchBool w m a c n args).2.2.isNone, none)

/-- The strings of a list joined by commas. -/
def joinComma : List String → String
  | [] => ""
  | [x] => x
  | x :: y :: rest => x ++ "," ++ joinComma (y :: rest)

/-- The string the description of `FetchABI` promises for a selection of fragments. -/
def bracketed (fragments : List String) : String := "[" ++ joinComma fragments ++ "]"

/-- A resolver that answers `true` to the first `supportsInterface` call (the meta
signature) and `false` to every later one; the world counts the calls. -/
def metaOnly : BoolFetcher Nat where
  FetchBool := fun w _ _ _ _ _ => (w + 1, decide (w = 0), none)

/-- A resolver that supports the meta interface, `AddrChange` (second call) and
`TextChange` (ninth call), and whose fourth call fails; the world counts the calls. -/
def someInterfaces : BoolFetcher Nat where
  FetchBool := fun w _ _ _ _ _ =>
    (w + 1, decide (w = 0 ∨ w = 1 ∨ w = 3 ∨ w = 8),
      if w = 3 then some (.other "execution reverted") else none)

/-- A resolver whose node cannot be reached. -/
def noResolver : BoolFetcher Nat where
  FetchBool := fun w _ _ _ _ _ => (w + 1, true, some (.other "connection refused"))

/-- Constants with short stand-ins for the signatures and fragments. -/
def demoConstants : ResolverConstants :=
  { SupportsInterfaceABI := "abi", MetaSig := "0x01ffc9a7",
    AddrChangeSig := "s1", NameChangeSig := "s2", ContentChangeSig := "s3",
    AbiChangeSig := "s4", PubkeyChangeSig := "s5", ContentHashChangeSig := "s6",
    MultihashChangeSig := "s7", TextChangeSig := "s8",
    AddrChangeInterface := "A", NameChangeInterface := "N", ContentChangeInterface := "C",
    AbiChangeInterface := "B", PubkeyChangeInterface := "P",
    ContenthashChangeInterface := "H", MultihashChangeInterface := "M",
    TextChangeInterface := "T" }

/-! ## The receipt publisher (`pkg/super_node/eth/publisher.go`) -/

/-- A `types.Receipt`, with the field `publishReceipts` reads. -/
structure Receipt where
  TxHash : String
  Status : Nat
deriving DecidableEq, Repr

/-- A `ReceiptModel`. -/
structure ReceiptModel where
  CID : String
  Contract : String
  Topic0s : List String
  Topic1s : List String
  Topic2s : List String
  Topic3s : List String
deriving DecidableEq, Repr

/-- How `publishReceipts` ends: with the mapping, with an error, or with the run-time
panic `index out of range [index] with length n`. -/
inductive PublishOutcome where
  | ok (mapped : GoMap ReceiptModel)
  | error (err : GoError)
  | indexOutOfRange (index n : Nat)
deriving DecidableEq, Repr

/-- The loop of `publishReceipts` from index `i` on: the fields of the literal are
evaluated in order, `receiptsCids[i]` first, then `receiptMeta[i]`. -/
def mapReceipts (receiptsCids : List String) (receiptMeta : List ReceiptModel) :
    Nat → List Receipt → GoMap ReceiptModel → PublishOutcome
  | _, [], mappedRctCids => .ok mappedRctCids
  | i, rct :: rest, mappedRctCids =>
    match receiptsCids[i]? with
    | none => .indexOutOfRange i receiptsCids.length
    | some cid =>
      match receiptMeta[i]? with
      | none => .indexOutOfRange i receiptMeta.length
      | some m =>
        mapReceipts receiptsCids receiptMeta (i + 1) rest
          (GoMap.set mappedRctCids rct.TxHash
            ⟨cid, m.Contract, m.Topic0s, m.Topic1s, m.Topic2s, m.Topic3s⟩)

/-- `IPLDPublisher.publishReceipts`; `DagPut` is the receipt putter. -/
def publishReceipts {W : Type} (DagPut : W → List Receipt → W × List String × Option GoError)
    (w : W) (receipts : List Receipt) (receiptMeta : List ReceiptModel) : W × PublishOutcome :=
  match DagPut w receipts with
  | (w1, _, some err) => (w1, .error err)
  | (w1, receiptsCids, none) =>
    if receiptsCids.length ≠ receipts.length then
      (w1, .error (.other "expected one CID for each receipt"))
    else (w1, mapReceipts receiptsCids receiptMeta 0 receipts [])

/-- A receipt putter that returns one CID per receipt. -/
def demoPutter (w : Unit) (receipts : List Receipt) : Unit × List String × Option GoError :=
  (w, receipts.map (fun r => "cid of " ++ r.TxHash), none)

/-! ## Reading the event phase of a header -/

/-- The logs a `FetchLogs` call answered; no log for any other call. -/
def Call.fetchedLogs : Call → List Log
  | .FetchLogs _ _ _ logs _ => logs
  | _ => []

/-- The arguments of a `ConvertBatch` call. -/
def Call.convertArgs : Call → Option (List Log × GoMap Event × Int)
  | .ConvertBatch logs events id _ => some (logs, events, id)
  | _ => none

/-- What `ConvertBatch` is to be called with for a group of the log partition: the logs of
the group, the events of the contract registered under the key of the group, and the id of
the header. -/
def groupArgs (tr : Transformer) (header : Header) (g : String × List Log) :
    Option (List Log × GoMap Event × Int) :=
  (List.lookup g.1 tr.Contracts).map (fun con => (g.2, con.Events, header.ID))

/-- Three logs: two of contract `0xAA` around one of contract `0xBB`. -/
def threeLogs : List Log :=
  [⟨"0xAA", ["0xddf252ad"], "0x01"⟩, ⟨"0xBB", ["0xddf252ad"], "0x02"⟩,
   ⟨"0xAA", ["0xddf252ad"], "0x03"⟩]

/-- Collaborators that find `threeLogs` at every header with block number 5 and no log
elsewhere; every log is converted into one `Transfer` row, and an empty `Approval` bucket
comes with it. -/
def twoCollab : Collaborators Unit :=
  { quietCollab with
    FetchLogs := fun w _ _ h => (w, if h.BlockNumber = 5 then threeLogs else [], none)
    ConvertBatch := fun w logs _ id =>
      (w, [("Transfer", logs.map (fun _ => ⟨id, []⟩)), ("Approval", [])], none) }

/-- The answer of the `ConvertBatch` call `Execute` makes for the logs of a contract at a
header, the converter having been updated with the contract. -/
def convertOf {W : Type} (C : Collaborators W) (header : Header) (con : Contract)
    (logs : List Log) (w : W) : W × GoMap (List ConvertedLog) × Option GoError :=
  C.ConvertBatch (C.ConverterUpdate w (some con)) logs con.Events header.ID

/-- The loop that persists the converted logs of `convertOf`. -/
def persistOf {W : Type} (C : Collaborators W) (header : Header) (con : Contract)
    (logs : List Log) (w : W) : Res W :=
  persistEvents C con
    (rangeMap C (convertOf C header con logs w).1 (convertOf C header con logs w).2.1).2
    (rangeMap C (convertOf C header con logs w).1 (convertOf C header con logs w).2.1).1

/-- The groups of the log partition of a header in the order `Execute` visits them, when
the header is processed from the world `w`. -/
def visited {W : Type} (C : Collaborators W) (tr : Transformer) (header : Header) (w : W) :
    List (String × List Log) :=
  (rangeMap C (C.FetchLogs w tr.contractAddresses tr.eventFilters header).1
    (sortLogs (C.FetchLogs w tr.contractAddresses tr.eventFilters header).2.1)).2

/-- The loop over the log partition of a header, when the header is processed from the
world `w`. -/
def eventPhase {W : Type} (C : Collaborators W) (tr : Transformer) (header : Header) (w : W) :
    Res W :=
  processContracts C tr header (visited C tr header w)
    (rangeMap C (C.FetchLogs w tr.contractAddresses tr.eventFilters header).1
      (sortLogs (C.FetchLogs w tr.contractAddresses tr.eventFilters header).2.1)).1

/-- The calls `Execute` makes for the first header it processes. -/
def firstTrace {W : Type} (r : ExecResult W) : List Call := (r.log.map Prod.snd).headD []

/-! ## Reading a pass of Init in detail -/

/-- A pass of the loop of `Init` that got to the `name()` call, made from the world `w1`:
the call and its answer, the contract stored under the address (its name is what the call
left in the result variable, its events and methods are what the parser returned for the
configured names), and the check columns, each the column of one of these events or
methods. -/
def PassDetail {W : Type} (C : Collaborators W) (cfg : ContractConfig) (addr : String)
    (s : InitStep W) : Prop :=
  ∃ (w1 : W) (pc : Call) (ret : Int) (err : Option GoError) (cols : List Call)
    (con : Contract),
    s.trace = pc :: Call.RetrieveFirstBlock ret err ::
      Call.FetchContractData (C.Abi w1) addr "name" none (-1)
        (C.FetchContractData w1 (C.Abi w1) addr "name" none (-1)).2.1
        (C.FetchContractData w1 (C.Abi w1) addr "name" none (-1)).2.2 :: cols ∧
    List.lookup addr s.tr.Contracts = some con ∧
    con.Name = (C.FetchContractData w1 (C.Abi w1) addr "name" none (-1)).2.1 ∧
    con.Events = C.GetEvents (C.FetchContractData w1 (C.Abi w1) addr "name" none (-1)).1
      (GoMap.getD cfg.Events addr []) ∧
    con.Methods =
      C.GetSelectMethods (C.FetchContractData w1 (C.Abi w1) addr "name" none (-1)).1
        (GoMap.getD cfg.Methods addr []) ∧
    (∀ d ∈ cols, ∃ id e, d = Call.AddCheckColumn id e ∧
      ((∃ p ∈ con.Events, id = columnID p.2.Name addr) ∨
        (∃ p ∈ con.Methods, id = columnID p.2.Name addr)))

/-- The `FetchContractData` of a poller that hands the call to
`Fetcher.FetchContractData`; the result variable is the `new(string)` of `Init`, which
holds the empty string when the call starts. -/
def pollerFetch {W : Type} (L : AbiLib) (client : EthClient W) (w : W)
    (abi addr method : String) (methodArgs : Option (List String)) (blockNumber : Int) :
    W × String × Option GoError :=
  ((Fetcher.FetchContractData L client w abi addr method methodArgs "" blockNumber).world,
    (Fetcher.FetchContractData L client w abi addr method methodArgs "" blockNumber).result,
    (Fetcher.FetchContractData L client w abi addr method methodArgs "" blockNumber).err)

/-- As `quietCollab`, with the poller's `FetchContractData` handed to the fetcher over
`demoAbiLib` and a client whose node cannot be reached. -/
def offlineCollab : Collaborators Unit :=
  { quietCollab with FetchContractData := pollerFetch demoAbiLib downClient }

/-- As `demoResponses`, but the failing `name()` call has written `Token` into the result
variable before it returns its error. -/
def writesThenFails : Responses :=
  { demoResponses with
    contractName := fun _ _ => ("Token", some (.other "abi: cannot unmarshal")) }

/-! ## Address keys -/

/-- go-ethereum's `strings.ToLower(common.HexToAddress(s).Hex())` for a string `s` of hex
digits, with or without the prefix `0x`: `HexToAddress` drops the prefix and keeps the last
20 bytes, padded with zero bytes on the left; the lowercased `Hex()` is `0x` followed by the
40 digits in lowercase. -/
def lowerHexOf (s : String) : String :=
  ⟨'0' :: 'x' ::
    (List.replicate
        (40 - ((if s.data.take 2 = ['0', 'x'] ∨ s.data.take 2 = ['0', 'X'] then s.data.drop 2
          else s.data).map Char.toLower).length) '0' ++
      ((if s.data.take 2 = ['0', 'x'] ∨ s.data.take 2 = ['0', 'X'] then s.data.drop 2
          else s.data).map Char.toLower).drop
        (((if s.data.take 2 = ['0', 'x'] ∨ s.data.take 2 = ['0', 'X'] then s.data.drop 2
          else s.data).map Char.toLower).length - 40))⟩

/-- Every character of the string is a lowercase hexadecimal digit. -/
def isLowerHex (s : String) : Bool :=
  s.data.all (fun c => "0123456789abcdef".data.contains c)

/-- A configuration with the one contract `0x00…aa`, keyed by the lowercased `Hex()` form
of its address. -/
def fullKeyConfig : ContractConfig :=
  { Network := "", Addresses := [("0x00000000000000000000000000000000000000aa", true)],
    Abis := [], Events := [("0x00000000000000000000000000000000000000aa", ["Transfer"])],
    Methods := [], EventArgs := [], MethodArgs := [],
    StartingBlocks := [("0x00000000000000000000000000000000000000aa", 0)], Piping := [] }

/-- A configuration with the one contract `0x00…bb`, keyed by its 40 lowercase hex digits
without the prefix `0x` (a string `common.HexToAddress` accepts). -/
def bareKeyConfig : ContractConfig :=
  { Network := "", Addresses := [("00000000000000000000000000000000000000bb", true)],
    Abis := [], Events := [("00000000000000000000000000000000000000bb", ["Transfer"])],
    Methods := [], EventArgs := [], MethodArgs := [],
    StartingBlocks := [("00000000000000000000000000000000000000bb", 0)], Piping := [] }

/-- Scripted collaborators for `demoResponses` whose headers table has the one header of
block 5, where one log of the address `a` (in its `Hex()` form) is found. -/
def scriptedLogAt (a : String) : Collaborators ScriptWorld :=
  { scripted demoResponses with
    MissingHeadersForAll := fun w _ _ _ => (w, [⟨1, 5, "0xh5"⟩], none)
    FetchLogs := fun w _ _ _ => (w, [⟨a, ["topic0 of Transfer"], "0x02"⟩], none)
    ConvertBatch := fun w logs _ id => (w, [("Transfer", logs.map (fun _ => ⟨id, []⟩))], none) }

/-! ## The shape of the trace of one header -/

variable {W : Type}

theorem persistEvents_trace (C : Collaborators W) (con : Contract) :
    ∀ (l : List (String × List ConvertedLog)) (w : W),
      (∀ c ∈ (persistEvents C con l w).trace, c.isEventPhase = true) ∧
      ((∃ c ∈ (persistEvents C con l w).trace, c.failed = true) →
        ∃ msg, (persistEvents C con l w).out = .error msg) := by
  intro l
  induction l with
  | nil => intro w; simp [persistEvents]
  | cons p rest ih =>
    intro w
    obtain ⟨eventName, logs⟩ := p
    unfold persistEvents
    split
    · exact ih w
    · split
      · simp [Call.isEventPhase]
      · rename_i w1 hw
        have := ih w1
        simp only [List.mem_cons, forall_eq_or_imp, Call.isEventPhase, true_and, exists_eq_or_imp]
        refine ⟨this.1, ?_⟩
        rintro (h | h)
        · simp [Call.failed, Call.err] at h
        · exact this.2 h

theorem processContracts_trace (C : Collaborators W) (tr : Transformer) (header : Header) :
    ∀ (l : List (String × List Log)) (w : W),
      (∀ c ∈ (processContracts C tr header l w).trace, c.isEventPhase = true) ∧
      ((∃ c ∈ (processContracts C tr header l w).trace, c.failed = true) →
        ∃ msg, (processContracts C tr header l w).out = .error msg) := by
  intro l
  induction l with
  | nil => intro w; simp [processContracts]
  | cons p rest ih =>
    intro w
    obtain ⟨conAddr, logs⟩ := p
    unfold processContracts
    split
    · exact ih w
    · split
      · simp [Call.isEventPhase, Call.failed, Call.err]
      · rename_i con hcon
        split
        · simp [Call.isEventPhase, Call.failed, Call.err]
        · rename_i w1 convertedLogs hconv
          have hp := persistEvents_trace C con (rangeMap C w1 convertedLogs).2
            (rangeMap C w1 convertedLogs).1
          simp only []
          split
          · rename_i hout
            have hr := ih (persistEvents C con (rangeMap C w1 convertedLogs).2
              (rangeMap C w1 convertedLogs).1).world
            constructor
            · intro c hc
              simp only [List.mem_cons, List.mem_append] at hc
              rcases hc with rfl | rfl | hc | hc
              · rfl
              · rfl
              · exact hp.1 c hc
              · exact hr.1 c hc
            · rintro ⟨c, hc, hf⟩
              simp only [List.mem_cons, List.mem_append] at hc
              rcases hc with rfl | rfl | hc | hc
              · simp [Call.failed, Call.err] at hf
              · simp [Call.failed, Call.err] at hf
              · obtain ⟨msg, hmsg⟩ := hp.2 ⟨c, hc, hf⟩
                rw [hmsg] at hout
                cases hout
              · exact hr.2 ⟨c, hc, hf⟩
          · rename_i hout
            constructor
            · intro c hc
              simp only [List.mem_cons] at hc
              rcases hc with rfl | rfl | hc
              · rfl
              · rfl
              · exact hp.1 c hc
            · rintro ⟨c, hc, hf⟩
              simp only [List.mem_cons] at hc
              rcases hc with rfl | rfl | hc
              · simp [Call.failed, Call.err] at hf
              · simp [Call.failed, Call.err] at hf
              · exact hp.2 ⟨c, hc, hf⟩

theorem pollContracts_markPhase (C : Collaborators W) (smi : GoMap (List String)) (header : Header) :
    ∀ (l : List (String × Contract)) (w : W),
      ∀ c ∈ (pollContracts C smi header l w).trace, c.isMarkPhase = true := by
  intro l
  induction l with
  | nil => intro w; simp [pollContracts]
  | cons p rest ih =>
    intro w
    obtain ⟨k, con⟩ := p
    unfold pollContracts
    split
    · exact ih w
    · split
      · simp [Call.isMarkPhase]
      · split
        · simp [Call.isMarkPhase]
        · rename_i w2 _
          intro c hc
          simp only [List.mem_cons] at hc
          rcases hc with rfl | rfl | hc
          · rfl
          · rfl
          · exact ih w2 c hc

theorem markAndPoll_markPhase (C : Collaborators W) (tr : Transformer) (header : Header) (w : W) :
    ∀ c ∈ (markAndPoll C tr header w).trace, c.isMarkPhase = true := by
  unfold markAndPoll
  split
  · simp [Call.isMarkPhase]
  · rename_i w1 _
    have hp := pollContracts_markPhase C tr.sortedMethodIds header (rangeMap C w1 tr.Contracts).2
      (rangeMap C w1 tr.Contracts).1
    split <;> rename_i heq <;>
    · intro c hc
      simp only [List.mem_cons] at hc
      rcases hc with rfl | hc
      · rfl
      · have ht := congrArg Res.trace heq
        simp only [methodPolling] at ht
        rw [← ht] at hc
        exact hp c hc

/-- The trace of one header splits into an event phase and a mark phase. -/
theorem processHeader_split (C : Collaborators W) (tr : Transformer) (header : Header) (w : W) :
    ∃ ev mp, (processHeader C tr header w).trace = ev ++ mp ∧
      (∀ c ∈ ev, c.isEventPhase = true) ∧
      ((∃ c ∈ ev, c.failed = true) → mp = [] ∧ ∃ msg, (processHeader C tr header w).out = .error msg) ∧
      ((mp = [] ∧ (processHeader C tr header w).out ≠ .ok) ∨
        ∃ w1, mp = (markAndPoll C tr header w1).trace ∧
          (processHeader C tr header w).out = (markAndPoll C tr header w1).out) := by
  unfold processHeader
  split
  · rename_i w1 allLogs fetchErr _
    refine ⟨_, [], (List.append_nil _).symm, ?_, ?_, Or.inl ⟨rfl, by simp⟩⟩
    · simp [Call.isEventPhase]
    · intro _; exact ⟨rfl, _, rfl⟩
  · rename_i w1 allLogs _
    split
    · refine ⟨[Call.FetchLogs tr.contractAddresses tr.eventFilters header allLogs none],
        (markAndPoll C tr header w1).trace, rfl, ?_, ?_, Or.inr ⟨w1, rfl, rfl⟩⟩
      · simp [Call.isEventPhase]
      · simp [Call.failed, Call.err]
    · have hp := processContracts_trace C tr header (rangeMap C w1 (sortLogs allLogs)).2
        (rangeMap C w1 (sortLogs allLogs)).1
      simp only []
      split
      · rename_i hout
        refine ⟨Call.FetchLogs tr.contractAddresses tr.eventFilters header allLogs none ::
            (processContracts C tr header (rangeMap C w1 (sortLogs allLogs)).2
              (rangeMap C w1 (sortLogs allLogs)).1).trace, _, by simp, ?_, ?_, Or.inr ⟨_, rfl, rfl⟩⟩
        · intro c hc
          simp only [List.mem_cons] at hc
          rcases hc with rfl | hc
          · rfl
          · exact hp.1 c hc
        · rintro ⟨c, hc, hf⟩
          simp only [List.mem_cons] at hc
          rcases hc with rfl | hc
          · simp [Call.failed, Call.err] at hf
          · obtain ⟨msg, hmsg⟩ := hp.2 ⟨c, hc, hf⟩
            rw [hmsg] at hout
            cases hout
      · rename_i hout
        refine ⟨Call.FetchLogs tr.contractAddresses tr.eventFilters header allLogs none ::
            (processContracts C tr header (rangeMap C w1 (sortLogs allLogs)).2
              (rangeMap C w1 (sortLogs allLogs)).1).trace, [], by simp, ?_, ?_, Or.inl ⟨rfl, ?_⟩⟩
        · intro c hc
          simp only [List.mem_cons] at hc
          rcases hc with rfl | hc
          · rfl
          · exact hp.1 c hc
        · rintro ⟨c, hc, hf⟩
          simp only [List.mem_cons] at hc
          rcases hc with rfl | hc
          · simp [Call.failed, Call.err] at hf
          · exact ⟨rfl, hp.2 ⟨c, hc, hf⟩⟩
        · intro h
          exact hout h

theorem pollContracts_mark_id (C : Collaborators W) (smi : GoMap (List String)) (header : Header) :
    ∀ (l : List (String × Contract)) (w : W) (id : Int) (ids : List String) (e : Option GoError),
      Call.MarkHeaderCheckedForAll id ids e ∈ (pollContracts C smi header l w).trace →
        id = header.ID := by
  intro l
  induction l with
  | nil => intro w; simp [pollContracts]
  | cons p rest ih =>
    intro w id ids e
    obtain ⟨k, con⟩ := p
    unfold pollContracts
    split
    · exact ih w id ids e
    · split
      · simp
      · split
        · simp only [List.mem_cons, List.mem_singleton, reduceCtorEq, false_or, Call.MarkHeaderCheckedForAll.injEq, List.not_mem_nil, or_false]
          rintro ⟨h, -, -⟩
          exact h
        · rename_i w2 _
          simp only [List.mem_cons, reduceCtorEq, false_or, Call.MarkHeaderCheckedForAll.injEq]
          rintro (⟨h, -, -⟩ | h)
          · exact h
          · exact ih w2 id ids e h

theorem markAndPoll_mark_id (C : Collaborators W) (tr : Transformer) (header : Header) (w : W)
    (id : Int) (ids : List String) (e : Option GoError)
    (h : Call.MarkHeaderCheckedForAll id ids e ∈ (markAndPoll C tr header w).trace) :
    id = header.ID := by
  revert h
  unfold markAndPoll
  split
  · simp only [List.mem_singleton, Call.MarkHeaderCheckedForAll.injEq]
    rintro ⟨h, -, -⟩
    exact h
  · rename_i w1 _
    have hp := pollContracts_mark_id C tr.sortedMethodIds header (rangeMap C w1 tr.Contracts).2
      (rangeMap C w1 tr.Contracts).1 id ids e
    split <;> rename_i heq <;>
    · have ht := congrArg Res.trace heq
      simp only [methodPolling] at ht
      simp only [List.mem_cons, Call.MarkHeaderCheckedForAll.injEq]
      rintro (⟨h, -, -⟩ | h)
      · exact h
      · rw [← ht] at h
        exact hp h

theorem processHeader_mark_id (C : Collaborators W) (tr : Transformer) (header : Header) (w : W)
    (id : Int) (ids : List String) (e : Option GoError)
    (h : Call.MarkHeaderCheckedForAll id ids e ∈ (processHeader C tr header w).trace) :
    id = header.ID := by
  obtain ⟨ev, mp, htr, hev, -, hmp⟩ := processHeader_split C tr header w
  rw [htr, List.mem_append] at h
  rcases h with h | h
  · have := hev _ h
    simp [Call.isEventPhase] at this
  · rcases hmp with ⟨rfl, -⟩ | ⟨w1, rfl, -⟩
    · simp at h
    · exact markAndPoll_mark_id C tr header w1 id ids e h

theorem startAfter_cons (s : Int) (h : Header) (rest : List Header) :
    startAfter (wrapInt64 (h.BlockNumber + 1)) rest = startAfter s (h :: rest) := by
  cases rest with
  | nil => simp [startAfter]
  | cons a l =>
    simp only [startAfter, List.getLast?_cons_cons]
    rw [List.getLast?_cons]

theorem headerLoop_cases (C : Collaborators W) (tr : Transformer) :
    ∀ (hs : List Header) (w : W) (s : Int),
      ((headerLoop C tr hs w s).out = .ok ∧
        (headerLoop C tr hs w s).log.map Prod.fst = hs ∧
        (∀ e ∈ (headerLoop C tr hs w s).log, OkRun C tr e) ∧
        (headerLoop C tr hs w s).Start = startAfter s hs ∧
        (headerLoop C tr hs w s).starts = hs.map (fun h => wrapInt64 (h.BlockNumber + 1))) ∨
      (∃ pre h w1, (headerLoop C tr hs w s).log = pre ++ [(h, (processHeader C tr h w1).trace)] ∧
        (∀ e ∈ pre, OkRun C tr e) ∧
        (processHeader C tr h w1).out = (headerLoop C tr hs w s).out ∧
        (headerLoop C tr hs w s).out ≠ .ok ∧
        (headerLoop C tr hs w s).Start = h.BlockNumber ∧
        (pre.map Prod.fst ++ [h]) <+: hs ∧
        (headerLoop C tr hs w s).starts =
          pre.map (fun e => wrapInt64 (e.1.BlockNumber + 1)) ++ [h.BlockNumber]) := by
  intro hs
  induction hs with
  | nil => intro w s; left; simp [headerLoop, startAfter]
  | cons header rest ih =>
    intro w s
    unfold headerLoop
    split
    · rename_i w1 t heq
      have hok : OkRun C tr (header, t) := ⟨w, by rw [heq], by rw [heq]⟩
      rcases ih w1 (wrapInt64 (header.BlockNumber + 1)) with
        ⟨h1, h2, h3, h4, h7⟩ | ⟨pre, h, w2, h1, h2, h3, h4, h5, h6, h7⟩
      · left
        refine ⟨h1, by simp [h2], ?_, ?_, by simp [h7]⟩
        · intro e he
          simp only [List.mem_cons] at he
          rcases he with rfl | he
          · exact hok
          · exact h3 e he
        · simp only [h4]
          exact startAfter_cons s header rest
      · right
        refine ⟨(header, t) :: pre, h, w2, by simp [h1], ?_, h3, h4, h5, ?_, by simp [h7]⟩
        · intro e he
          simp only [List.mem_cons] at he
          rcases he with rfl | he
          · exact hok
          · exact h2 e he
        · simpa using h6
    · rename_i w1 t out hnot heq
      right
      refine ⟨[], header, w, by simp [heq], by simp, by simp [heq], ?_, rfl, by simp, rfl⟩
      intro h
      exact hnot h

/-- What `Execute` does, in terms of the header loop. -/
theorem Execute_cases (C : Collaborators W) (tr : Transformer) (w : W) :
    ((Execute C tr w).log = [] ∧ (Execute C tr w).Start = tr.Start ∧
      ∃ msg, (Execute C tr w).out = .error msg) ∨
    (∃ w1, (C.MissingHeadersForAll w tr.Start (-1) tr.eventIds).1 = w1 ∧
      (C.MissingHeadersForAll w tr.Start (-1) tr.eventIds).2.2 = none ∧
      tr.Contracts ≠ [] ∧
      (Execute C tr w).log =
        (headerLoop C tr (C.MissingHeadersForAll w tr.Start (-1) tr.eventIds).2.1 w1 tr.Start).log ∧
      (Execute C tr w).Start =
        (headerLoop C tr (C.MissingHeadersForAll w tr.Start (-1) tr.eventIds).2.1 w1 tr.Start).Start ∧
      (Execute C tr w).out =
        (headerLoop C tr (C.MissingHeadersForAll w tr.Start (-1) tr.eventIds).2.1 w1 tr.Start).out ∧
      (Execute C tr w).world =
        (headerLoop C tr (C.MissingHeadersForAll w tr.Start (-1) tr.eventIds).2.1 w1 tr.Start).world ∧
      (Execute C tr w).before = [Call.MissingHeadersForAll tr.Start (-1) tr.eventIds none] ∧
      (Execute C tr w).starts =
        (headerLoop C tr (C.MissingHeadersForAll w tr.Start (-1) tr.eventIds).2.1 w1 tr.Start).starts) := by
  unfold Execute
  split
  · left; exact ⟨rfl, rfl, _, rfl⟩
  · rename_i hne
    split
    · left; exact ⟨rfl, rfl, _, rfl⟩
    · rename_i w1 hs heq
      right
      refine ⟨w1, by rw [heq], by rw [heq], ?_, ?_⟩
      · intro h; apply hne; simp [h]
      · simp [heq]

theorem wrapInt64_ge (x : Int) : MinInt64 ≤ wrapInt64 x := by
  unfold wrapInt64 MinInt64; omega

theorem wrapInt64_eq (x : Int) (h1 : MinInt64 ≤ x) (h2 : x ≤ MaxInt64) : wrapInt64 x = x := by
  unfold wrapInt64; unfold MinInt64 at h1; unfold MaxInt64 at h2; omega

/-! ## The header repository of the specification under Execute -/

variable {E : Type}

theorem HeaderDB.le_refl (a : HeaderDB) : a.le a :=
  ⟨rfl, fun _ h => h, fun _ h => h⟩

theorem HeaderDB.le_trans {a b c : HeaderDB} (h1 : a.le b) (h2 : b.le c) : a.le c :=
  ⟨h2.1.trans h1.1, fun _ h => h2.2.1 (h1.2.1 h), fun _ h => h2.2.2 (h1.2.2 h)⟩

theorem HeaderDB.le_mark (a : HeaderDB) (id : Int) (ids : List String) :
    a.le (a.MarkHeaderCheckedForAll id ids) :=
  ⟨rfl, fun _ h => List.mem_cons_of_mem _ h, fun _ h => List.mem_append_right _ h⟩

theorem HeaderDB.marked_mark (a : HeaderDB) (id : Int) (ids : List String) :
    (a.MarkHeaderCheckedForAll id ids).marked ids id := by
  refine ⟨List.mem_cons_self _ _, fun c hc => ?_⟩
  exact List.mem_append_left _ (List.mem_map_of_mem _ hc)

theorem HeaderDB.marked_le {a b : HeaderDB} (h : a.le b) {ids : List String} {id : Int}
    (hm : a.marked ids id) : b.marked ids id :=
  ⟨h.2.1 hm.1, fun c hc => h.2.2 (hm.2 c hc)⟩

theorem HeaderDB.isMissing_eq_false (db : HeaderDB) (ids : List String) (h : Header) :
    db.isMissing ids h = false ↔ db.marked ids h.ID := by
  simp [HeaderDB.isMissing, HeaderDB.marked]

theorem persistEvents_db (C : Collaborators E) (con : Contract) :
    ∀ (l : List (String × List ConvertedLog)) (w : HeaderDB × E),
      (persistEvents (withHeaderRepo C) con l w).world.1 = w.1 := by
  intro l
  induction l with
  | nil => intro w; rfl
  | cons p rest ih =>
    intro w
    obtain ⟨eventName, logs⟩ := p
    unfold persistEvents
    split
    · exact ih w
    · split
      · rename_i w1 e heq
        have := congrArg (fun x => x.1.1) heq
        simpa [withHeaderRepo] using this.symm
      · rename_i w1 heq
        have := congrArg (fun x => x.1.1) heq
        simp only [withHeaderRepo] at this
        simp only [ih w1]
        exact this.symm

theorem processContracts_db (C : Collaborators E) (tr : Transformer) (header : Header) :
    ∀ (l : List (String × List Log)) (w : HeaderDB × E),
      (processContracts (withHeaderRepo C) tr header l w).world.1 = w.1 := by
  intro l
  induction l with
  | nil => intro w; rfl
  | cons p rest ih =>
    intro w
    obtain ⟨conAddr, logs⟩ := p
    unfold processContracts
    split
    · exact ih w
    · split
      · rfl
      · rename_i con hcon
        split
        · rename_i w1 cl e heq
          have := congrArg (fun x => x.1.1) heq
          simpa [withHeaderRepo] using this.symm
        · rename_i w1 cl heq
          have h1 : w1.1 = w.1 := by
            have := congrArg (fun x => x.1.1) heq
            simpa [withHeaderRepo] using this.symm
          have h2 := persistEvents_db C con (rangeMap (withHeaderRepo C) w1 cl).2
            (rangeMap (withHeaderRepo C) w1 cl).1
          have h3 : (rangeMap (withHeaderRepo C) w1 cl).1.1 = w1.1 := by
            simp [rangeMap, withHeaderRepo]
          simp only []
          split
          · simp only [ih, h2, h3, h1]
          · simp only [h2, h3, h1]

theorem pollContracts_db (C : Collaborators E) (smi : GoMap (List String)) (header : Header) :
    ∀ (l : List (String × Contract)) (w : HeaderDB × E),
      w.1.le (pollContracts (withHeaderRepo C) smi header l w).world.1 := by
  intro l
  induction l with
  | nil => intro w; exact HeaderDB.le_refl _
  | cons p rest ih =>
    intro w
    obtain ⟨k, con⟩ := p
    unfold pollContracts
    split
    · exact ih w
    · split
      · rename_i w1 e heq
        have := congrArg (fun x => x.1.1) heq
        simp only [withHeaderRepo] at this
        simp only [← this]
        exact HeaderDB.le_refl _
      · rename_i w1 heq
        have h1 : w1.1 = w.1 := by
          have := congrArg (fun x => x.1.1) heq
          simpa [withHeaderRepo] using this.symm
        split
        · rename_i w2 e heq2
          have := congrArg (fun x => x.2) heq2
          simp [withHeaderRepo] at this
        · rename_i w2 heq2
          have h2 : w2.1 = w1.1.MarkHeaderCheckedForAll header.ID (GoMap.getD smi con.Address []) := by
            have := congrArg (fun x => x.1.1) heq2
            simpa [withHeaderRepo] using this.symm
          refine HeaderDB.le_trans ?_ (ih w2)
          rw [h2, h1]
          exact HeaderDB.le_mark _ _ _

theorem markAndPoll_db (C : Collaborators E) (tr : Transformer) (header : Header)
    (w : HeaderDB × E) :
    w.1.le (markAndPoll (withHeaderRepo C) tr header w).world.1 ∧
      (markAndPoll (withHeaderRepo C) tr header w).world.1.marked tr.eventIds header.ID := by
  unfold markAndPoll
  split
  · rename_i w1 e heq
    have := congrArg (fun x => x.2) heq
    simp [withHeaderRepo] at this
  · rename_i w1 heq
    have h1 : w1.1 = w.1.MarkHeaderCheckedForAll header.ID tr.eventIds := by
      have := congrArg (fun x => x.1.1) heq
      simpa [withHeaderRepo] using this.symm
    have hp := pollContracts_db C tr.sortedMethodIds header
      (rangeMap (withHeaderRepo C) w1 tr.Contracts).2 (rangeMap (withHeaderRepo C) w1 tr.Contracts).1
    have h3 : (rangeMap (withHeaderRepo C) w1 tr.Contracts).1.1 = w1.1 := by
      simp [rangeMap, withHeaderRepo]
    rw [h3, h1] at hp
    have key : w.1.le (methodPolling (withHeaderRepo C) tr header tr.sortedMethodIds w1).world.1 ∧
        (methodPolling (withHeaderRepo C) tr header tr.sortedMethodIds w1).world.1.marked
          tr.eventIds header.ID :=
      ⟨HeaderDB.le_trans (HeaderDB.le_mark _ _ _) hp,
        HeaderDB.marked_le hp (HeaderDB.marked_mark _ _ _)⟩
    split <;> rename_i heq2 <;>
    · rw [heq2] at key
      exact key

theorem processHeader_db (C : Collaborators E) (tr : Transformer) (header : Header)
    (w : HeaderDB × E) :
    w.1.le (processHeader (withHeaderRepo C) tr header w).world.1 ∧
      ((processHeader (withHeaderRepo C) tr header w).out = .ok →
        (processHeader (withHeaderRepo C) tr header w).world.1.marked tr.eventIds header.ID) := by
  unfold processHeader
  split
  · rename_i w1 allLogs e heq
    have := congrArg (fun x => x.1.1) heq
    simp only [withHeaderRepo] at this
    simp only [← this]
    exact ⟨HeaderDB.le_refl _, by simp⟩
  · rename_i w1 allLogs heq
    have h1 : w1.1 = w.1 := by
      have := congrArg (fun x => x.1.1) heq
      simpa [withHeaderRepo] using this.symm
    split
    · have := markAndPoll_db C tr header w1
      rw [h1] at this
      exact ⟨this.1, fun _ => this.2⟩
    · have hp := processContracts_db C tr header
        (rangeMap (withHeaderRepo C) w1 (sortLogs allLogs)).2
        (rangeMap (withHeaderRepo C) w1 (sortLogs allLogs)).1
      have h3 : (rangeMap (withHeaderRepo C) w1 (sortLogs allLogs)).1.1 = w1.1 := by
        simp [rangeMap, withHeaderRepo]
      rw [h3, h1] at hp
      simp only []
      split
      · have := markAndPoll_db C tr header (processContracts (withHeaderRepo C) tr header
          (rangeMap (withHeaderRepo C) w1 (sortLogs allLogs)).2
          (rangeMap (withHeaderRepo C) w1 (sortLogs allLogs)).1).world
        rw [hp] at this
        exact ⟨this.1, fun _ => this.2⟩
      · rename_i hne
        simp only [hp]
        exact ⟨HeaderDB.le_refl _, fun h => absurd h hne⟩

theorem headerLoop_db (C : Collaborators E) (tr : Transformer) :
    ∀ (hs : List Header) (w : HeaderDB × E) (s : Int),
      w.1.le (headerLoop (withHeaderRepo C) tr hs w s).world.1 ∧
        ((headerLoop (withHeaderRepo C) tr hs w s).out = .ok →
          ∀ h ∈ hs, (headerLoop (withHeaderRepo C) tr hs w s).world.1.marked tr.eventIds h.ID) := by
  intro hs
  induction hs with
  | nil => intro w s; exact ⟨HeaderDB.le_refl _, by simp⟩
  | cons header rest ih =>
    intro w s
    have hp := processHeader_db C tr header w
    unfold headerLoop
    split
    · rename_i w1 t heq
      rw [heq] at hp
      have hr := ih w1 (wrapInt64 (header.BlockNumber + 1))
      refine ⟨HeaderDB.le_trans hp.1 hr.1, ?_⟩
      intro hok h hmem
      simp only [List.mem_cons] at hmem
      rcases hmem with rfl | hmem
      · exact HeaderDB.marked_le hr.1 (hp.2 rfl)
      · exact hr.2 hok h hmem
    · rename_i w1 t out hne heq
      rw [heq] at hp
      exact ⟨hp.1, fun h => absurd h hne⟩

theorem HeaderDB.mem_missing (db : HeaderDB) (lo hi : Int) (ids : List String) (h : Header) :
    h ∈ db.MissingHeadersForAll lo hi ids ↔
      h ∈ db.headers ∧ lo ≤ h.BlockNumber ∧ (hi < 0 ∨ h.BlockNumber ≤ hi) ∧
        db.isMissing ids h = true := by
  unfold HeaderDB.MissingHeadersForAll
  rw [(List.perm_insertionSort headerLE _).mem_iff]
  simp [List.mem_filter, and_assoc]

theorem Execute_nothing_missing {W : Type} (C : Collaborators W) (tr : Transformer) (w : W)
    (hne : tr.Contracts ≠ [])
    (hempty : C.MissingHeadersForAll w tr.Start (-1) tr.eventIds = (w, [], none)) :
    Execute C tr w =
      ⟨w, tr.Start, [Call.MissingHeadersForAll tr.Start (-1) tr.eventIds none], [], [], .ok⟩ := by
  have hlen : ¬ tr.Contracts.length = 0 := by simpa using hne
  unfold Execute
  rw [if_neg hlen, hempty]
  rfl

/-! ## Markers and polls within one header -/

theorem insertAt_perm {α : Type} (n : Nat) (x : α) (l : List α) : (insertAt n x l).Perm (x :: l) := by
  unfold insertAt
  have h : (l.take (n % (l.length + 1)) ++ x :: l.drop (n % (l.length + 1))).Perm
      (x :: (l.take (n % (l.length + 1)) ++ l.drop (n % (l.length + 1)))) := List.perm_middle
  rw [List.take_append_drop] at h
  exact h

theorem shuffle_perm {α : Type} : ∀ (code : List Nat) (l : List α), (shuffle code l).Perm l := by
  intro code l
  induction l generalizing code with
  | nil => cases code <;> simp [shuffle]
  | cons x xs ih =>
    cases code with
    | nil => simp only [shuffle]; exact (ih []).cons x
    | cons c cs =>
      simp only [shuffle]
      exact (insertAt_perm c x _).trans ((ih cs).cons x)

theorem mem_rangeMap {V : Type} (C : Collaborators W) (w : W) (m : GoMap V) (p : String × V) :
    p ∈ (rangeMap C w m).2 ↔ p ∈ m :=
  (shuffle_perm _ _).mem_iff

/-- What stands around a call in the trace of `methodPolling`: a poll is made at the
block of the header and a successful poll is followed at once by the method-id marker
of its contract; a marker is the method-id marker of the contract polled just before. -/
theorem pollContracts_split (C : Collaborators W) (smi : GoMap (List String)) (header : Header) :
    ∀ (l : List (String × Contract)) (w : W) (a b : List Call) (c : Call),
      (pollContracts C smi header l w).trace = a ++ c :: b →
      (∀ con bn e, c = Call.PollContractAt con bn e → bn = header.BlockNumber ∧
        (e = none → ∃ e1 b1,
          b = Call.MarkHeaderCheckedForAll header.ID (GoMap.getD smi con.Address []) e1 :: b1)) ∧
      (∀ id ids e, c = Call.MarkHeaderCheckedForAll id ids e → id = header.ID ∧
        ∃ a1 con, a = a1 ++ [Call.PollContractAt con header.BlockNumber none] ∧
          ids = GoMap.getD smi con.Address []) := by
  intro l
  induction l with
  | nil => intro w a b c h; simp [pollContracts] at h
  | cons p rest ih =>
    intro w a b c
    obtain ⟨k, con⟩ := p
    unfold pollContracts
    split
    · exact ih w a b c
    · split
      · intro h
        cases a with
        | nil =>
          simp only [List.nil_append, List.cons.injEq] at h
          obtain ⟨rfl, rfl⟩ := h
          simp
        | cons x a2 =>
          simp only [List.cons_append, List.cons.injEq] at h
          have := h.2
          simp at this
      · split
        · intro h
          cases a with
          | nil =>
            simp only [List.nil_append, List.cons.injEq] at h
            obtain ⟨rfl, rfl⟩ := h
            simp
          | cons x a2 =>
            simp only [List.cons_append, List.cons.injEq] at h
            obtain ⟨rfl, h⟩ := h
            cases a2 with
            | nil =>
              simp only [List.nil_append, List.cons.injEq] at h
              obtain ⟨rfl, rfl⟩ := h
              refine ⟨by simp, ?_⟩
              intro id ids e he
              cases he
              exact ⟨rfl, [], con, rfl, rfl⟩
            | cons y a3 =>
              simp only [List.cons_append, List.cons.injEq] at h
              have := h.2
              simp at this
        · rename_i w2 _
          intro h
          cases a with
          | nil =>
            simp only [List.nil_append, List.cons.injEq] at h
            obtain ⟨rfl, rfl⟩ := h
            simp
          | cons x a2 =>
            simp only [List.cons_append, List.cons.injEq] at h
            obtain ⟨rfl, h⟩ := h
            cases a2 with
            | nil =>
              simp only [List.nil_append, List.cons.injEq] at h
              obtain ⟨rfl, rfl⟩ := h
              refine ⟨by simp, ?_⟩
              intro id ids e he
              cases he
              exact ⟨rfl, [], con, rfl, rfl⟩
            | cons y a3 =>
              simp only [List.cons_append, List.cons.injEq] at h
              obtain ⟨rfl, h⟩ := h
              obtain ⟨h1, h2⟩ := ih w2 a3 b c h
              refine ⟨h1, ?_⟩
              intro id ids e he
              obtain ⟨hid, a1, con1, ha, hids⟩ := h2 id ids e he
              exact ⟨hid, Call.PollContractAt con header.BlockNumber none ::
                Call.MarkHeaderCheckedForAll header.ID (GoMap.getD smi con.Address []) none :: a1,
                con1, by simp [ha], hids⟩

/-- A successful `methodPolling` polled every contract that has a method and whose
starting block is not above the header, and set its method-id marker. -/
theorem pollContracts_ok (C : Collaborators W) (smi : GoMap (List String)) (header : Header) :
    ∀ (l : List (String × Contract)) (w : W),
      (pollContracts C smi header l w).out = .ok →
      ∀ p ∈ l, p.2.Methods ≠ [] → p.2.StartingBlock ≤ header.BlockNumber →
        Call.PollContractAt p.2 header.BlockNumber none ∈ (pollContracts C smi header l w).trace ∧
        Call.MarkHeaderCheckedForAll header.ID (GoMap.getD smi p.2.Address []) none ∈
          (pollContracts C smi header l w).trace := by
  intro l
  induction l with
  | nil => intro w _ p hp; cases hp
  | cons q rest ih =>
    intro w
    obtain ⟨k, con⟩ := q
    unfold pollContracts
    split
    · rename_i hskip
      intro hok p hp hm hs
      simp only [List.mem_cons] at hp
      rcases hp with rfl | hp
      · exfalso
        rcases hskip with h | h
        · exact hm (List.length_eq_zero.mp h)
        · simp only at hs; omega
      · exact ih w hok p hp hm hs
    · split
      · intro hok; cases hok
      · split
        · intro hok; cases hok
        · rename_i w2 _
          intro hok p hp hm hs
          simp only [List.mem_cons] at hp
          rcases hp with rfl | hp
          · simp
          · have := ih w2 hok p hp hm hs
            exact ⟨List.mem_cons_of_mem _ (List.mem_cons_of_mem _ this.1),
              List.mem_cons_of_mem _ (List.mem_cons_of_mem _ this.2)⟩

theorem markAndPoll_shape (C : Collaborators W) (tr : Transformer) (header : Header) (w : W) :
    ∃ e t, (markAndPoll C tr header w).trace =
        Call.MarkHeaderCheckedForAll header.ID tr.eventIds e :: t ∧
      ((e ≠ none ∧ t = [] ∧ (markAndPoll C tr header w).out ≠ .ok) ∨
        (e = none ∧ ∃ w1,
          t = (pollContracts C tr.sortedMethodIds header (rangeMap C w1 tr.Contracts).2
            (rangeMap C w1 tr.Contracts).1).trace ∧
          ((markAndPoll C tr header w).out = .ok →
            (pollContracts C tr.sortedMethodIds header (rangeMap C w1 tr.Contracts).2
              (rangeMap C w1 tr.Contracts).1).out = .ok))) := by
  unfold markAndPoll
  split
  · rename_i w1 e _
    exact ⟨some e, [], rfl, Or.inl ⟨by simp, rfl, by simp⟩⟩
  · rename_i w1 _
    split <;> rename_i heq
    · refine ⟨none, _, rfl, Or.inr ⟨rfl, w1, ?_, ?_⟩⟩
      · have := congrArg Res.trace heq
        simpa [methodPolling] using this.symm
      · intro _
        have := congrArg Res.out heq
        simpa [methodPolling] using this
    · refine ⟨none, _, rfl, Or.inr ⟨rfl, w1, ?_, ?_⟩⟩
      · have := congrArg Res.trace heq
        simpa [methodPolling] using this.symm
      · intro h; cases h
    · refine ⟨none, _, rfl, Or.inr ⟨rfl, w1, ?_, ?_⟩⟩
      · have := congrArg Res.trace heq
        simpa [methodPolling] using this.symm
      · intro h; cases h

/-- What stands around a poll or a marker among the calls of one header. -/
theorem processHeader_around (C : Collaborators W) (tr : Transformer) (header : Header) (w : W)
    (a b : List Call) (c : Call) (htrace : (processHeader C tr header w).trace = a ++ c :: b) :
    (∀ con bn e, c = Call.PollContractAt con bn e →
      bn = header.BlockNumber ∧ Call.MarkHeaderCheckedForAll header.ID tr.eventIds none ∈ a ∧
      (e = none → ∃ e1 b1, b = Call.MarkHeaderCheckedForAll header.ID
        (GoMap.getD tr.sortedMethodIds con.Address []) e1 :: b1)) ∧
    (∀ id ids e, c = Call.MarkHeaderCheckedForAll id ids e → id = header.ID ∧
      ((ids = tr.eventIds ∧ ∀ d ∈ a, d.isPollContractAt = false) ∨
        ∃ a1 con, a = a1 ++ [Call.PollContractAt con header.BlockNumber none] ∧
          ids = GoMap.getD tr.sortedMethodIds con.Address [])) := by
  obtain ⟨ev, mp, hsplit, hev, -, hmp⟩ := processHeader_split C tr header w
  have hevNoPoll : ∀ d ∈ ev, d.isPollContractAt = false := by
    intro d hd
    have := hev d hd
    cases d <;> simp [Call.isEventPhase, Call.isPollContractAt] at this ⊢
  rw [htrace] at hsplit
  -- a call of the event phase is neither a poll nor a marker
  by_cases hc : c.isMarkPhase = true
  swap
  · constructor
    · intro con bn e he; subst he; simp [Call.isMarkPhase] at hc
    · intro id ids e he; subst he; simp [Call.isMarkPhase] at hc
  -- so `c` stands in the mark phase
  have hin : ∃ a1, a = ev ++ a1 ∧ mp = a1 ++ c :: b := by
    rcases List.append_eq_append_iff.mp hsplit with ⟨a1, h1, h2⟩ | ⟨c1, h1, h2⟩
    · cases a1 with
      | nil =>
        refine ⟨[], by simpa using h1.symm, ?_⟩
        simpa using h2.symm
      | cons x a2 =>
        simp only [List.cons_append, List.cons.injEq] at h2
        have hx : c ∈ ev := by rw [h1, h2.1]; simp
        have := hev c hx
        cases c <;> simp [Call.isEventPhase, Call.isMarkPhase] at this hc
    · exact ⟨c1, h1, h2⟩
  obtain ⟨a1, ha, hmpeq⟩ := hin
  rcases hmp with ⟨hnil, -⟩ | ⟨w1, hmark, -⟩
  · rw [hnil] at hmpeq; simp at hmpeq
  obtain ⟨e0, t, htr, hcases⟩ := markAndPoll_shape C tr header w1
  rw [hmark, htr] at hmpeq
  cases a1 with
  | nil =>
    simp only [List.nil_append, List.cons.injEq] at hmpeq
    obtain ⟨rfl, -⟩ := hmpeq
    constructor
    · intro con bn e he; cases he
    · intro id ids e he
      cases he
      refine ⟨rfl, Or.inl ⟨rfl, ?_⟩⟩
      rw [ha, List.append_nil]
      exact hevNoPoll
  | cons x a2 =>
    simp only [List.cons_append, List.cons.injEq] at hmpeq
    obtain ⟨hx, ht⟩ := hmpeq
    rcases hcases with ⟨-, hnil, -⟩ | ⟨he0, w2, htp, -⟩
    · rw [hnil] at ht; simp at ht
    rw [htp] at ht
    obtain ⟨h1, h2⟩ := pollContracts_split C tr.sortedMethodIds header _ _ a2 b c ht
    constructor
    · intro con bn e he
      obtain ⟨hbn, hnext⟩ := h1 con bn e he
      refine ⟨hbn, ?_, hnext⟩
      rw [ha, ← hx, he0]
      simp
    · intro id ids e he
      obtain ⟨hid, a3, con, ha3, hids⟩ := h2 id ids e he
      refine ⟨hid, Or.inr ⟨ev ++ x :: a3, con, ?_, hids⟩⟩
      rw [ha, ha3]
      simp

/-- The markers a header has after its processing ended without error. -/
theorem processHeader_ok_marks (C : Collaborators W) (tr : Transformer) (header : Header) (w : W)
    (hok : (processHeader C tr header w).out = .ok) :
    Call.MarkHeaderCheckedForAll header.ID tr.eventIds none ∈
      (processHeader C tr header w).trace ∧
    ∀ p ∈ tr.Contracts, p.2.Methods ≠ [] → p.2.StartingBlock ≤ header.BlockNumber →
      Call.PollContractAt p.2 header.BlockNumber none ∈ (processHeader C tr header w).trace ∧
      Call.MarkHeaderCheckedForAll header.ID (GoMap.getD tr.sortedMethodIds p.2.Address []) none ∈
        (processHeader C tr header w).trace := by
  obtain ⟨ev, mp, hsplit, -, -, hmp⟩ := processHeader_split C tr header w
  rcases hmp with ⟨-, hne⟩ | ⟨w1, hmark, hout⟩
  · exact absurd hok hne
  obtain ⟨e0, t, htr, hcases⟩ := markAndPoll_shape C tr header w1
  rw [hout] at hok
  rcases hcases with ⟨-, -, hne⟩ | ⟨he0, w2, htp, hpok⟩
  · exact absurd hok hne
  rw [hsplit, hmark, htr, he0]
  refine ⟨by simp, ?_⟩
  intro p hp hm hs
  have := pollContracts_ok C tr.sortedMethodIds header _ _ (hpok hok) p
    ((mem_rangeMap C w2 tr.Contracts p).mpr hp) hm hs
  rw [← htp] at this
  exact ⟨by simp [this.1], by simp [this.2]⟩

/-! ## Go maps -/

theorem GoMap.lookup_cons_self {V : Type} (m : GoMap V) (k : String) (v : V) :
    List.lookup k ((k, v) :: m) = some v := by
  simp [List.lookup_cons]

theorem GoMap.lookup_cons_ne {V : Type} (m : GoMap V) (k a : String) (v : V) (h : k ≠ a) :
    List.lookup k ((a, v) :: m) = List.lookup k m := by
  have h2 : (k == a) = false := by simpa using h
  simp [List.lookup_cons, h2]

theorem GoMap.map_set_cons_eq {V : Type} (rest : GoMap V) (k : String) (x v : V) :
    List.map (fun p => if p.1 == k then (k, v) else p) ((k, x) :: rest) =
      (k, v) :: List.map (fun p => if p.1 == k then (k, v) else p) rest := by
  simp

theorem GoMap.map_set_cons_ne {V : Type} (rest : GoMap V) (a k : String) (x v : V)
    (h : a ≠ k) :
    List.map (fun p => if p.1 == k then (k, v) else p) ((a, x) :: rest) =
      (a, x) :: List.map (fun p => if p.1 == k then (k, v) else p) rest := by
  simp [h]

theorem GoMap.lookup_map_set {V : Type} (m : GoMap V) (k k1 : String) (v : V) :
    List.lookup k1 (List.map (fun p => if p.1 == k then (k, v) else p) m) =
      if k1 = k then (List.lookup k1 m).map (fun _ => v) else List.lookup k1 m := by
  induction m with
  | nil => simp
  | cons p rest ih =>
    obtain ⟨a, x⟩ := p
    by_cases ha : a = k
    · subst ha
      rw [GoMap.map_set_cons_eq]
      by_cases h1 : k1 = a
      · subst h1
        rw [GoMap.lookup_cons_self, GoMap.lookup_cons_self, if_pos rfl]
        rfl
      · rw [GoMap.lookup_cons_ne _ _ _ _ h1, GoMap.lookup_cons_ne _ _ _ _ h1, ih]
    · rw [GoMap.map_set_cons_ne _ _ _ _ _ ha]
      by_cases h1 : k1 = a
      · subst h1
        rw [GoMap.lookup_cons_self, GoMap.lookup_cons_self, if_neg ha]
      · rw [GoMap.lookup_cons_ne _ _ _ _ h1, GoMap.lookup_cons_ne _ _ _ _ h1, ih]

theorem GoMap.lookup_append_single {V : Type} (m : GoMap V) (k k1 : String) (v : V) :
    List.lookup k1 (m ++ [(k, v)]) =
      match List.lookup k1 m with
      | some x => some x
      | none => if k1 = k then some v else none := by
  induction m with
  | nil =>
    by_cases h : k1 = k
    · subst h
      rw [List.nil_append, GoMap.lookup_cons_self]
      simp
    · rw [List.nil_append, GoMap.lookup_cons_ne _ _ _ _ h]
      simp [h]
  | cons p rest ih =>
    obtain ⟨a, x⟩ := p
    by_cases h1 : k1 = a
    · subst h1
      rw [List.cons_append, GoMap.lookup_cons_self, GoMap.lookup_cons_self]
    · rw [List.cons_append, GoMap.lookup_cons_ne _ _ _ _ h1, GoMap.lookup_cons_ne _ _ _ _ h1, ih]

theorem GoMap.lookup_eq_none_of_not_any {V : Type} (m : GoMap V) (k : String)
    (h : m.any (fun p => p.1 == k) = false) : List.lookup k m = none := by
  induction m with
  | nil => rfl
  | cons p rest ih =>
    obtain ⟨a, x⟩ := p
    simp only [List.any_cons, Bool.or_eq_false_iff] at h
    have h2 : k ≠ a := by
      have := h.1
      simp only [beq_eq_false_iff_ne, ne_eq] at this
      exact fun e => this e.symm
    rw [GoMap.lookup_cons_ne _ _ _ _ h2]
    exact ih h.2

theorem GoMap.lookup_isSome_of_any {V : Type} (m : GoMap V) (k : String)
    (h : m.any (fun p => p.1 == k) = true) : ∃ x, List.lookup k m = some x := by
  induction m with
  | nil => simp at h
  | cons p rest ih =>
    obtain ⟨a, x⟩ := p
    by_cases h1 : k = a
    · subst h1
      exact ⟨x, GoMap.lookup_cons_self _ _ _⟩
    · simp only [List.any_cons, Bool.or_eq_true] at h
      rcases h with h | h
      · have hak : a = k := by simpa using h
        exact absurd hak.symm h1
      · obtain ⟨y, hy⟩ := ih h
        exact ⟨y, by rw [GoMap.lookup_cons_ne _ _ _ _ h1, hy]⟩

/-- Go `m[k] = v` then `m[k]`. -/
theorem GoMap.lookup_set_self {V : Type} (m : GoMap V) (k : String) (v : V) :
    List.lookup k (GoMap.set m k v) = some v := by
  unfold GoMap.set
  split
  · rename_i h
    obtain ⟨x, hx⟩ := GoMap.lookup_isSome_of_any m k h
    rw [GoMap.lookup_map_set, if_pos rfl, hx]
    rfl
  · rename_i h
    have h0 : m.any (fun p => p.1 == k) = false := by
      cases hb : m.any (fun p => p.1 == k) with
      | false => rfl
      | true => exact absurd hb h
    rw [GoMap.lookup_append_single, GoMap.lookup_eq_none_of_not_any m k h0]
    simp

/-- Go `m[k] = v` leaves every other key as it was. -/
theorem GoMap.lookup_set_ne {V : Type} (m : GoMap V) (k k1 : String) (v : V) (h : k1 ≠ k) :
    List.lookup k1 (GoMap.set m k v) = List.lookup k1 m := by
  unfold GoMap.set
  split
  · rw [GoMap.lookup_map_set, if_neg h]
  · rw [GoMap.lookup_append_single]
    cases List.lookup k1 m with
    | none => simp [h]
    | some x => rfl

theorem GoMap.getD_set_self {V : Type} (m : GoMap V) (k : String) (v z : V) :
    GoMap.getD (GoMap.set m k v) k z = v := by
  simp [GoMap.getD, GoMap.lookup_set_self]

theorem GoMap.getD_set_ne {V : Type} (m : GoMap V) (k k1 : String) (v z : V) (h : k1 ≠ k) :
    GoMap.getD (GoMap.set m k v) k1 z = GoMap.getD m k1 z := by
  simp [GoMap.getD, GoMap.lookup_set_ne m k k1 v h]

/-! ## What Init builds for each address -/

theorem addEventColumns_spec (C : Collaborators W) (con : Contract) :
    ∀ (l : List (String × Event)) (w : W) (tr : Transformer),
      (addEventColumns C con l w tr).tr.Config = tr.Config ∧
      (addEventColumns C con l w tr).tr.Contracts = tr.Contracts ∧
      (addEventColumns C con l w tr).tr.sortedMethodIds = tr.sortedMethodIds ∧
      (addEventColumns C con l w tr).tr.Start = tr.Start ∧
      (addEventColumns C con l w tr).tr.contractAddresses = tr.contractAddresses ∧
      (∀ k, k ≠ con.Address →
        List.lookup k (addEventColumns C con l w tr).tr.sortedEventIds =
          List.lookup k tr.sortedEventIds) ∧
      ((addEventColumns C con l w tr).out = .ok →
        GoMap.getD (addEventColumns C con l w tr).tr.sortedEventIds con.Address [] =
          GoMap.getD tr.sortedEventIds con.Address [] ++
            l.map (fun p => columnID p.2.Name con.Address) ∧
        (addEventColumns C con l w tr).trace =
          l.map (fun p => Call.AddCheckColumn (columnID p.2.Name con.Address) none) ∧
        (addEventColumns C con l w tr).tr.eventIds =
          tr.eventIds ++ l.map (fun p => columnID p.2.Name con.Address) ∧
        (addEventColumns C con l w tr).tr.eventFilters =
          tr.eventFilters ++ l.map (fun p => p.2.Sig)) := by
  intro l
  induction l with
  | nil => intro w tr; simp [addEventColumns]
  | cons p rest ih =>
    intro w tr
    obtain ⟨name, event⟩ := p
    unfold addEventColumns
    split
    · simp
    · rename_i w1 _
      simp only []
      obtain ⟨h1, h2, h3, h4, h5, h6, h7⟩ := ih w1
        { tr with
          sortedEventIds := GoMap.set tr.sortedEventIds con.Address
            (GoMap.getD tr.sortedEventIds con.Address [] ++ [columnID event.Name con.Address])
          eventIds := tr.eventIds ++ [columnID event.Name con.Address]
          eventFilters := tr.eventFilters ++ [event.Sig] }
      refine ⟨h1, h2, h3, h4, h5, ?_, ?_⟩
      · intro k hk
        rw [h6 k hk]
        exact GoMap.lookup_set_ne _ _ _ _ hk
      · intro hok
        obtain ⟨g1, g2, g3, g4⟩ := h7 hok
        refine ⟨?_, ?_, ?_, ?_⟩
        · rw [g1, GoMap.getD_set_self]; simp
        · rw [g2]; simp
        · rw [g3]; simp
        · rw [g4]; simp

theorem addMethodColumns_spec (C : Collaborators W) (con : Contract) :
    ∀ (l : List (String × Method)) (w : W) (tr : Transformer),
      (addMethodColumns C con l w tr).tr.Config = tr.Config ∧
      (addMethodColumns C con l w tr).tr.Contracts = tr.Contracts ∧
      (addMethodColumns C con l w tr).tr.sortedEventIds = tr.sortedEventIds ∧
      (addMethodColumns C con l w tr).tr.Start = tr.Start ∧
      (addMethodColumns C con l w tr).tr.contractAddresses = tr.contractAddresses ∧
      (addMethodColumns C con l w tr).tr.eventIds = tr.eventIds ∧
      (addMethodColumns C con l w tr).tr.eventFilters = tr.eventFilters ∧
      (∀ k, k ≠ con.Address →
        List.lookup k (addMethodColumns C con l w tr).tr.sortedMethodIds =
          List.lookup k tr.sortedMethodIds) ∧
      ((addMethodColumns C con l w tr).out = .ok →
        GoMap.getD (addMethodColumns C con l w tr).tr.sortedMethodIds con.Address [] =
          GoMap.getD tr.sortedMethodIds con.Address [] ++
            l.map (fun p => columnID p.2.Name con.Address) ∧
        (addMethodColumns C con l w tr).trace =
          l.map (fun p => Call.AddCheckColumn (columnID p.2.Name con.Address) none)) := by
  intro l
  induction l with
  | nil => intro w tr; simp [addMethodColumns]
  | cons p rest ih =>
    intro w tr
    obtain ⟨name, m⟩ := p
    unfold addMethodColumns
    split
    · simp
    · rename_i w1 _
      simp only []
      obtain ⟨h1, h2, h3, h4, h5, h6, h7, h8, h9⟩ := ih w1
        { tr with
          sortedMethodIds := GoMap.set tr.sortedMethodIds con.Address
            (GoMap.getD tr.sortedMethodIds con.Address [] ++ [columnID m.Name con.Address]) }
      refine ⟨h1, h2, h3, h4, h5, h6, h7, ?_, ?_⟩
      · intro k hk
        rw [h8 k hk]
        exact GoMap.lookup_set_ne _ _ _ _ hk
      · intro hok
        obtain ⟨g1, g2⟩ := h9 hok
        refine ⟨?_, ?_⟩
        · rw [g1, GoMap.getD_set_self]; simp
        · rw [g2]; simp

theorem addColumns_spec (C : Collaborators W) (con : Contract) (w2 : W) (tr1 : Transformer)
    (hok : (addColumns C con w2 tr1).out = .ok) :
    ∃ (evs : List (String × Event)) (ms : List (String × Method)),
      evs.Perm con.Events ∧ ms.Perm con.Methods ∧
      GoMap.getD (addColumns C con w2 tr1).tr.sortedEventIds con.Address [] =
        evs.map (fun p => columnID p.2.Name con.Address) ∧
      GoMap.getD (addColumns C con w2 tr1).tr.sortedMethodIds con.Address [] =
        ms.map (fun p => columnID p.2.Name con.Address) ∧
      (addColumns C con w2 tr1).trace =
        evs.map (fun p => Call.AddCheckColumn (columnID p.2.Name con.Address) none) ++
          ms.map (fun p => Call.AddCheckColumn (columnID p.2.Name con.Address) none) ∧
      (addColumns C con w2 tr1).tr.Config = tr1.Config ∧
      (addColumns C con w2 tr1).tr.Contracts = tr1.Contracts ∧
      (∀ k, k ≠ con.Address →
        List.lookup k (addColumns C con w2 tr1).tr.sortedEventIds =
          List.lookup k tr1.sortedEventIds ∧
        List.lookup k (addColumns C con w2 tr1).tr.sortedMethodIds =
          List.lookup k tr1.sortedMethodIds) ∧
      (addColumns C con w2 tr1).tr.contractAddresses = tr1.contractAddresses ∧
      (addColumns C con w2 tr1).tr.eventIds =
        tr1.eventIds ++ evs.map (fun p => columnID p.2.Name con.Address) ∧
      (addColumns C con w2 tr1).tr.eventFilters = tr1.eventFilters ++ evs.map (fun p => p.2.Sig) ∧
      (addColumns C con w2 tr1).tr.Start =
        if con.StartingBlock < tr1.Start then con.StartingBlock else tr1.Start := by
  revert hok
  unfold addColumns
  split
  swap
  · rename_i hne _
    intro h
    exact absurd h (by simpa using hne)
  rename_i w3 tr2 evTrace hev
  have hevspec := addEventColumns_spec C con (rangeMap C w2 con.Events).2
    (rangeMap C w2 con.Events).1
    { tr1 with sortedEventIds := GoMap.set tr1.sortedEventIds con.Address [] }
  rw [hev] at hevspec
  obtain ⟨e1, e2, e3, e4, e5, e6, e7⟩ := hevspec
  obtain ⟨e8, e9, e10, e11⟩ := e7 rfl
  simp only at e1 e2 e3 e4 e5 e6 e8 e9 e10 e11
  split
  swap
  · rename_i hne _
    intro h
    exact absurd h (by simpa using hne)
  rename_i w4 tr3 meTrace hme
  have hmespec := addMethodColumns_spec C con (rangeMap C w3 con.Methods).2
    (rangeMap C w3 con.Methods).1
    { tr2 with sortedMethodIds := GoMap.set tr2.sortedMethodIds con.Address [] }
  rw [hme] at hmespec
  obtain ⟨m1, m2, m3, m4, m5, m6, m7, m8, m9⟩ := hmespec
  obtain ⟨m10, m11⟩ := m9 rfl
  simp only at m1 m2 m3 m4 m5 m6 m7 m8 m10 m11
  intro _
  have hfin : ∀ (t : Transformer), t = (if con.StartingBlock < tr3.Start then
      { tr3 with Start := con.StartingBlock } else tr3) →
      t.Contracts = tr3.Contracts ∧ t.sortedEventIds = tr3.sortedEventIds ∧
      t.sortedMethodIds = tr3.sortedMethodIds ∧ t.Config = tr3.Config ∧
      t.contractAddresses = tr3.contractAddresses ∧ t.eventIds = tr3.eventIds ∧
      t.eventFilters = tr3.eventFilters ∧
      t.Start = if con.StartingBlock < tr3.Start then con.StartingBlock else tr3.Start := by
    intro t ht
    subst ht
    split <;> simp
  obtain ⟨s1, s2, s3, s4, s5, s6, s7, s8⟩ := hfin _ rfl
  refine ⟨(rangeMap C w2 con.Events).2, (rangeMap C w3 con.Methods).2, shuffle_perm _ _,
    shuffle_perm _ _, ?_, ?_, ?_, ?_, ?_, ?_, ?_, ?_, ?_, ?_⟩
  · rw [s2, m3, e8, GoMap.getD_set_self, List.nil_append]
  · rw [s3, m10, GoMap.getD_set_self, List.nil_append]
  · rw [e9, m11]
  · rw [s4, m1, e1]
  · rw [s1, m2, e2]
  · intro k hk
    constructor
    · rw [s2, m3, e6 k hk]
      exact GoMap.lookup_set_ne _ _ _ _ hk
    · rw [s3, m8 k hk, GoMap.lookup_set_ne _ _ _ _ hk, e3]
  · rw [s5, m5, e5]
  · rw [s6, m6, e10]
  · rw [s7, m7, e11]
  · rw [s8, m4, e4]

theorem buildFrom_spec (C : Collaborators W) (addr : String) (tr : Transformer) (pc : Call)
    (w1 : W) (ret : Int) (err : Option GoError)
    (hpc : pc.isRetrieveFirstBlock = false) (herr : err = none ∨ err = some GoError.ErrNoRows)
    (hok : (buildFrom C addr tr pc w1 ret err).out = .ok) :
    BuiltAt tr.Config (buildFrom C addr tr pc w1 ret err).tr
      (buildFrom C addr tr pc w1 ret err).trace addr ∧
    (buildFrom C addr tr pc w1 ret err).tr.Config = tr.Config ∧
    SameElsewhere tr (buildFrom C addr tr pc w1 ret err).tr addr := by
  revert hok
  unfold buildFrom
  split
  rename_i w2 name pollingErr _
  split
  rename_i w3 tr1 t out hadd
  intro hok
  simp only at hok
  have hout : (addColumns C (newContract C tr addr w2 name ret err) w2
      { tr with
        Contracts := GoMap.set tr.Contracts addr (newContract C tr addr w2 name ret err)
        contractAddresses := tr.contractAddresses ++
          [(newContract C tr addr w2 name ret err).Address] }).out = .ok := by
    rw [hadd]; exact hok
  have haddr : (newContract C tr addr w2 name ret err).Address = addr := rfl
  obtain ⟨evs, ms, p1, p2, g1, g2, g3, g4, g5, g6, -, -, -, -⟩ := addColumns_spec C _ _ _ hout
  rw [hadd] at g1 g2 g3 g4 g5 g6
  simp only at g1 g2 g3 g4 g5 g6
  rw [haddr] at g1 g2 g3 g6
  refine ⟨⟨newContract C tr addr w2 name ret err, evs, ms, ret, err, pc,
    Call.FetchContractData (C.Abi w1) addr "name" none (-1) name pollingErr,
    ?_, haddr, rfl, herr, p1, p2, g1, g2, ?_, hpc, rfl⟩, g4, ?_⟩
  · simp only [g5]
    exact GoMap.lookup_set_self _ _ _
  · simp only [g3]
  · intro k hk
    refine ⟨?_, (g6 k hk).1, (g6 k hk).2⟩
    simp only [g5]
    exact GoMap.lookup_set_ne _ _ _ _ hk

theorem buildContract_spec (C : Collaborators W) (addr : String) (w : W) (tr : Transformer)
    (pc : Call) (hpc : pc.isRetrieveFirstBlock = false)
    (hok : (buildContract C addr w tr pc).out = .ok) :
    BuiltAt tr.Config (buildContract C addr w tr pc).tr (buildContract C addr w tr pc).trace addr ∧
    (buildContract C addr w tr pc).tr.Config = tr.Config ∧
    SameElsewhere tr (buildContract C addr w tr pc).tr addr := by
  revert hok
  unfold buildContract
  split
  · rename_i w1 ret retrieveErr _
    split
    · rename_i he
      intro hok
      exact buildFrom_spec C addr tr pc w1 ret (some retrieveErr) hpc (Or.inr (by rw [he])) hok
    · intro hok
      cases hok
  · rename_i w1 ret _
    intro hok
    exact buildFrom_spec C addr tr pc w1 ret none hpc (Or.inl rfl) hok

theorem initContract_spec (C : Collaborators W) (addr : String) (w : W) (tr : Transformer)
    (hok : (initContract C addr w tr).out = .ok) :
    BuiltAt tr.Config (initContract C addr w tr).tr (initContract C addr w tr).trace addr ∧
    (initContract C addr w tr).tr.Config = tr.Config ∧
    SameElsewhere tr (initContract C addr w tr).tr addr := by
  revert hok
  unfold initContract
  split
  · split
    · intro hok; cases hok
    · rename_i w1 _
      intro hok
      exact buildContract_spec C addr w1 tr _ rfl hok
  · split
    · intro hok; cases hok
    · rename_i w1 _
      intro hok
      exact buildContract_spec C addr w1 tr _ rfl hok

theorem BuiltAt_congr (cfg : ContractConfig) (t0 t1 : Transformer) (trace : List Call)
    (addr : String)
    (h1 : List.lookup addr t1.Contracts = List.lookup addr t0.Contracts)
    (h2 : List.lookup addr t1.sortedEventIds = List.lookup addr t0.sortedEventIds)
    (h3 : List.lookup addr t1.sortedMethodIds = List.lookup addr t0.sortedMethodIds)
    (h : BuiltAt cfg t0 trace addr) : BuiltAt cfg t1 trace addr := by
  obtain ⟨con, evs, ms, ret, err, pc, fc, g1, g2, g3, g4, g5, g6, g7, g8, g9, g10, g11⟩ := h
  refine ⟨con, evs, ms, ret, err, pc, fc, h1.trans g1, g2, g3, g4, g5, g6, ?_, ?_, g9, g10, g11⟩
  · rw [← g7]; simp only [GoMap.getD, h2]
  · rw [← g8]; simp only [GoMap.getD, h3]

theorem initLoop_spec (C : Collaborators W) :
    ∀ (l : List (String × Bool)) (w : W) (tr : Transformer),
      (initLoop C l w tr).out = .ok →
      (initLoop C l w tr).tr.Config = tr.Config ∧
      (∀ k, k ∉ l.map Prod.fst →
        List.lookup k (initLoop C l w tr).tr.Contracts = List.lookup k tr.Contracts ∧
        List.lookup k (initLoop C l w tr).tr.sortedEventIds = List.lookup k tr.sortedEventIds ∧
        List.lookup k (initLoop C l w tr).tr.sortedMethodIds =
          List.lookup k tr.sortedMethodIds) ∧
      (∀ a ∈ l.map Prod.fst, ∃ t, (a, t) ∈ (initLoop C l w tr).log ∧
        BuiltAt tr.Config (initLoop C l w tr).tr t a) := by
  intro l
  induction l with
  | nil => intro w tr _; simp [initLoop]
  | cons p rest ih =>
    intro w tr
    obtain ⟨addr, b⟩ := p
    have hstep := initContract_spec C addr w tr
    unfold initLoop
    split
    · rename_i w1 tr1 t heq
      rw [heq] at hstep
      obtain ⟨hb, hc, hs⟩ := hstep rfl
      simp only at hb hc hs
      intro hok
      obtain ⟨i1, i2, i3⟩ := ih w1 tr1 hok
      refine ⟨i1.trans hc, ?_, ?_⟩
      · intro k hk
        simp only [List.map_cons, List.mem_cons, not_or] at hk
        obtain ⟨j1, j2, j3⟩ := i2 k hk.2
        obtain ⟨s1, s2, s3⟩ := hs k hk.1
        exact ⟨j1.trans s1, j2.trans s2, j3.trans s3⟩
      · intro a ha
        by_cases hrest : a ∈ rest.map Prod.fst
        · obtain ⟨t1, ht1, hbuilt⟩ := i3 a hrest
          rw [hc] at hbuilt
          exact ⟨t1, List.mem_cons_of_mem _ ht1, hbuilt⟩
        · simp only [List.map_cons, List.mem_cons] at ha
          rcases ha with rfl | ha
          · obtain ⟨j1, j2, j3⟩ := i2 a hrest
            exact ⟨t, List.mem_cons_self _ _, BuiltAt_congr _ _ _ _ _ j1 j2 j3 hb⟩
          · exact absurd ha hrest
    · rename_i w1 tr1 t out hne heq
      intro hok
      exact absurd hok hne

theorem Init_spec (C : Collaborators W) (tr : Transformer) (w : W)
    (hok : (Init C tr w).out = .ok) (addr : String)
    (hcfg : addr ∈ tr.Config.Addresses.map Prod.fst) :
    ∃ t, (addr, t) ∈ (Init C tr w).log ∧ BuiltAt tr.Config (Init C tr w).tr t addr := by
  unfold Init at hok ⊢
  obtain ⟨-, -, h3⟩ := initLoop_spec C _ _ _ hok
  apply h3
  obtain ⟨p, hp, rfl⟩ := List.mem_map.mp hcfg
  exact List.mem_map_of_mem _ ((mem_rangeMap C w tr.Config.Addresses p).mpr hp)

theorem firstBlockFor_eq_max (ret : Int) (err : Option GoError) (configured : Int) :
    firstBlockFor ret err configured =
      max (if err = some GoError.ErrNoRows then 0 else ret) configured := by
  unfold firstBlockFor
  simp only []
  by_cases h : (if err = some GoError.ErrNoRows then 0 else ret) < configured
  · rw [if_pos h, max_eq_right (le_of_lt h)]
  · rw [if_neg h, max_eq_left (not_lt.mp h)]

/-! ## Init under scripted collaborators -/

theorem scripted_buildContract (R : Responses) (addr : String) (w : ScriptWorld)
    (tr : Transformer) (pc : Call) (hsrc : w.source = parsedSource tr.Config addr)
    (hok : (buildContract (scripted R) addr w tr pc).out = .ok) :
    ∃ evs : List (String × Event),
      evs.Perm (builtContract R tr.Config addr).Events ∧
      List.lookup addr (buildContract (scripted R) addr w tr pc).tr.Contracts =
        some (builtContract R tr.Config addr) ∧
      (buildContract (scripted R) addr w tr pc).tr.contractAddresses =
        tr.contractAddresses ++ [addr] ∧
      (buildContract (scripted R) addr w tr pc).tr.eventIds =
        tr.eventIds ++ evs.map (fun p => columnID p.2.Name addr) ∧
      (buildContract (scripted R) addr w tr pc).tr.eventFilters =
        tr.eventFilters ++ evs.map (fun p => p.2.Sig) ∧
      (buildContract (scripted R) addr w tr pc).tr.Start =
        lowerStart tr.Start (builtContract R tr.Config addr) := by
  have key : ∀ (err : Option GoError), err = R.firstBlock.2 →
      (buildFrom (scripted R) addr tr pc w R.firstBlock.1 err).out = .ok →
      ∃ evs : List (String × Event),
        evs.Perm (builtContract R tr.Config addr).Events ∧
        List.lookup addr (buildFrom (scripted R) addr tr pc w R.firstBlock.1 err).tr.Contracts =
          some (builtContract R tr.Config addr) ∧
        (buildFrom (scripted R) addr tr pc w R.firstBlock.1 err).tr.contractAddresses =
          tr.contractAddresses ++ [addr] ∧
        (buildFrom (scripted R) addr tr pc w R.firstBlock.1 err).tr.eventIds =
          tr.eventIds ++ evs.map (fun p => columnID p.2.Name addr) ∧
        (buildFrom (scripted R) addr tr pc w R.firstBlock.1 err).tr.eventFilters =
          tr.eventFilters ++ evs.map (fun p => p.2.Sig) ∧
        (buildFrom (scripted R) addr tr pc w R.firstBlock.1 err).tr.Start =
          lowerStart tr.Start (builtContract R tr.Config addr) := by
    intro err herr
    unfold buildFrom
    split
    rename_i w2 name pollingErr hf
    have hw2 : w2 = w := (congrArg (fun x => x.1) hf).symm
    have hname : name = (R.contractName (R.abi w.source) addr).1 :=
      (congrArg (fun x => x.2.1) hf).symm
    have hcon : newContract (scripted R) tr addr w2 name R.firstBlock.1 err =
        builtContract R tr.Config addr := by
      rw [hw2, hname, herr]
      simp only [newContract, Contract.Init, builtContract, scripted, hsrc]
    rw [hcon]
    split
    rename_i w3 tr1 t out hadd
    intro hok
    simp only at hok
    have hout : (addColumns (scripted R) (builtContract R tr.Config addr) w2
        { tr with
          Contracts := GoMap.set tr.Contracts addr (builtContract R tr.Config addr)
          contractAddresses := tr.contractAddresses ++
            [(builtContract R tr.Config addr).Address] }).out = .ok := by
      rw [hadd]; exact hok
    obtain ⟨evs, ms, p1, -, -, -, -, -, g5, -, g7, g8, g9, g10⟩ := addColumns_spec _ _ _ _ hout
    rw [hadd] at g5 g7 g8 g9 g10
    simp only at g5 g7 g8 g9 g10
    refine ⟨evs, p1, ?_, g7, g8, g9, g10⟩
    simp only [g5]
    exact GoMap.lookup_set_self _ _ _
  revert hok
  unfold buildContract
  split
  · rename_i w1 ret retrieveErr hr
    have hw1 : w1 = w := (congrArg (fun x => x.1) hr).symm
    have hret : ret = R.firstBlock.1 := (congrArg (fun x => x.2.1) hr).symm
    have herr : some retrieveErr = R.firstBlock.2 := (congrArg (fun x => x.2.2) hr).symm
    split
    · intro hok
      rw [hw1, hret] at hok ⊢
      exact key _ herr hok
    · intro hok; cases hok
  · rename_i w1 ret hr
    have hw1 : w1 = w := (congrArg (fun x => x.1) hr).symm
    have hret : ret = R.firstBlock.1 := (congrArg (fun x => x.2.1) hr).symm
    have herr : none = R.firstBlock.2 := (congrArg (fun x => x.2.2) hr).symm
    intro hok
    rw [hw1, hret] at hok ⊢
    exact key _ herr hok

theorem scripted_initContract (R : Responses) (addr : String) (w : ScriptWorld)
    (tr : Transformer) (hok : (initContract (scripted R) addr w tr).out = .ok) :
    ∃ evs : List (String × Event),
      evs.Perm (builtContract R tr.Config addr).Events ∧
      List.lookup addr (initContract (scripted R) addr w tr).tr.Contracts =
        some (builtContract R tr.Config addr) ∧
      (initContract (scripted R) addr w tr).tr.contractAddresses =
        tr.contractAddresses ++ [addr] ∧
      (initContract (scripted R) addr w tr).tr.eventIds =
        tr.eventIds ++ evs.map (fun p => columnID p.2.Name addr) ∧
      (initContract (scripted R) addr w tr).tr.eventFilters =
        tr.eventFilters ++ evs.map (fun p => p.2.Sig) ∧
      (initContract (scripted R) addr w tr).tr.Start =
        lowerStart tr.Start (builtContract R tr.Config addr) := by
  revert hok
  unfold initContract
  split
  · rename_i habi
    split
    · intro hok; cases hok
    · rename_i w1 hp
      have hw1 : w1.source = parsedSource tr.Config addr := by
        have := (congrArg (fun x => x.1.source) hp).symm
        simp only [scripted] at this
        rw [this, parsedSource, if_pos habi]
      exact scripted_buildContract R addr w1 tr _ hw1
  · rename_i habi
    split
    · intro hok; cases hok
    · rename_i w1 hp
      have hw1 : w1.source = parsedSource tr.Config addr := by
        have := (congrArg (fun x => x.1.source) hp).symm
        simp only [scripted] at this
        rw [this, parsedSource, if_neg habi]
      exact scripted_buildContract R addr w1 tr _ hw1

theorem lowerStart_comm (s : Int) (a b : Contract) :
    lowerStart (lowerStart s a) b = lowerStart (lowerStart s b) a := by
  unfold lowerStart
  split_ifs <;> omega

theorem scripted_initLoop (R : Responses) :
    ∀ (l : List (String × Bool)) (w : ScriptWorld) (tr : Transformer),
      (initLoop (scripted R) l w tr).out = .ok →
      (initLoop (scripted R) l w tr).tr.contractAddresses =
        tr.contractAddresses ++ l.map Prod.fst ∧
      (initLoop (scripted R) l w tr).tr.Start =
        l.foldl (fun s p => lowerStart s (builtContract R tr.Config p.1)) tr.Start ∧
      (initLoop (scripted R) l w tr).tr.eventIds.Perm
        (tr.eventIds ++ l.flatMap (fun p =>
          (builtContract R tr.Config p.1).Events.map (fun e => columnID e.2.Name p.1))) ∧
      (initLoop (scripted R) l w tr).tr.eventFilters.Perm
        (tr.eventFilters ++ l.flatMap (fun p =>
          (builtContract R tr.Config p.1).Events.map (fun e => e.2.Sig))) ∧
      (∀ a ∈ l.map Prod.fst,
        List.lookup a (initLoop (scripted R) l w tr).tr.Contracts =
          some (builtContract R tr.Config a)) := by
  intro l
  induction l with
  | nil => intro w tr _; simp [initLoop]
  | cons p rest ih =>
    intro w tr hok
    obtain ⟨addr, b⟩ := p
    have hstep := scripted_initContract R addr w tr
    have hstep2 := initContract_spec (scripted R) addr w tr
    revert hok
    unfold initLoop
    split
    · rename_i w1 tr1 t heq
      rw [heq] at hstep hstep2
      obtain ⟨evs, s1, s2, s3, s4, s5, s6⟩ := hstep rfl
      obtain ⟨-, hcfg, -⟩ := hstep2 rfl
      simp only at s2 s3 s4 s5 s6 hcfg
      intro hok
      obtain ⟨i1, i2, i3, i4, i5⟩ := ih w1 tr1 hok
      obtain ⟨-, hframe, -⟩ := initLoop_spec (scripted R) rest w1 tr1 hok
      rw [hcfg] at i2 i3 i4 i5
      simp only
      refine ⟨?_, ?_, ?_, ?_, ?_⟩
      · rw [i1, s3]; simp
      · rw [i2, s6]; rfl
      · refine i3.trans ?_
        rw [s4, List.flatMap_cons, List.append_assoc]
        exact (List.Perm.refl _).append ((s1.map _).append (List.Perm.refl _))
      · refine i4.trans ?_
        rw [s5, List.flatMap_cons, List.append_assoc]
        exact (List.Perm.refl _).append ((s1.map _).append (List.Perm.refl _))
      · intro a ha
        by_cases hrest : a ∈ rest.map Prod.fst
        · exact i5 a hrest
        · simp only [List.map_cons, List.mem_cons] at ha
          rcases ha with rfl | ha
          · rw [(hframe a hrest).1, s2]
          · exact absurd ha hrest
    · rename_i w1 tr1 t out hne heq
      intro hok
      exact absurd hok hne

/-! ## The passes of Init, and headers without logs -/

theorem addEventColumns_any (C : Collaborators W) (con : Contract) :
    ∀ (l : List (String × Event)) (w : W) (tr : Transformer),
      (∀ d ∈ (addEventColumns C con l w tr).trace, d.isAddCheckColumn = true) ∧
      ColumnsEnd (addEventColumns C con l w tr).trace (addEventColumns C con l w tr).out := by
  intro l
  induction l with
  | nil => intro w tr; exact ⟨by simp [addEventColumns], Or.inl ⟨rfl, by simp [addEventColumns]⟩⟩
  | cons p rest ih =>
    intro w tr
    obtain ⟨name, event⟩ := p
    unfold addEventColumns
    split
    · rename_i w1 e _
      exact ⟨by simp [Call.isAddCheckColumn], Or.inr ⟨_, e, rfl, rfl⟩⟩
    · rename_i w1 _
      simp only []
      obtain ⟨h1, h2⟩ := ih w1
        { tr with
          sortedEventIds := GoMap.set tr.sortedEventIds con.Address
            (GoMap.getD tr.sortedEventIds con.Address [] ++ [columnID event.Name con.Address])
          eventIds := tr.eventIds ++ [columnID event.Name con.Address]
          eventFilters := tr.eventFilters ++ [event.Sig] }
      constructor
      · intro d hd
        simp only [List.mem_cons] at hd
        rcases hd with rfl | hd
        · rfl
        · exact h1 d hd
      · rcases h2 with ⟨g1, g2⟩ | ⟨id, e, g1, g2⟩
        · left
          refine ⟨g1, ?_⟩
          intro d hd
          simp only [List.mem_cons] at hd
          rcases hd with rfl | hd
          · rfl
          · exact g2 d hd
        · right
          refine ⟨id, e, ?_, g2⟩
          rw [List.getLast?_cons, g1]
          rfl

theorem addMethodColumns_any (C : Collaborators W) (con : Contract) :
    ∀ (l : List (String × Method)) (w : W) (tr : Transformer),
      (∀ d ∈ (addMethodColumns C con l w tr).trace, d.isAddCheckColumn = true) ∧
      ColumnsEnd (addMethodColumns C con l w tr).trace (addMethodColumns C con l w tr).out := by
  intro l
  induction l with
  | nil => intro w tr; exact ⟨by simp [addMethodColumns], Or.inl ⟨rfl, by simp [addMethodColumns]⟩⟩
  | cons p rest ih =>
    intro w tr
    obtain ⟨name, m⟩ := p
    unfold addMethodColumns
    split
    · rename_i w1 e _
      exact ⟨by simp [Call.isAddCheckColumn], Or.inr ⟨_, e, rfl, rfl⟩⟩
    · rename_i w1 _
      simp only []
      obtain ⟨h1, h2⟩ := ih w1
        { tr with
          sortedMethodIds := GoMap.set tr.sortedMethodIds con.Address
            (GoMap.getD tr.sortedMethodIds con.Address [] ++ [columnID m.Name con.Address]) }
      constructor
      · intro d hd
        simp only [List.mem_cons] at hd
        rcases hd with rfl | hd
        · rfl
        · exact h1 d hd
      · rcases h2 with ⟨g1, g2⟩ | ⟨id, e, g1, g2⟩
        · left
          refine ⟨g1, ?_⟩
          intro d hd
          simp only [List.mem_cons] at hd
          rcases hd with rfl | hd
          · rfl
          · exact g2 d hd
        · right
          refine ⟨id, e, ?_, g2⟩
          rw [List.getLast?_cons, g1]
          rfl

theorem getLast?_append_of_some {α : Type} (a b : List α) (x : α) (h : b.getLast? = some x) :
    (a ++ b).getLast? = some x := by
  cases b with
  | nil => simp at h
  | cons y ys =>
    rw [List.getLast?_append, h]
    rfl

/-- The end of the body of the loop of `Init`, whatever its outcome: it only calls
`AddCheckColumn`, it leaves `Contracts` and the configuration alone, and it fails only on
a failed `AddCheckColumn` call. -/
theorem addColumns_any (C : Collaborators W) (con : Contract) (w2 : W) (tr1 : Transformer) :
    (∀ d ∈ (addColumns C con w2 tr1).trace, d.isAddCheckColumn = true) ∧
    ColumnsEnd (addColumns C con w2 tr1).trace (addColumns C con w2 tr1).out ∧
    (addColumns C con w2 tr1).tr.Contracts = tr1.Contracts ∧
    (addColumns C con w2 tr1).tr.Config = tr1.Config := by
  unfold addColumns
  have hev := addEventColumns_any C con (rangeMap C w2 con.Events).2 (rangeMap C w2 con.Events).1
    { tr1 with sortedEventIds := GoMap.set tr1.sortedEventIds con.Address [] }
  have hev2 := addEventColumns_spec C con (rangeMap C w2 con.Events).2
    (rangeMap C w2 con.Events).1
    { tr1 with sortedEventIds := GoMap.set tr1.sortedEventIds con.Address [] }
  split
  · rename_i w3 tr2 evTrace heq
    rw [heq] at hev hev2
    obtain ⟨e1, e2⟩ := hev
    obtain ⟨c1, c2, -⟩ := hev2
    simp only at e1 e2 c1 c2
    have hme := addMethodColumns_any C con (rangeMap C w3 con.Methods).2
      (rangeMap C w3 con.Methods).1
      { tr2 with sortedMethodIds := GoMap.set tr2.sortedMethodIds con.Address [] }
    have hme2 := addMethodColumns_spec C con (rangeMap C w3 con.Methods).2
      (rangeMap C w3 con.Methods).1
      { tr2 with sortedMethodIds := GoMap.set tr2.sortedMethodIds con.Address [] }
    have hevok : ∀ d ∈ evTrace, d.failed = false := by
      rcases e2 with ⟨-, g⟩ | ⟨id, e, -, g⟩
      · exact g
      · cases g
    split
    · rename_i w4 tr3 meTrace heq2
      rw [heq2] at hme hme2
      obtain ⟨m1, m2⟩ := hme
      obtain ⟨d1, d2, -⟩ := hme2
      simp only at m1 m2 d1 d2
      have hmeok : ∀ d ∈ meTrace, d.failed = false := by
        rcases m2 with ⟨-, g⟩ | ⟨id, e, -, g⟩
        · exact g
        · cases g
      refine ⟨?_, Or.inl ⟨rfl, ?_⟩, ?_, ?_⟩
      · intro d hd
        rcases List.mem_append.mp hd with hd | hd
        · exact e1 d hd
        · exact m1 d hd
      · intro d hd
        rcases List.mem_append.mp hd with hd | hd
        · exact hevok d hd
        · exact hmeok d hd
      · split <;> simp only [d2, c2]
      · split <;> simp only [d1, c1]
    · rename_i w4 tr3 meTrace out hne heq2
      rw [heq2] at hme hme2
      obtain ⟨m1, m2⟩ := hme
      obtain ⟨d1, d2, -⟩ := hme2
      simp only at m1 m2 d1 d2
      refine ⟨?_, ?_, by simp only [d2, c2], by simp only [d1, c1]⟩
      · intro d hd
        rcases List.mem_append.mp hd with hd | hd
        · exact e1 d hd
        · exact m1 d hd
      · rcases m2 with ⟨g, -⟩ | ⟨id, e, g1, g2⟩
        · exact absurd g hne
        · exact Or.inr ⟨id, e, getLast?_append_of_some _ _ _ g1, g2⟩
  · rename_i w3 tr2 evTrace out hne heq
    rw [heq] at hev hev2
    obtain ⟨e1, e2⟩ := hev
    obtain ⟨c1, c2, -⟩ := hev2
    simp only at e1 e2 c1 c2
    refine ⟨e1, ?_, c2, c1⟩
    rcases e2 with ⟨g, -⟩ | ⟨id, e, g1, g2⟩
    · exact absurd g hne
    · exact Or.inr ⟨id, e, g1, g2⟩

theorem buildFrom_any (C : Collaborators W) (addr : String) (tr : Transformer) (pc : Call)
    (w1 : W) (ret : Int) (err : Option GoError)
    (herr : err = none ∨ err = some GoError.ErrNoRows) :
    (buildFrom C addr tr pc w1 ret err).tr.Config = tr.Config ∧
    PassBuilt tr.Config addr tr.Start (buildFrom C addr tr pc w1 ret err) pc := by
  unfold buildFrom
  split
  rename_i w2 name pollingErr _
  split
  rename_i w3 tr1 t out hadd
  have hany := addColumns_any C (newContract C tr addr w2 name ret err) w2
    { tr with
      Contracts := GoMap.set tr.Contracts addr (newContract C tr addr w2 name ret err)
      contractAddresses := tr.contractAddresses ++
        [(newContract C tr addr w2 name ret err).Address] }
  have hspec := addColumns_spec C (newContract C tr addr w2 name ret err) w2
    { tr with
      Contracts := GoMap.set tr.Contracts addr (newContract C tr addr w2 name ret err)
      contractAddresses := tr.contractAddresses ++
        [(newContract C tr addr w2 name ret err).Address] }
  rw [hadd] at hany hspec
  obtain ⟨a1, a2, a3, a4⟩ := hany
  simp only at a1 a2 a3 a4
  refine ⟨a4, ret, err, C.Abi w1, name, pollingErr, t, newContract C tr addr w2 name ret err,
    herr, rfl, a1, a2, ?_, rfl, rfl, rfl, ?_⟩
  · simp only [a3]
    exact GoMap.lookup_set_self _ _ _
  · intro hok
    simp only at hok
    obtain ⟨_, _, -, -, -, -, -, -, -, -, -, -, -, g⟩ := hspec hok
    exact g

/-- The three ways a pass of the loop of `Init` can go: the parser call fails; the first
block cannot be retrieved (any error but `sql.ErrNoRows`); or the contract is built and
stored and its check columns are added. -/
theorem initContract_shape (C : Collaborators W) (addr : String) (w : W) (tr : Transformer) :
    (initContract C addr w tr).tr.Config = tr.Config ∧
    ((∃ e, (initContract C addr w tr).trace = [parseCallOf tr.Config addr (some e)] ∧
        (initContract C addr w tr).out = .error (parseErrorOf tr.Config addr e) ∧
        (initContract C addr w tr).tr = tr) ∨
      (∃ ret e, e ≠ GoError.ErrNoRows ∧
        (initContract C addr w tr).trace =
          [parseCallOf tr.Config addr none, Call.RetrieveFirstBlock ret (some e)] ∧
        (initContract C addr w tr).out =
          .error ("error retrieving first block: " ++ e.Error) ∧
        (initContract C addr w tr).tr = tr) ∨
      PassBuilt tr.Config addr tr.Start (initContract C addr w tr)
        (parseCallOf tr.Config addr none)) := by
  have hbuild : ∀ (w1 : W) (pc : Call),
      (buildContract C addr w1 tr pc).tr.Config = tr.Config ∧
      ((∃ ret e, e ≠ GoError.ErrNoRows ∧
          (buildContract C addr w1 tr pc).trace = [pc, Call.RetrieveFirstBlock ret (some e)] ∧
          (buildContract C addr w1 tr pc).out =
            .error ("error retrieving first block: " ++ e.Error) ∧
          (buildContract C addr w1 tr pc).tr = tr) ∨
        PassBuilt tr.Config addr tr.Start (buildContract C addr w1 tr pc) pc) := by
    intro w1 pc
    unfold buildContract
    split
    · rename_i w2 ret retrieveErr _
      split
      · rename_i he
        have := buildFrom_any C addr tr pc w2 ret (some retrieveErr) (Or.inr (by rw [he]))
        exact ⟨this.1, Or.inr this.2⟩
      · rename_i he
        exact ⟨rfl, Or.inl ⟨ret, retrieveErr, he, rfl, rfl, rfl⟩⟩
    · rename_i w2 ret _
      have := buildFrom_any C addr tr pc w2 ret none (Or.inl rfl)
      exact ⟨this.1, Or.inr this.2⟩
  unfold initContract
  split
  · rename_i habi
    have hpc : ∀ err, parseCallOf tr.Config addr err = Call.Parse addr err := by
      intro err; simp only [parseCallOf, if_pos habi]
    split
    · rename_i w1 e _
      refine ⟨rfl, Or.inl ⟨e, by rw [hpc], ?_, rfl⟩⟩
      simp only [parseErrorOf, if_pos habi]
    · rename_i w1 _
      rw [hpc]
      obtain ⟨h1, h2⟩ := hbuild w1 (Call.Parse addr none)
      exact ⟨h1, Or.inr h2⟩
  · rename_i habi
    have hpc : ∀ err, parseCallOf tr.Config addr err =
        Call.ParseAbiStr (GoMap.getD tr.Config.Abis addr "") err := by
      intro err; simp only [parseCallOf, if_neg habi]
    split
    · rename_i w1 e _
      refine ⟨rfl, Or.inl ⟨e, by rw [hpc], ?_, rfl⟩⟩
      simp only [parseErrorOf, if_neg habi]
    · rename_i w1 _
      rw [hpc]
      obtain ⟨h1, h2⟩ := hbuild w1 (Call.ParseAbiStr (GoMap.getD tr.Config.Abis addr "") none)
      exact ⟨h1, Or.inr h2⟩

/-- Every entry of the log of the loop of `Init` is the trace of the loop body at its
address, run on a transformer with the same configuration; the body ended without error,
or the entry is the last one and the loop ended as the body did. -/
theorem initLoop_entry (C : Collaborators W) :
    ∀ (l : List (String × Bool)) (w : W) (tr : Transformer) (addr : String) (t : List Call),
      (addr, t) ∈ (initLoop C l w tr).log →
      ∃ w1 tr1, tr1.Config = tr.Config ∧ (initContract C addr w1 tr1).trace = t ∧
        ((initContract C addr w1 tr1).out = .ok ∨
          ((initLoop C l w tr).log.getLast? = some (addr, t) ∧
            (initLoop C l w tr).out = (initContract C addr w1 tr1).out ∧
            (initLoop C l w tr).tr = (initContract C addr w1 tr1).tr)) := by
  intro l
  induction l with
  | nil => intro w tr addr t h; simp [initLoop] at h
  | cons p rest ih =>
    intro w tr addr t
    obtain ⟨a, b⟩ := p
    have hcfg := (initContract_shape C a w tr).1
    unfold initLoop
    split
    · rename_i w1 tr1 t1 heq
      rw [heq] at hcfg
      simp only at hcfg
      intro hmem
      simp only [List.mem_cons, Prod.mk.injEq] at hmem
      rcases hmem with ⟨rfl, rfl⟩ | hmem
      · exact ⟨w, tr, rfl, by rw [heq], Or.inl (by rw [heq])⟩
      · obtain ⟨w2, tr2, h1, h2, h3⟩ := ih w1 tr1 addr t hmem
        refine ⟨w2, tr2, h1.trans hcfg, h2, ?_⟩
        rcases h3 with h3 | ⟨h3, h4, h5⟩
        · exact Or.inl h3
        · refine Or.inr ⟨?_, h4, h5⟩
          simp only
          rw [List.getLast?_cons, h3]
          rfl
    · rename_i w1 tr1 t1 out hne heq
      intro hmem
      simp only [List.mem_singleton, Prod.mk.injEq] at hmem
      obtain ⟨rfl, rfl⟩ := hmem
      exact ⟨w, tr, rfl, by rw [heq], Or.inr ⟨rfl, by rw [heq], by rw [heq]⟩⟩

theorem Init_entry (C : Collaborators W) (tr : Transformer) (w : W) (addr : String)
    (t : List Call) (hmem : (addr, t) ∈ (Init C tr w).log) :
    ∃ w1 tr1, tr1.Config = tr.Config ∧ (initContract C addr w1 tr1).trace = t ∧
      ((initContract C addr w1 tr1).out = .ok ∨
        ((Init C tr w).log.getLast? = some (addr, t) ∧
          (Init C tr w).out = (initContract C addr w1 tr1).out ∧
          (Init C tr w).tr = (initContract C addr w1 tr1).tr)) := by
  unfold Init at hmem ⊢
  exact initLoop_entry C _ _ _ addr t hmem

theorem parseCallOf_not_retrieve (cfg : ContractConfig) (addr : String) (err : Option GoError) :
    (parseCallOf cfg addr err).isRetrieveFirstBlock = false := by
  unfold parseCallOf
  split <;> rfl

theorem parseCallOf_not_column (cfg : ContractConfig) (addr : String) (err : Option GoError) :
    (parseCallOf cfg addr err).isAddCheckColumn = false := by
  unfold parseCallOf
  split <;> rfl

theorem initLoop_start (C : Collaborators W) :
    ∀ (l : List (String × Bool)) (w : W) (tr : Transformer),
      (initLoop C l w tr).out = .ok →
      (initLoop C l w tr).tr.Start ≤ tr.Start ∧
      (∀ a ∈ l.map Prod.fst, ∀ con, List.lookup a (initLoop C l w tr).tr.Contracts = some con →
        (initLoop C l w tr).tr.Start ≤ con.StartingBlock) ∧
      ((l.map Prod.fst).Nodup →
        (initLoop C l w tr).tr.Start = tr.Start ∨
        ∃ a ∈ l.map Prod.fst, ∃ con,
          List.lookup a (initLoop C l w tr).tr.Contracts = some con ∧
          (initLoop C l w tr).tr.Start = con.StartingBlock) := by
  intro l
  induction l with
  | nil => intro w tr _; simp [initLoop]
  | cons p rest ih =>
    intro w tr
    obtain ⟨addr, b⟩ := p
    have hshape := (initContract_shape C addr w tr).2
    unfold initLoop
    split
    swap
    · rename_i w1 tr1 t out hne heq
      intro hok
      exact absurd hok hne
    rename_i w1 tr1 t heq
    rw [heq] at hshape
    intro hok
    simp only at hok ⊢
    -- the pass built and stored a contract
    have hbuilt : ∃ con, List.lookup addr tr1.Contracts = some con ∧
        tr1.Start = if con.StartingBlock < tr.Start then con.StartingBlock else tr.Start := by
      rcases hshape with ⟨e, -, h, -⟩ | ⟨ret, e, -, -, h, -⟩ |
        ⟨ret, err, abi, name, perr, cols, con, -, -, -, -, h1, -, -, -, h2⟩
      · cases h
      · cases h
      · exact ⟨con, h1, h2 rfl⟩
    obtain ⟨con1, hl1, hs1⟩ := hbuilt
    obtain ⟨i1, i2, i3⟩ := ih w1 tr1 hok
    obtain ⟨-, hframe, -⟩ := initLoop_spec C rest w1 tr1 hok
    have hle1 : tr1.Start ≤ tr.Start ∧ tr1.Start ≤ con1.StartingBlock := by
      rw [hs1]; split <;> constructor <;> omega
    refine ⟨le_trans i1 hle1.1, ?_, ?_⟩
    · intro a ha con hcon
      by_cases hrest : a ∈ rest.map Prod.fst
      · exact i2 a hrest con hcon
      · simp only [List.map_cons, List.mem_cons] at ha
        rcases ha with rfl | ha
        · rw [(hframe a hrest).1, hl1] at hcon
          cases hcon
          exact le_trans i1 hle1.2
        · exact absurd ha hrest
    · intro hnd
      simp only [List.map_cons, List.nodup_cons] at hnd
      rcases i3 hnd.2 with h | ⟨a, ha, con, h1, h2⟩
      · by_cases hlt : con1.StartingBlock < tr.Start
        · right
          refine ⟨addr, by simp, con1, ?_, ?_⟩
          · rw [(hframe addr hnd.1).1, hl1]
          · rw [h, hs1, if_pos hlt]
        · left
          rw [h, hs1, if_neg hlt]
      · exact Or.inr ⟨a, by simp [ha], con, h1, h2⟩

theorem columns_not_retrieve (cols : List Call) (h : ∀ d ∈ cols, d.isAddCheckColumn = true)
    (ret : Int) (err : Option GoError) : Call.RetrieveFirstBlock ret err ∉ cols := by
  intro hmem
  have := h _ hmem
  simp [Call.isAddCheckColumn] at this

theorem initLoop_out (C : Collaborators W) :
    ∀ (l : List (String × Bool)) (w : W) (tr : Transformer),
      (initLoop C l w tr).out = .ok ∨
      ∃ addr t w1 tr1, tr1.Config = tr.Config ∧
        (initLoop C l w tr).log.getLast? = some (addr, t) ∧
        (initContract C addr w1 tr1).trace = t ∧
        (initLoop C l w tr).out = (initContract C addr w1 tr1).out ∧
        (initContract C addr w1 tr1).out ≠ .ok := by
  intro l
  induction l with
  | nil => intro w tr; left; rfl
  | cons p rest ih =>
    intro w tr
    obtain ⟨a, b⟩ := p
    have hcfg := (initContract_shape C a w tr).1
    unfold initLoop
    split
    · rename_i w1 tr1 t1 heq
      rw [heq] at hcfg
      simp only at hcfg
      rcases ih w1 tr1 with h | ⟨addr, t, w2, tr2, h1, h2, h3, h4, h5⟩
      · exact Or.inl h
      · refine Or.inr ⟨addr, t, w2, tr2, h1.trans hcfg, ?_, h3, h4, h5⟩
        simp only
        rw [List.getLast?_cons, h2]
        rfl
    · rename_i w1 tr1 t1 out hne heq
      refine Or.inr ⟨a, t1, w, tr, rfl, rfl, by rw [heq], by rw [heq], ?_⟩
      rw [heq]
      exact hne

theorem persistEvents_convertPhase (C : Collaborators W) (con : Contract) :
    ∀ (l : List (String × List ConvertedLog)) (w : W),
      ∀ c ∈ (persistEvents C con l w).trace, c.isConvertPhase = true := by
  intro l
  induction l with
  | nil => intro w; simp [persistEvents]
  | cons p rest ih =>
    intro w
    obtain ⟨eventName, logs⟩ := p
    unfold persistEvents
    split
    · exact ih w
    · split
      · simp [Call.isConvertPhase]
      · rename_i w1 _
        intro c hc
        simp only [List.mem_cons] at hc
        rcases hc with rfl | hc
        · rfl
        · exact ih w1 c hc

theorem processContracts_convertPhase (C : Collaborators W) (tr : Transformer) (header : Header) :
    ∀ (l : List (String × List Log)) (w : W),
      ∀ c ∈ (processContracts C tr header l w).trace, c.isConvertPhase = true := by
  intro l
  induction l with
  | nil => intro w; simp [processContracts]
  | cons p rest ih =>
    intro w
    obtain ⟨conAddr, logs⟩ := p
    unfold processContracts
    split
    · exact ih w
    · split
      · simp [Call.isConvertPhase]
      · rename_i con _
        split
        · simp [Call.isConvertPhase]
        · rename_i w1 convertedLogs _
          have hp := persistEvents_convertPhase C con (rangeMap C w1 convertedLogs).2
            (rangeMap C w1 convertedLogs).1
          simp only []
          split
          · intro c hc
            simp only [List.mem_cons, List.mem_append] at hc
            rcases hc with rfl | rfl | hc | hc
            · rfl
            · rfl
            · exact hp c hc
            · exact ih _ c hc
          · intro c hc
            simp only [List.mem_cons] at hc
            rcases hc with rfl | rfl | hc
            · rfl
            · rfl
            · exact hp c hc

/-- The calls of a header whose processing ended without error and for which `FetchLogs`
answered no log: the fetch, the event-id marker, and the calls of `methodPolling`. -/
theorem processHeader_no_logs (C : Collaborators W) (tr : Transformer) (header : Header) (w : W)
    (addrs topics : List String) (h1 : Header) (e : Option GoError)
    (hfetch : Call.FetchLogs addrs topics h1 [] e ∈ (processHeader C tr header w).trace)
    (hok : (processHeader C tr header w).out = .ok) :
    ∃ w1, (processHeader C tr header w).trace =
        Call.FetchLogs tr.contractAddresses tr.eventFilters header [] none ::
          Call.MarkHeaderCheckedForAll header.ID tr.eventIds none ::
            (methodPolling C tr header tr.sortedMethodIds w1).trace ∧
      (methodPolling C tr header tr.sortedMethodIds w1).out = .ok := by
  revert hfetch hok
  unfold processHeader
  split
  · intro _ hok; cases hok
  · rename_i w1 allLogs _
    split
    · rename_i hlen
      have hnil : allLogs = [] := by
        cases allLogs with
        | nil => rfl
        | cons x xs => simp at hlen
      subst hnil
      intro _ hok
      simp only at hok ⊢
      have hshape := markAndPoll_shape C tr header w1
      obtain ⟨e0, t, htr, hcases⟩ := hshape
      rcases hcases with ⟨-, -, hne⟩ | ⟨he0, w2, ht, hpok⟩
      · exact absurd hok hne
      · refine ⟨w2, ?_, hpok hok⟩
        rw [htr, he0, ht]
        rfl
    · rename_i hlen
      have hp := processContracts_convertPhase C tr header (rangeMap C w1 (sortLogs allLogs)).2
        (rangeMap C w1 (sortLogs allLogs)).1
      simp only []
      have hhead : Call.FetchLogs addrs topics h1 [] e ≠
          Call.FetchLogs tr.contractAddresses tr.eventFilters header allLogs none := by
        intro h
        cases h
        simp at hlen
      split
      · intro hfetch _
        exfalso
        simp only [List.mem_cons, List.mem_append] at hfetch
        rcases hfetch with h | h | h
        · exact hhead h
        · have := hp _ h
          simp [Call.isConvertPhase] at this
        · have := markAndPoll_markPhase C tr header _ _ h
          simp [Call.isMarkPhase] at this
      · rename_i hne
        intro _ hok
        exact absurd hok hne

/-- A header the loop of `Execute` went past (every header when `Execute` returned no
error): its processing ended without error and the loop left it with
`Start = header.BlockNumber + 1`. -/
theorem Execute_done_entry (C : Collaborators W) (tr : Transformer) (w : W) (h : Header)
    (evs : List Call) (hmem : (h, evs) ∈ (Execute C tr w).log)
    (hdone : (Execute C tr w).out = .ok ∨ (Execute C tr w).log.getLast? ≠ some (h, evs)) :
    OkRun C tr (h, evs) ∧
    ∀ i : Nat, (Execute C tr w).log[i]? = some (h, evs) →
      (Execute C tr w).starts[i]? = some (wrapInt64 (h.BlockNumber + 1)) := by
  rcases Execute_cases C tr w with ⟨h0, -, -⟩ | ⟨w1, -, -, -, hlog, -, hout, -, -, hstarts⟩
  · rw [h0] at hmem; cases hmem
  rw [hlog] at hmem hdone
  rw [hout] at hdone
  rw [hlog, hstarts]
  rcases headerLoop_cases C tr (C.MissingHeadersForAll w tr.Start (-1) tr.eventIds).2.1 w1 tr.Start
    with ⟨-, h2, h3, -, h5⟩ | ⟨pre, h1, w2, hl, hpre, -, hne, -, -, hst⟩
  · refine ⟨h3 _ hmem, ?_⟩
    intro i hi
    rw [h5, ← h2, List.map_map, List.getElem?_map, hi]
    rfl
  · have hlastne : (h, evs) ≠ (h1, (processHeader C tr h1 w2).trace) := by
      rcases hdone with hd | hd
      · exact absurd hd hne
      · intro heq
        apply hd
        rw [hl, heq]
        simp
    have hinpre : (h, evs) ∈ pre := by
      rw [hl, List.mem_append, List.mem_singleton] at hmem
      rcases hmem with hmem | hmem
      · exact hmem
      · exact absurd hmem hlastne
    refine ⟨hpre _ hinpre, ?_⟩
    intro i hi
    rw [hl] at hi
    rw [hst]
    have hlt : i < pre.length := by
      by_contra hge
      have hge : pre.length ≤ i := by omega
      rw [List.getElem?_append_right hge] at hi
      cases hk : i - pre.length with
      | zero =>
        rw [hk] at hi
        simp only [List.getElem?_cons_zero, Option.some.injEq] at hi
        exact hlastne hi.symm
      | succ k =>
        rw [hk] at hi
        simp at hi
    rw [List.getElem?_append_left hlt] at hi
    rw [List.getElem?_append_left (by simpa using hlt), List.getElem?_map, hi]
    rfl

theorem pollContracts_eligible (C : Collaborators W) (smi : GoMap (List String)) (header : Header) :
    ∀ (l : List (String × Contract)) (w : W) (con : Contract) (bn : Int) (e : Option GoError),
      Call.PollContractAt con bn e ∈ (pollContracts C smi header l w).trace →
      bn = header.BlockNumber ∧ (∃ k, (k, con) ∈ l) ∧ con.Methods ≠ [] ∧
        con.StartingBlock ≤ header.BlockNumber := by
  intro l
  induction l with
  | nil => intro w con bn e h; simp [pollContracts] at h
  | cons p rest ih =>
    intro w con bn e
    obtain ⟨k, c0⟩ := p
    have hlift : (bn = header.BlockNumber ∧ (∃ k, (k, con) ∈ rest) ∧ con.Methods ≠ [] ∧
        con.StartingBlock ≤ header.BlockNumber) →
        bn = header.BlockNumber ∧ (∃ k1, (k1, con) ∈ (k, c0) :: rest) ∧ con.Methods ≠ [] ∧
          con.StartingBlock ≤ header.BlockNumber := by
      rintro ⟨h1, ⟨k1, h2⟩, h3, h4⟩
      exact ⟨h1, ⟨k1, List.mem_cons_of_mem _ h2⟩, h3, h4⟩
    unfold pollContracts
    split
    · intro h
      exact hlift (ih w con bn e h)
    · rename_i hel
      have helig : c0.Methods ≠ [] ∧ c0.StartingBlock ≤ header.BlockNumber := by
        simp only [not_or, not_lt] at hel
        exact ⟨fun h => hel.1 (by rw [h]; rfl), hel.2⟩
      have hhead : ∀ e0, Call.PollContractAt con bn e = Call.PollContractAt c0 header.BlockNumber e0 →
          bn = header.BlockNumber ∧ (∃ k1, (k1, con) ∈ (k, c0) :: rest) ∧ con.Methods ≠ [] ∧
            con.StartingBlock ≤ header.BlockNumber := by
        intro e0 h
        cases h
        exact ⟨rfl, ⟨k, List.mem_cons_self _ _⟩, helig.1, helig.2⟩
      split
      · intro h
        simp only [List.mem_singleton] at h
        exact hhead _ h
      · split
        · intro h
          simp only [List.mem_cons, List.mem_singleton, reduceCtorEq, List.not_mem_nil,
            or_false] at h
          exact hhead _ h
        · rename_i w2 _
          intro h
          simp only [List.mem_cons, reduceCtorEq, false_or] at h
          rcases h with h | h
          · exact hhead _ h
          · exact hlift (ih w2 con bn e h)

theorem pollContracts_only_last_fails (C : Collaborators W) (smi : GoMap (List String))
    (header : Header) :
    ∀ (l : List (String × Contract)) (w : W),
      (∀ c ∈ (pollContracts C smi header l w).trace.dropLast, c.failed = false) ∧
      ((pollContracts C smi header l w).out = .ok →
        ∀ c ∈ (pollContracts C smi header l w).trace, c.failed = false) := by
  intro l
  induction l with
  | nil => intro w; simp [pollContracts]
  | cons p rest ih =>
    intro w
    obtain ⟨k, con⟩ := p
    unfold pollContracts
    split
    · exact ih w
    · split
      · simp
      · split
        · simp [Call.failed, Call.err]
        · rename_i w2 _
          obtain ⟨h1, h2⟩ := ih w2
          constructor
          · intro c hc
            simp only at hc
            cases hr : (pollContracts C smi header rest w2).trace with
            | nil =>
              rw [hr] at hc
              simp only [List.dropLast_cons₂, List.dropLast_single, List.mem_singleton] at hc
              rw [hc]; rfl
            | cons x xs =>
              rw [hr] at hc h1
              simp only [List.dropLast_cons₂, List.mem_cons] at hc
              rcases hc with rfl | rfl | hc
              · rfl
              · rfl
              · exact h1 c hc
          · intro hok c hc
            simp only [List.mem_cons] at hc
            rcases hc with rfl | rfl | hc
            · rfl
            · rfl
            · exact h2 hok c hc

theorem Execute_empty_range (C : Collaborators W) (tr : Transformer) (w : W)
    (hne : tr.Contracts ≠ [])
    (hempty : (C.MissingHeadersForAll w tr.Start (-1) tr.eventIds).2 = ([], none)) :
    Execute C tr w =
      ⟨(C.MissingHeadersForAll w tr.Start (-1) tr.eventIds).1, tr.Start,
        [Call.MissingHeadersForAll tr.Start (-1) tr.eventIds none], [], [], .ok⟩ := by
  have hlen : ¬ tr.Contracts.length = 0 := by simpa using hne
  unfold Execute
  rw [if_neg hlen]
  split
  · rename_i w1 hs e heq
    rw [heq] at hempty
    cases hempty
  · rename_i w1 hs heq
    rw [heq] at hempty
    simp only [Prod.mk.injEq, and_true] at hempty
    subst hempty
    rw [heq]
    rfl

/-! ## The log partition -/

theorem GoMap.mem_set {V : Type} (m : GoMap V) (k : String) (v : V) (p : String × V)
    (h : p ∈ GoMap.set m k v) : p = (k, v) ∨ (p ∈ m ∧ p.1 ≠ k) := by
  unfold GoMap.set at h
  split at h
  · rw [List.mem_map] at h
    obtain ⟨q, hq, hp⟩ := h
    by_cases hk : q.1 = k
    · simp [hk] at hp
      exact Or.inl hp.symm
    · have : (q.1 == k) = false := by simpa using hk
      rw [this] at hp
      simp at hp
      subst hp
      exact Or.inr ⟨hq, hk⟩
  · rename_i hany
    rw [List.mem_append] at h
    rcases h with h | h
    · right
      refine ⟨h, ?_⟩
      intro hk
      apply hany
      rw [List.any_eq_true]
      exact ⟨p, h, by simpa using hk⟩
    · left
      simpa using h

theorem GoMap.keys_set {V : Type} (m : GoMap V) (k : String) (v : V) :
    (GoMap.set m k v).map Prod.fst =
      if m.any (fun p => p.1 == k) then m.map Prod.fst else m.map Prod.fst ++ [k] := by
  unfold GoMap.set
  split
  · rw [List.map_map]
    apply List.map_congr_left
    intro p _
    by_cases hk : p.1 = k
    · simp [hk]
    · simp [hk]
  · simp

theorem GoMap.keys_set_nodup {V : Type} (m : GoMap V) (k : String) (v : V)
    (h : (m.map Prod.fst).Nodup) : ((GoMap.set m k v).map Prod.fst).Nodup := by
  rw [GoMap.keys_set]
  split
  · exact h
  · rename_i hany
    rw [List.nodup_append]
    refine ⟨h, List.nodup_singleton k, ?_⟩
    intro a ha hb
    rw [List.mem_singleton] at hb
    subst hb
    apply hany
    rw [List.mem_map] at ha
    obtain ⟨p, hp, hpa⟩ := ha
    rw [List.any_eq_true]
    exact ⟨p, hp, by simpa using hpa⟩

theorem GoMap.mem_of_lookup {V : Type} : ∀ (m : GoMap V) (k : String) (v : V),
    List.lookup k m = some v → (k, v) ∈ m := by
  intro m
  induction m with
  | nil => intro k v h; simp [List.lookup] at h
  | cons p rest ih =>
    intro k v h
    obtain ⟨a, x⟩ := p
    by_cases hk : k = a
    · subst hk
      rw [GoMap.lookup_cons_self] at h
      cases h
      exact List.mem_cons_self _ _
    · rw [GoMap.lookup_cons_ne _ _ _ _ hk] at h
      exact List.mem_cons_of_mem _ (ih k v h)

theorem GoMap.lookup_of_mem {V : Type} : ∀ (m : GoMap V) (k : String) (v : V),
    (m.map Prod.fst).Nodup → (k, v) ∈ m → List.lookup k m = some v := by
  intro m
  induction m with
  | nil => intro k v _ h; cases h
  | cons p rest ih =>
    intro k v hnd h
    obtain ⟨a, x⟩ := p
    rw [List.map_cons, List.nodup_cons] at hnd
    rcases List.mem_cons.mp h with h1 | h1
    · cases h1
      exact GoMap.lookup_cons_self _ _ _
    · have hk : k ≠ a := by
        intro hk
        exact hnd.1 (List.mem_map.mpr ⟨(k, v), h1, hk⟩)
      rw [GoMap.lookup_cons_ne _ _ _ _ hk]
      exact ih k v hnd.2 h1

theorem GoMap.mem_set_self {V : Type} (m : GoMap V) (k : String) (v : V) :
    (k, v) ∈ GoMap.set m k v :=
  GoMap.mem_of_lookup _ _ _ (GoMap.lookup_set_self m k v)

theorem GoMap.lookup_isSome_of_mem {V : Type} : ∀ (m : GoMap V) (k : String) (v : V),
    (k, v) ∈ m → ∃ x, List.lookup k m = some x := by
  intro m
  induction m with
  | nil => intro k v h; cases h
  | cons p rest ih =>
    intro k v h
    obtain ⟨a, x⟩ := p
    by_cases hk : k = a
    · subst hk
      exact ⟨x, GoMap.lookup_cons_self _ _ _⟩
    · rw [GoMap.lookup_cons_ne _ _ _ _ hk]
      rcases List.mem_cons.mp h with h | h
      · cases h; exact absurd rfl hk
      · exact ih k v h

theorem sortLogs_append (l : List Log) (x : Log) :
    sortLogs (l ++ [x]) =
      GoMap.set (sortLogs l) (toLower x.Address)
        (GoMap.getD (sortLogs l) (toLower x.Address) [] ++ [x]) := by
  unfold sortLogs
  rw [List.foldl_append]
  rfl

theorem sortLogs_spec : ∀ l : List Log,
    ((sortLogs l).map Prod.fst).Nodup ∧
    (∀ p ∈ sortLogs l, p.2 = l.filter (fun x => toLower x.Address = p.1) ∧ p.2 ≠ []) ∧
    (∀ x ∈ l, ∃ g, (toLower x.Address, g) ∈ sortLogs l) := by
  intro l
  induction l using List.reverseRecOn with
  | nil =>
    refine ⟨List.nodup_nil, ?_, ?_⟩
    · intro p hp; cases hp
    · intro x hx; cases hx
  | append_singleton l x ih =>
    obtain ⟨hnd, hgrp, hall⟩ := ih
    rw [sortLogs_append]
    have hget : GoMap.getD (sortLogs l) (toLower x.Address) [] =
        l.filter (fun y => toLower y.Address = toLower x.Address) := by
      unfold GoMap.getD
      cases hl : List.lookup (toLower x.Address) (sortLogs l) with
      | some g =>
        have := (hgrp _ (GoMap.mem_of_lookup _ _ _ hl)).1
        simpa using this
      | none =>
        simp only [Option.getD_none]
        symm
        rw [List.filter_eq_nil_iff]
        intro y hy hyk
        obtain ⟨g, hg⟩ := hall y hy
        have hyk1 : toLower y.Address = toLower x.Address := by simpa using hyk
        rw [hyk1] at hg
        obtain ⟨v, hv⟩ := GoMap.lookup_isSome_of_mem _ _ _ hg
        rw [hl] at hv
        cases hv
    refine ⟨GoMap.keys_set_nodup _ _ _ hnd, ?_, ?_⟩
    · intro p hp
      rcases GoMap.mem_set _ _ _ _ hp with h | ⟨h, hk⟩
      · subst h
        refine ⟨?_, by simp⟩
        rw [hget, List.filter_append]
        simp
      · obtain ⟨h1, h2⟩ := hgrp p h
        refine ⟨?_, h2⟩
        rw [h1, List.filter_append]
        have : List.filter (fun y => decide (toLower y.Address = p.1)) [x] = [] := by
          rw [List.filter_eq_nil_iff]
          intro y hy
          rw [List.mem_singleton] at hy
          subst hy
          simpa using fun h => hk h.symm
        rw [this, List.append_nil]
    · intro y hy
      rw [List.mem_append, List.mem_singleton] at hy
      rcases hy with hy | hy
      · obtain ⟨g, hg⟩ := hall y hy
        by_cases hk : toLower y.Address = toLower x.Address
        · rw [hk]
          exact ⟨_, GoMap.mem_set_self _ _ _⟩
        · refine ⟨g, ?_⟩
          have := GoMap.lookup_set_ne (sortLogs l) (toLower x.Address) (toLower y.Address)
            (GoMap.getD (sortLogs l) (toLower x.Address) [] ++ [x]) hk
          apply GoMap.mem_of_lookup
          rw [this]
          exact GoMap.lookup_of_mem _ _ _ hnd hg
      · subst hy
        exact ⟨_, GoMap.mem_set_self _ _ _⟩

theorem persistEvents_calls (C : Collaborators W) (con : Contract) :
    ∀ (l : List (String × List ConvertedLog)) (w : W),
      ∀ c ∈ (persistEvents C con l w).trace, ∃ eventName rows e,
        (eventName, rows) ∈ l ∧ rows ≠ [] ∧
        c = Call.PersistLogs rows (GoMap.getD con.Events eventName ⟨"", ""⟩) con.Address
          con.Name e := by
  intro l
  induction l with
  | nil => intro w c hc; simp [persistEvents] at hc
  | cons p rest ih =>
    intro w c hc
    obtain ⟨eventName, logs⟩ := p
    unfold persistEvents at hc
    split at hc
    · obtain ⟨n, rows, e, hm, hr, hcall⟩ := ih w c hc
      exact ⟨n, rows, e, List.mem_cons_of_mem _ hm, hr, hcall⟩
    · rename_i hlen
      have hne : logs ≠ [] := by
        intro h
        subst h
        simp at hlen
      split at hc
      · simp only [List.mem_singleton] at hc
        exact ⟨eventName, logs, _, List.mem_cons_self _ _, hne, hc⟩
      · rename_i w1 heq
        simp only [List.mem_cons] at hc
        rcases hc with hc | hc
        · exact ⟨eventName, logs, _, List.mem_cons_self _ _, hne, hc⟩
        · obtain ⟨n, rows, e, hm, hr, hcall⟩ := ih w1 c hc
          exact ⟨n, rows, e, List.mem_cons_of_mem _ hm, hr, hcall⟩

theorem persistEvents_ok_all (C : Collaborators W) (con : Contract) :
    ∀ (l : List (String × List ConvertedLog)) (w : W),
      (persistEvents C con l w).out = .ok →
      ∀ p ∈ l, p.2 ≠ [] →
        Call.PersistLogs p.2 (GoMap.getD con.Events p.1 ⟨"", ""⟩) con.Address con.Name none ∈
          (persistEvents C con l w).trace := by
  intro l
  induction l with
  | nil => intro w _ p hp; cases hp
  | cons q rest ih =>
    intro w hok p hp hne
    obtain ⟨eventName, logs⟩ := q
    unfold persistEvents at hok ⊢
    split
    · rename_i hlen
      rw [if_pos hlen] at hok
      rcases List.mem_cons.mp hp with h | h
      · subst h
        exfalso
        apply hne
        cases logs with
        | nil => rfl
        | cons a b => simp at hlen
      · exact ih w hok p h hne
    · rename_i hlen
      rw [if_neg hlen] at hok
      split
      · rename_i w1 e heq
        rw [heq] at hok
        simp at hok
      · rename_i w1 heq
        rw [heq] at hok
        simp only at hok
        rcases List.mem_cons.mp hp with h | h
        · subst h
          exact List.mem_cons_self _ _
        · exact List.mem_cons_of_mem _ (ih w1 hok p h hne)

theorem processContracts_step (C : Collaborators W) (tr : Transformer) (header : Header)
    (conAddr : String) (logs : List Log) (rest : List (String × List Log)) (w : W)
    (hne : logs ≠ []) :
    (List.lookup conAddr tr.Contracts = none ∧
      (processContracts C tr header ((conAddr, logs) :: rest) w).trace =
        [Call.ConverterUpdate none] ∧
      ∃ msg, (processContracts C tr header ((conAddr, logs) :: rest) w).out = .fault msg) ∨
    ∃ con, List.lookup conAddr tr.Contracts = some con ∧
      ((∃ e, (convertOf C header con logs w).2.2 = some e ∧
          (processContracts C tr header ((conAddr, logs) :: rest) w).trace =
            [Call.ConverterUpdate (some con),
              Call.ConvertBatch logs con.Events header.ID (some e)] ∧
          (processContracts C tr header ((conAddr, logs) :: rest) w).out =
            .error ("error converting logs: " ++ e.Error)) ∨
        ((convertOf C header con logs w).2.2 = none ∧
          (persistOf C header con logs w).out = .ok ∧
          (processContracts C tr header ((conAddr, logs) :: rest) w).trace =
            Call.ConverterUpdate (some con) ::
              Call.ConvertBatch logs con.Events header.ID none ::
                ((persistOf C header con logs w).trace ++
                  (processContracts C tr header rest (persistOf C header con logs w).world).trace) ∧
          (processContracts C tr header ((conAddr, logs) :: rest) w).out =
            (processContracts C tr header rest (persistOf C header con logs w).world).out) ∨
        ((convertOf C header con logs w).2.2 = none ∧
          (persistOf C header con logs w).out ≠ .ok ∧
          (processContracts C tr header ((conAddr, logs) :: rest) w).trace =
            Call.ConverterUpdate (some con) ::
              Call.ConvertBatch logs con.Events header.ID none ::
                (persistOf C header con logs w).trace ∧
          (processContracts C tr header ((conAddr, logs) :: rest) w).out =
            (persistOf C header con logs w).out)) := by
  rw [processContracts]
  rw [if_neg hne]
  cases hl : List.lookup conAddr tr.Contracts with
  | none => exact Or.inl ⟨rfl, rfl, _, rfl⟩
  | some con =>
    right
    refine ⟨con, rfl, ?_⟩
    simp only
    unfold persistOf convertOf
    rcases hcb : C.ConvertBatch (C.ConverterUpdate w (some con)) logs con.Events header.ID with
      ⟨w1, cl, _ | e⟩
    · right
      simp only
      cases hp : (persistEvents C con (rangeMap C w1 cl).2 (rangeMap C w1 cl).1).out with
      | ok => left; simp [hp]
      | error m => right; simp [hp]
      | fault m => right; simp [hp]
    · left
      exact ⟨e, rfl, rfl, rfl⟩

theorem filterMap_nil_of_forall {α β : Type} (f : α → Option β) :
    ∀ l : List α, (∀ c ∈ l, f c = none) → l.filterMap f = [] := by
  intro l
  induction l with
  | nil => intro _; rfl
  | cons a rest ih =>
    intro h
    rw [List.filterMap_cons, h a (List.mem_cons_self _ _)]
    exact ih (fun c hc => h c (List.mem_cons_of_mem _ hc))

theorem persistEvents_no_convert (C : Collaborators W) (con : Contract)
    (l : List (String × List ConvertedLog)) (w : W) :
    (persistEvents C con l w).trace.filterMap Call.convertArgs = [] := by
  apply filterMap_nil_of_forall
  intro c hc
  obtain ⟨n, rows, e, -, -, h⟩ := persistEvents_calls C con l w c hc
  rw [h]
  rfl

theorem persistOf_calls (C : Collaborators W) (header : Header) (con : Contract)
    (logs : List Log) (w : W) :
    ∀ c ∈ (persistOf C header con logs w).trace, ∃ eventName rows e,
      (eventName, rows) ∈ (convertOf C header con logs w).2.1 ∧ rows ≠ [] ∧
      c = Call.PersistLogs rows (GoMap.getD con.Events eventName ⟨"", ""⟩) con.Address
        con.Name e := by
  intro c hc
  obtain ⟨n, rows, e, hm, hr, h⟩ := persistEvents_calls C con _ _ c hc
  exact ⟨n, rows, e, (mem_rangeMap C _ _ _).mp hm, hr, h⟩

theorem persistOf_no_convert (C : Collaborators W) (header : Header) (con : Contract)
    (logs : List Log) (w : W) :
    (persistOf C header con logs w).trace.filterMap Call.convertArgs = [] :=
  persistEvents_no_convert C con _ _

theorem processContracts_groups (C : Collaborators W) (tr : Transformer) (header : Header) :
    ∀ (vis : List (String × List Log)) (w : W), (∀ g ∈ vis, g.2 ≠ []) →
      ∃ n, n ≤ vis.length ∧
        (processContracts C tr header vis w).trace.filterMap Call.convertArgs =
          (vis.take n).filterMap (groupArgs tr header) ∧
        (∀ g ∈ vis.take n, ∃ con, List.lookup g.1 tr.Contracts = some con) ∧
        ((processContracts C tr header vis w).out = .ok → n = vis.length) ∧
        (∀ rows ev addr name e,
          Call.PersistLogs rows ev addr name e ∈ (processContracts C tr header vis w).trace →
          rows ≠ [] ∧ ∃ g ∈ vis, ∃ con w1 eventName,
            List.lookup g.1 tr.Contracts = some con ∧
            (convertOf C header con g.2 w1).2.2 = none ∧
            (eventName, rows) ∈ (convertOf C header con g.2 w1).2.1 ∧
            ev = GoMap.getD con.Events eventName ⟨"", ""⟩ ∧
            addr = con.Address ∧ name = con.Name) := by
  intro vis
  induction vis with
  | nil =>
    intro w _
    refine ⟨0, Nat.le_refl _, ?_, ?_, ?_, ?_⟩
    · simp [processContracts]
    · intro g hg; simp at hg
    · intro _; rfl
    · intro rows ev addr name e h
      simp [processContracts] at h
  | cons g rest ih =>
    intro w hall
    obtain ⟨k, logs⟩ := g
    have hne : logs ≠ [] := hall (k, logs) (List.mem_cons_self _ _)
    have hrest : ∀ g ∈ rest, g.2 ≠ [] := fun g hg => hall g (List.mem_cons_of_mem _ hg)
    have hone : ∀ con, List.lookup k tr.Contracts = some con →
        List.filterMap (groupArgs tr header) [(k, logs)] = [(logs, con.Events, header.ID)] := by
      intro con hl
      simp [groupArgs, hl]
    rcases processContracts_step C tr header k logs rest w hne with
      ⟨-, htr, msg, hout⟩ | ⟨con, hl, h⟩
    · refine ⟨0, Nat.zero_le _, ?_, ?_, ?_, ?_⟩
      · rw [htr]; rfl
      · intro g hg; simp at hg
      · intro h; rw [hout] at h; cases h
      · intro rows ev addr name e h
        rw [htr] at h
        simp at h
    · rcases h with ⟨e, he, htr, hout⟩ | ⟨hcb, hp, htr, hout⟩ | ⟨hcb, hp, htr, hout⟩
      · refine ⟨1, by simp, ?_, ?_, ?_, ?_⟩
        · rw [htr, List.take_succ_cons, List.take_zero, hone con hl]
          rfl
        · intro g hg
          rw [List.take_succ_cons, List.take_zero, List.mem_singleton] at hg
          subst hg
          exact ⟨con, hl⟩
        · intro h; rw [hout] at h; cases h
        · intro rows ev addr name e1 h
          rw [htr] at h
          simp at h
      · obtain ⟨n, hn, hconv, hlook, hok, hpers⟩ := ih (persistOf C header con logs w).world hrest
        refine ⟨n + 1, by simpa using hn, ?_, ?_, ?_, ?_⟩
        · rw [htr, List.take_succ_cons]
          simp only [List.filterMap_cons, List.filterMap_append, persistOf_no_convert,
            Call.convertArgs, List.nil_append, hconv]
          simp [groupArgs, hl]
        · intro g hg
          rw [List.take_succ_cons, List.mem_cons] at hg
          rcases hg with hg | hg
          · subst hg; exact ⟨con, hl⟩
          · exact hlook g hg
        · intro h
          rw [hout] at h
          rw [hok h]
          rfl
        · intro rows ev addr name e1 h
          rw [htr] at h
          simp only [List.mem_cons, List.mem_append] at h
          rcases h with h | h | h | h
          · cases h
          · cases h
          · obtain ⟨en, rows1, e2, hm, hr, hc⟩ := persistOf_calls C header con logs w _ h
            cases hc
            exact ⟨hr, (k, logs), List.mem_cons_self _ _, con, w, en, hl, hcb, hm, rfl, rfl, rfl⟩
          · obtain ⟨hr, g, hg, x⟩ := hpers rows ev addr name e1 h
            exact ⟨hr, g, List.mem_cons_of_mem _ hg, x⟩
      · refine ⟨1, by simp, ?_, ?_, ?_, ?_⟩
        · rw [htr, List.take_succ_cons, List.take_zero, hone con hl]
          simp only [List.filterMap_cons, persistOf_no_convert, Call.convertArgs]
        · intro g hg
          rw [List.take_succ_cons, List.take_zero, List.mem_singleton] at hg
          subst hg
          exact ⟨con, hl⟩
        · intro h; rw [hout] at h; exact absurd h hp
        · intro rows ev addr name e1 h
          rw [htr] at h
          simp only [List.mem_cons] at h
          rcases h with h | h | h
          · cases h
          · cases h
          · obtain ⟨en, rows1, e2, hm, hr, hc⟩ := persistOf_calls C header con logs w _ h
            cases hc
            exact ⟨hr, (k, logs), List.mem_cons_self _ _, con, w, en, hl, hcb, hm, rfl, rfl, rfl⟩

theorem processContracts_ok_groups (C : Collaborators W) (tr : Transformer) (header : Header) :
    ∀ (vis : List (String × List Log)) (w : W), (∀ g ∈ vis, g.2 ≠ []) →
      (processContracts C tr header vis w).out = .ok →
      ∀ g ∈ vis, ∃ con w1, List.lookup g.1 tr.Contracts = some con ∧
        (convertOf C header con g.2 w1).2.2 = none ∧
        Call.ConverterUpdate (some con) ∈ (processContracts C tr header vis w).trace ∧
        Call.ConvertBatch g.2 con.Events header.ID none ∈
          (processContracts C tr header vis w).trace ∧
        ∀ b ∈ (convertOf C header con g.2 w1).2.1, b.2 ≠ [] →
          Call.PersistLogs b.2 (GoMap.getD con.Events b.1 ⟨"", ""⟩) con.Address con.Name none ∈
            (processContracts C tr header vis w).trace := by
  intro vis
  induction vis with
  | nil => intro w _ _ g hg; cases hg
  | cons g0 rest ih =>
    intro w hall hok g hg
    obtain ⟨k, logs⟩ := g0
    have hne : logs ≠ [] := hall (k, logs) (List.mem_cons_self _ _)
    have hrest : ∀ g ∈ rest, g.2 ≠ [] := fun g hg => hall g (List.mem_cons_of_mem _ hg)
    rcases processContracts_step C tr header k logs rest w hne with
      ⟨-, -, msg, hout⟩ | ⟨con, hl, h⟩
    · rw [hout] at hok; cases hok
    · rcases h with ⟨e, -, -, hout⟩ | ⟨hcb, hp, htr, hout⟩ | ⟨-, hp, -, hout⟩
      · rw [hout] at hok; cases hok
      · rw [hout] at hok
        rw [htr]
        rcases List.mem_cons.mp hg with h | h
        · subst h
          refine ⟨con, w, hl, hcb, List.mem_cons_self _ _,
            List.mem_cons_of_mem _ (List.mem_cons_self _ _), ?_⟩
          intro b hb hbne
          apply List.mem_cons_of_mem
          apply List.mem_cons_of_mem
          apply List.mem_append_left
          exact persistEvents_ok_all C con _ _ hp b ((mem_rangeMap C _ _ _).mpr hb) hbne
        · obtain ⟨con1, w1, h1, h2, h3, h4, h5⟩ := ih _ hrest hok g h
          refine ⟨con1, w1, h1, h2, ?_, ?_, ?_⟩
          · exact List.mem_cons_of_mem _ (List.mem_cons_of_mem _ (List.mem_append_right _ h3))
          · exact List.mem_cons_of_mem _ (List.mem_cons_of_mem _ (List.mem_append_right _ h4))
          · intro b hb hbne
            exact List.mem_cons_of_mem _ (List.mem_cons_of_mem _
              (List.mem_append_right _ (h5 b hb hbne)))
      · rw [hout] at hok; exact absurd hok hp

theorem persistEvents_no_fault (C : Collaborators W) (con : Contract) :
    ∀ (l : List (String × List ConvertedLog)) (w : W) (msg : String),
      (persistEvents C con l w).out ≠ .fault msg := by
  intro l
  induction l with
  | nil => intro w msg h; simp [persistEvents] at h
  | cons p rest ih =>
    intro w msg h
    obtain ⟨eventName, logs⟩ := p
    unfold persistEvents at h
    split at h
    · exact ih w msg h
    · split at h
      · cases h
      · rename_i w1 heq
        exact ih w1 msg h

theorem processContracts_no_fault (C : Collaborators W) (tr : Transformer) (header : Header) :
    ∀ (vis : List (String × List Log)) (w : W),
      (∀ g ∈ vis, ∃ con, List.lookup g.1 tr.Contracts = some con) →
      (∀ msg, (processContracts C tr header vis w).out ≠ .fault msg) ∧
      Call.ConverterUpdate none ∉ (processContracts C tr header vis w).trace := by
  intro vis
  induction vis with
  | nil =>
    intro w _
    constructor
    · intro msg h; simp [processContracts] at h
    · simp [processContracts]
  | cons g0 rest ih =>
    intro w hall
    obtain ⟨k, logs⟩ := g0
    have hrest : ∀ g ∈ rest, ∃ con, List.lookup g.1 tr.Contracts = some con :=
      fun g hg => hall g (List.mem_cons_of_mem _ hg)
    by_cases hne : logs = []
    · rw [processContracts, if_pos hne]
      exact ih w hrest
    · obtain ⟨con0, hl0⟩ := hall (k, logs) (List.mem_cons_self _ _)
      rcases processContracts_step C tr header k logs rest w hne with
        ⟨hnone, -, -, -⟩ | ⟨con, hl, h⟩
      · simp only at hl0
        rw [hnone] at hl0; cases hl0
      · rcases h with ⟨e, -, htr, hout⟩ | ⟨-, hp, htr, hout⟩ | ⟨-, hp, htr, hout⟩
        · rw [htr, hout]
          constructor
          · intro msg h; cases h
          · simp
        · rw [htr, hout]
          obtain ⟨h1, h2⟩ := ih (persistOf C header con logs w).world hrest
          refine ⟨h1, ?_⟩
          intro h
          simp only [List.mem_cons, List.mem_append] at h
          rcases h with h | h | h | h
          · cases h
          · cases h
          · obtain ⟨_, _, _, _, _, hc⟩ := persistOf_calls C header con logs w _ h
            cases hc
          · exact h2 h
        · rw [htr, hout]
          constructor
          · intro msg h
            exact persistEvents_no_fault C con _ _ msg h
          · intro h
            simp only [List.mem_cons] at h
            rcases h with h | h | h
            · cases h
            · cases h
            · obtain ⟨_, _, _, _, _, hc⟩ := persistOf_calls C header con logs w _ h
              cases hc

theorem pollContracts_no_fault (C : Collaborators W) (smi : GoMap (List String))
    (header : Header) :
    ∀ (l : List (String × Contract)) (w : W) (msg : String),
      (pollContracts C smi header l w).out ≠ .fault msg := by
  intro l
  induction l with
  | nil => intro w msg h; simp [pollContracts] at h
  | cons p rest ih =>
    intro w msg h
    obtain ⟨k, con⟩ := p
    unfold pollContracts at h
    split at h
    · exact ih w msg h
    · split at h
      · cases h
      · split at h
        · cases h
        · rename_i w2 heq
          exact ih w2 msg h

theorem markAndPoll_no_fault (C : Collaborators W) (tr : Transformer) (header : Header) (w : W)
    (msg : String) : (markAndPoll C tr header w).out ≠ .fault msg := by
  intro h
  unfold markAndPoll at h
  split at h
  · cases h
  · split at h
    · cases h
    · cases h
    · rename_i w1 heq w2 t m hmp
      have := pollContracts_no_fault C tr.sortedMethodIds header _ _ m
        (by unfold methodPolling at hmp; rw [hmp])
      exact this

theorem processHeader_shape (C : Collaborators W) (tr : Transformer) (header : Header) (w : W) :
    (∃ e, (C.FetchLogs w tr.contractAddresses tr.eventFilters header).2.2 = some e ∧
      (processHeader C tr header w).trace =
        [Call.FetchLogs tr.contractAddresses tr.eventFilters header
          (C.FetchLogs w tr.contractAddresses tr.eventFilters header).2.1 (some e)] ∧
      (processHeader C tr header w).out = .error ("error fetching logs: " ++ e.Error)) ∨
    ((C.FetchLogs w tr.contractAddresses tr.eventFilters header).2.2 = none ∧
      (C.FetchLogs w tr.contractAddresses tr.eventFilters header).2.1 = [] ∧
      (processHeader C tr header w).trace =
        Call.FetchLogs tr.contractAddresses tr.eventFilters header [] none ::
          (markAndPoll C tr header
            (C.FetchLogs w tr.contractAddresses tr.eventFilters header).1).trace ∧
      (processHeader C tr header w).out =
        (markAndPoll C tr header
          (C.FetchLogs w tr.contractAddresses tr.eventFilters header).1).out) ∨
    ((C.FetchLogs w tr.contractAddresses tr.eventFilters header).2.2 = none ∧
      (C.FetchLogs w tr.contractAddresses tr.eventFilters header).2.1 ≠ [] ∧
      (eventPhase C tr header w).out = .ok ∧
      (processHeader C tr header w).trace =
        Call.FetchLogs tr.contractAddresses tr.eventFilters header
          (C.FetchLogs w tr.contractAddresses tr.eventFilters header).2.1 none ::
          ((eventPhase C tr header w).trace ++
            (markAndPoll C tr header (eventPhase C tr header w).world).trace) ∧
      (processHeader C tr header w).out =
        (markAndPoll C tr header (eventPhase C tr header w).world).out) ∨
    ((C.FetchLogs w tr.contractAddresses tr.eventFilters header).2.2 = none ∧
      (C.FetchLogs w tr.contractAddresses tr.eventFilters header).2.1 ≠ [] ∧
      (eventPhase C tr header w).out ≠ .ok ∧
      (processHeader C tr header w).trace =
        Call.FetchLogs tr.contractAddresses tr.eventFilters header
          (C.FetchLogs w tr.contractAddresses tr.eventFilters header).2.1 none ::
          (eventPhase C tr header w).trace ∧
      (processHeader C tr header w).out = (eventPhase C tr header w).out) := by
  unfold processHeader eventPhase visited
  rcases hf : C.FetchLogs w tr.contractAddresses tr.eventFilters header with ⟨w1, allLogs, _ | e⟩
  · right
    simp only
    by_cases hlen : allLogs.length < 1
    · left
      have hnil : allLogs = [] := by
        cases allLogs with
        | nil => rfl
        | cons a b => simp at hlen
      subst hnil
      simp
    · right
      have hne : allLogs ≠ [] := by
        intro h; subst h; simp at hlen
      rw [if_neg hlen]
      cases hp : (processContracts C tr header (rangeMap C w1 (sortLogs allLogs)).2
          (rangeMap C w1 (sortLogs allLogs)).1).out with
      | ok => left; simp [hp, hne]
      | error m => right; simp [hp, hne]
      | fault m => right; simp [hp, hne]
  · left
    exact ⟨e, rfl, rfl, rfl⟩

theorem headerLoop_entry (C : Collaborators W) (tr : Transformer) :
    ∀ (hs : List Header) (w : W) (s : Int) (h : Header) (t : List Call),
      (h, t) ∈ (headerLoop C tr hs w s).log →
      ∃ w1, (processHeader C tr h w1).trace = t ∧
        ((processHeader C tr h w1).out = .ok ∨
          ((headerLoop C tr hs w s).log.getLast? = some (h, t) ∧
            (headerLoop C tr hs w s).out = (processHeader C tr h w1).out)) := by
  intro hs w s h t hmem
  rcases headerLoop_cases C tr hs w s with ⟨-, -, hall, -, -⟩ |
    ⟨pre, h1, w1, hlog, hpre, hout, -, -, -, -⟩
  · obtain ⟨w1, h1, h2⟩ := hall (h, t) hmem
    exact ⟨w1, h1, Or.inl h2⟩
  · rw [hlog, List.mem_append, List.mem_singleton] at hmem
    rcases hmem with hm | hm
    · obtain ⟨w2, h2, h3⟩ := hpre (h, t) hm
      exact ⟨w2, h2, Or.inl h3⟩
    · cases hm
      refine ⟨w1, rfl, Or.inr ⟨?_, hout.symm⟩⟩
      rw [hlog]
      simp

theorem Execute_entry (C : Collaborators W) (tr : Transformer) (w : W) (h : Header)
    (t : List Call) (hmem : (h, t) ∈ (Execute C tr w).log) :
    ∃ w1, (processHeader C tr h w1).trace = t ∧
      ((processHeader C tr h w1).out = .ok ∨
        ((Execute C tr w).log.getLast? = some (h, t) ∧
          (Execute C tr w).out = (processHeader C tr h w1).out)) := by
  rcases Execute_cases C tr w with ⟨hlog, -, -⟩ | ⟨w1, -, -, -, hlog, -, hout, -, -, -⟩
  · rw [hlog] at hmem; cases hmem
  · rw [hlog] at hmem
    rw [hlog, hout]
    exact headerLoop_entry C tr _ _ _ h t hmem

theorem processHeader_fetch (C : Collaborators W) (tr : Transformer) (header : Header) (w : W) :
    ∃ rest, (processHeader C tr header w).trace =
        Call.FetchLogs tr.contractAddresses tr.eventFilters header
          (C.FetchLogs w tr.contractAddresses tr.eventFilters header).2.1
          (C.FetchLogs w tr.contractAddresses tr.eventFilters header).2.2 :: rest ∧
      ∀ c ∈ rest, c.isFetchLogs = false := by
  have hconv : ∀ c : Call, c.isConvertPhase = true → c.isFetchLogs = false := by
    intro c h; cases c <;> first | rfl | cases h
  have hmark : ∀ c : Call, c.isMarkPhase = true → c.isFetchLogs = false := by
    intro c h; cases c <;> first | rfl | cases h
  rcases processHeader_shape C tr header w with ⟨e, he, htr, -⟩ | ⟨he, hl, htr, -⟩ |
    ⟨he, hl, -, htr, -⟩ | ⟨he, hl, -, htr, -⟩
  · refine ⟨[], ?_, ?_⟩
    · rw [htr, he]
    · intro c hc; cases hc
  · refine ⟨(markAndPoll C tr header
      (C.FetchLogs w tr.contractAddresses tr.eventFilters header).1).trace, ?_, ?_⟩
    · rw [htr, he, hl]
    · intro c hc
      exact hmark c (markAndPoll_markPhase C tr header _ c hc)
  · refine ⟨(eventPhase C tr header w).trace ++
      (markAndPoll C tr header (eventPhase C tr header w).world).trace, ?_, ?_⟩
    · rw [htr, he]
    · intro c hc
      rcases List.mem_append.mp hc with hc | hc
      · exact hconv c (processContracts_convertPhase C tr header _ _ c hc)
      · exact hmark c (markAndPoll_markPhase C tr header _ c hc)
  · refine ⟨(eventPhase C tr header w).trace, ?_, ?_⟩
    · rw [htr, he]
    · intro c hc
      exact hconv c (processContracts_convertPhase C tr header _ _ c hc)


theorem processHeader_partition (C : Collaborators W) (tr : Transformer) (header : Header)
    (w : W) (addrs topics : List String) (h1 : Header) (allLogs : List Log)
    (hfetch : Call.FetchLogs addrs topics h1 allLogs none ∈ (processHeader C tr header w).trace)
    (hne : allLogs ≠ []) :
    allLogs = (C.FetchLogs w tr.contractAddresses tr.eventFilters header).2.1 ∧
    (visited C tr header w).Perm (sortLogs allLogs) ∧
    ∃ mp, (processHeader C tr header w).trace =
        Call.FetchLogs tr.contractAddresses tr.eventFilters header allLogs none ::
          ((eventPhase C tr header w).trace ++ mp) ∧
      (∀ c ∈ mp, c.isMarkPhase = true) ∧
      (mp ≠ [] → (eventPhase C tr header w).out = .ok) ∧
      ((processHeader C tr header w).out = .ok → (eventPhase C tr header w).out = .ok) ∧
      ((eventPhase C tr header w).out = .ok →
        mp = (markAndPoll C tr header (eventPhase C tr header w).world).trace ∧
        (processHeader C tr header w).out =
          (markAndPoll C tr header (eventPhase C tr header w).world).out) ∧
      ((eventPhase C tr header w).out ≠ .ok →
        (processHeader C tr header w).out = (eventPhase C tr header w).out) := by
  obtain ⟨rest, hr, hrest⟩ := processHeader_fetch C tr header w
  have hhead : allLogs = (C.FetchLogs w tr.contractAddresses tr.eventFilters header).2.1 ∧
      (C.FetchLogs w tr.contractAddresses tr.eventFilters header).2.2 = none := by
    rw [hr] at hfetch
    rcases List.mem_cons.mp hfetch with h | h
    · simp only [Call.FetchLogs.injEq] at h
      exact ⟨h.2.2.2.1, h.2.2.2.2.symm⟩
    · have := hrest _ h
      cases this
  obtain ⟨hlogs, herr⟩ := hhead
  have hperm : (visited C tr header w).Perm (sortLogs allLogs) := by
    unfold visited rangeMap
    rw [← hlogs]
    exact shuffle_perm _ _
  refine ⟨hlogs, hperm, ?_⟩
  rcases processHeader_shape C tr header w with ⟨e, he, -, -⟩ | ⟨-, hl, -, -⟩ |
    ⟨-, -, hp, htr, hout⟩ | ⟨-, -, hp, htr, hout⟩
  · rw [herr] at he; cases he
  · rw [← hlogs] at hl; exact absurd hl hne
  · refine ⟨(markAndPoll C tr header (eventPhase C tr header w).world).trace, ?_, ?_,
      fun _ => hp, fun _ => hp, fun _ => ⟨rfl, hout⟩, fun h => absurd hp h⟩
    · rw [htr, ← hlogs]
    · exact markAndPoll_markPhase C tr header _
  · refine ⟨[], ?_, ?_, fun h => absurd rfl h, ?_, fun h => absurd h hp, fun _ => hout⟩
    · rw [htr, ← hlogs, List.append_nil]
    · intro c hc; cases hc
    · intro h
      rw [hout] at h
      exact h

theorem visited_nonempty (C : Collaborators W) (tr : Transformer) (header : Header) (w : W) :
    ∀ g ∈ visited C tr header w, g.2 ≠ [] := by
  intro g hg
  unfold visited at hg
  rw [mem_rangeMap] at hg
  exact ((sortLogs_spec _).2.1 g hg).2


theorem Execute_fault_entry (C : Collaborators W) (tr : Transformer) (w : W) (msg : String)
    (hfault : (Execute C tr w).out = .fault msg) :
    ∃ h w1, (h, (processHeader C tr h w1).trace) ∈ (Execute C tr w).log ∧
      (processHeader C tr h w1).out = .fault msg := by
  rcases Execute_cases C tr w with ⟨-, -, m, hout⟩ | ⟨w1, -, -, -, hlog, -, hout, -, -, -⟩
  · rw [hout] at hfault; cases hfault
  · rw [hlog]
    rw [hout] at hfault
    rcases headerLoop_cases C tr (C.MissingHeadersForAll w tr.Start (-1) tr.eventIds).2.1
        w1 tr.Start with ⟨hok, -, -, -, -⟩ | ⟨pre, h, w2, hl, -, ho, -, -, -, -⟩
    · rw [hok] at hfault; cases hfault
    · refine ⟨h, w2, ?_, ?_⟩
      · rw [hl]; simp
      · rw [ho]; exact hfault

theorem processHeader_no_fault (C : Collaborators W) (tr : Transformer) (header : Header)
    (w : W)
    (hgroups : ∀ g ∈ sortLogs (C.FetchLogs w tr.contractAddresses tr.eventFilters header).2.1,
      ∃ con, List.lookup g.1 tr.Contracts = some con) :
    (∀ msg, (processHeader C tr header w).out ≠ .fault msg) ∧
    Call.ConverterUpdate none ∉ (processHeader C tr header w).trace := by
  have hvis : ∀ g ∈ visited C tr header w, ∃ con, List.lookup g.1 tr.Contracts = some con := by
    intro g hg
    unfold visited at hg
    rw [mem_rangeMap] at hg
    exact hgroups g hg
  have hev := processContracts_no_fault C tr header (visited C tr header w)
    (rangeMap C (C.FetchLogs w tr.contractAddresses tr.eventFilters header).1
      (sortLogs (C.FetchLogs w tr.contractAddresses tr.eventFilters header).2.1)).1 hvis
  have hmark : ∀ w1, Call.ConverterUpdate none ∉ (markAndPoll C tr header w1).trace := by
    intro w1 h
    have := markAndPoll_markPhase C tr header w1 _ h
    cases this
  rcases processHeader_shape C tr header w with ⟨e, -, htr, hout⟩ | ⟨-, -, htr, hout⟩ |
    ⟨-, -, -, htr, hout⟩ | ⟨-, -, -, htr, hout⟩
  · rw [htr, hout]
    constructor
    · intro msg h; cases h
    · simp
  · rw [htr, hout]
    refine ⟨fun msg => markAndPoll_no_fault C tr header _ msg, ?_⟩
    intro h
    rcases List.mem_cons.mp h with h | h
    · cases h
    · exact hmark _ h
  · rw [htr, hout]
    refine ⟨fun msg => markAndPoll_no_fault C tr header _ msg, ?_⟩
    intro h
    rcases List.mem_cons.mp h with h | h
    · cases h
    · rcases List.mem_append.mp h with h | h
      · exact hev.2 h
      · exact hmark _ h
  · rw [htr, hout]
    refine ⟨hev.1, ?_⟩
    intro h
    rcases List.mem_cons.mp h with h | h
    · cases h
    · exact hev.2 h

theorem Init_contract_at (C : Collaborators W) (tr : Transformer) (w : W)
    (hok : (Init C tr w).out = .ok) (addr : String)
    (hcfg : addr ∈ tr.Config.Addresses.map Prod.fst) :
    ∃ con, List.lookup addr (Init C tr w).tr.Contracts = some con ∧ con.Address = addr := by
  obtain ⟨t, -, con, evs, ms, ret, err, pc, fc, h1, h2, -⟩ := Init_spec C tr w hok addr hcfg
  exact ⟨con, h1, h2⟩



theorem Init_start_min (C : Collaborators W) (tr : Transformer) (w : W)
    (hok : (Init C tr w).out = .ok) :
    (∀ a ∈ tr.Config.Addresses.map Prod.fst, ∀ con,
      List.lookup a (Init C tr w).tr.Contracts = some con →
        (Init C tr w).tr.Start ≤ con.StartingBlock) ∧
    ((tr.Config.Addresses.map Prod.fst).Nodup →
      (Init C tr w).tr.Start = MaxInt64 ∨
      ∃ a ∈ tr.Config.Addresses.map Prod.fst, ∃ con,
        List.lookup a (Init C tr w).tr.Contracts = some con ∧
        (Init C tr w).tr.Start = con.StartingBlock) := by
  have hperm : ((rangeMap C w tr.Config.Addresses).2.map Prod.fst).Perm
      (tr.Config.Addresses.map Prod.fst) := (shuffle_perm _ _).map _
  unfold Init at hok ⊢
  obtain ⟨-, h2, h3⟩ := initLoop_start C _ _ _ hok
  simp only at h2 h3
  constructor
  · intro a ha con hcon
    exact h2 a (hperm.mem_iff.mpr ha) con hcon
  · intro hnodup
    rcases h3 (hperm.nodup_iff.mpr hnodup) with h | ⟨a, ha, con, g1, g2⟩
    · exact Or.inl h
    · exact Or.inr ⟨a, hperm.mem_iff.mp ha, con, g1, g2⟩

theorem processHeader_poll_eligible (C : Collaborators W) (tr : Transformer) (header : Header)
    (w : W) (con : Contract) (bn : Int) (e : Option GoError)
    (hpoll : Call.PollContractAt con bn e ∈ (processHeader C tr header w).trace) :
    bn = header.BlockNumber ∧ (∃ k, (k, con) ∈ tr.Contracts) ∧ con.Methods ≠ [] ∧
      con.StartingBlock ≤ header.BlockNumber := by
  have hmark : ∀ w1, Call.PollContractAt con bn e ∈ (markAndPoll C tr header w1).trace →
      bn = header.BlockNumber ∧ (∃ k, (k, con) ∈ tr.Contracts) ∧ con.Methods ≠ [] ∧
        con.StartingBlock ≤ header.BlockNumber := by
    intro w1 h
    obtain ⟨e1, t, htr, hcase⟩ := markAndPoll_shape C tr header w1
    rw [htr] at h
    rcases List.mem_cons.mp h with h | h
    · cases h
    · rcases hcase with ⟨-, ht, -⟩ | ⟨-, w2, ht, -⟩
      · rw [ht] at h; cases h
      · rw [ht] at h
        obtain ⟨h1, ⟨k, hk⟩, h3, h4⟩ := pollContracts_eligible C _ header _ _ con bn e h
        exact ⟨h1, ⟨k, (mem_rangeMap C _ _ _).mp hk⟩, h3, h4⟩
  have hconv : ∀ l w1, Call.PollContractAt con bn e ∉ (processContracts C tr header l w1).trace := by
    intro l w1 h
    have := processContracts_convertPhase C tr header l w1 _ h
    cases this
  rcases processHeader_shape C tr header w with ⟨e1, -, htr, -⟩ | ⟨-, -, htr, -⟩ |
    ⟨-, -, -, htr, -⟩ | ⟨-, -, -, htr, -⟩
  · rw [htr] at hpoll
    simp at hpoll
  · rw [htr] at hpoll
    rcases List.mem_cons.mp hpoll with h | h
    · cases h
    · exact hmark _ h
  · rw [htr] at hpoll
    rcases List.mem_cons.mp hpoll with h | h
    · cases h
    · rcases List.mem_append.mp h with h | h
      · exact absurd h (hconv _ _)
      · exact hmark _ h
  · rw [htr] at hpoll
    rcases List.mem_cons.mp hpoll with h | h
    · cases h
    · exact absurd h (hconv _ _)


/-! ## The interface fetcher and the publisher -/

theorem dropLastByte_commaEach : ∀ (l : List String) (p : String), l ≠ [] →
    dropLastByte (p ++ commaEach l) = p ++ joinComma l := by
  intro l
  induction l with
  | nil => intro p h; exact absurd rfl h
  | cons x rest ih =>
    intro p _
    cases rest with
    | nil =>
      apply String.ext
      simp [dropLastByte, commaEach, joinComma, String.data_append]
    | cons y r =>
      have h1 : p ++ commaEach (x :: y :: r) = (p ++ x ++ ",") ++ commaEach (y :: r) := by
        simp [commaEach, String.append_assoc]
      rw [h1, ih (p ++ x ++ ",") (by simp)]
      simp [joinComma, String.append_assoc]

theorem closing_bracket (l : List String) :
    dropLastByte ("[" ++ commaEach l) ++ "]" = if l = [] then "]" else bracketed l := by
  split
  · rename_i h
    subst h
    decide
  · rename_i h
    rw [dropLastByte_commaEach l "[" h]
    rfl

theorem addInterface_spec (F : BoolFetcher W) (a addr : String) (bn : Int) (sig iface : String)
    (s : AbiState W) :
    ∃ c : SupportsCall, c.methodArgs = [sig] ∧
      (Fetcher.addInterface F a addr bn sig iface s).calls = s.calls ++ [c] ∧
      (Fetcher.addInterface F a addr bn sig iface s).abiStr =
        s.abiStr ++ commaEach (pickAccepted [c] [(sig, iface)]) := by
  unfold Fetcher.addInterface
  rcases Fetcher.getSupportsInterface F s.world a addr bn [sig] with ⟨w1, supports, err⟩
  refine ⟨⟨a, addr, bn, [sig], supports, err⟩, rfl, rfl, ?_⟩
  cases supports <;> cases err <;>
    simp [pickAccepted, SupportsCall.accepted, commaEach, String.append_assoc]

theorem pickAccepted_cons (c : SupportsCall) (cs : List SupportsCall) (p : String × String)
    (l : List (String × String)) :
    pickAccepted (c :: cs) (p :: l) = pickAccepted [c] [p] ++ pickAccepted cs l := by
  unfold pickAccepted
  simp only [List.zip_cons_cons, List.filterMap_cons, List.zip_nil_right, List.filterMap_nil]
  split <;> simp

theorem commaEach_append : ∀ l r : List String,
    commaEach (l ++ r) = commaEach l ++ commaEach r := by
  intro l r
  induction l with
  | nil => simp [commaEach]
  | cons x rest ih => simp [commaEach, ih, String.append_assoc]

theorem addInterfaces_spec (F : BoolFetcher W) (a addr : String) (bn : Int) :
    ∀ (l : List (String × String)) (s : AbiState W),
      ∃ cs : List SupportsCall, cs.map SupportsCall.methodArgs = l.map (fun p => [p.1]) ∧
        (Fetcher.addInterfaces F a addr bn l s).calls = s.calls ++ cs ∧
        (Fetcher.addInterfaces F a addr bn l s).abiStr =
          s.abiStr ++ commaEach (pickAccepted cs l) := by
  intro l
  induction l with
  | nil =>
    intro s
    exact ⟨[], rfl, by simp [Fetcher.addInterfaces],
      by simp [Fetcher.addInterfaces, pickAccepted, commaEach]⟩
  | cons p rest ih =>
    intro s
    obtain ⟨sig, iface⟩ := p
    obtain ⟨c, hc1, hc2, hc3⟩ := addInterface_spec F a addr bn sig iface s
    obtain ⟨cs, h1, h2, h3⟩ := ih (Fetcher.addInterface F a addr bn sig iface s)
    have hp := pickAccepted_cons c cs (sig, iface) rest
    refine ⟨c :: cs, ?_, ?_, ?_⟩
    · simp [hc1, h1]
    · show (Fetcher.addInterfaces F a addr bn rest
        (Fetcher.addInterface F a addr bn sig iface s)).calls = _
      rw [h2, hc2]
      simp
    · show (Fetcher.addInterfaces F a addr bn rest
        (Fetcher.addInterface F a addr bn sig iface s)).abiStr = _
      rw [h3, hc3, hp, commaEach_append, String.append_assoc]

theorem FetchABI_fold (K : ResolverConstants) (F : BoolFetcher W) (w : W) (addr : String)
    (bn : Int)
    (hmeta : (Fetcher.getSupportsInterface F w K.SupportsInterfaceABI addr bn [K.MetaSig]).2 =
      (true, none)) :
    Fetcher.FetchABI K F w addr bn =
      ⟨(Fetcher.addInterfaces F K.SupportsInterfaceABI addr bn K.optional
          ⟨(Fetcher.getSupportsInterface F w K.SupportsInterfaceABI addr bn [K.MetaSig]).1,
            [⟨K.SupportsInterfaceABI, addr, bn, [K.MetaSig], true, none⟩], "["⟩).world,
        (Fetcher.addInterfaces F K.SupportsInterfaceABI addr bn K.optional
          ⟨(Fetcher.getSupportsInterface F w K.SupportsInterfaceABI addr bn [K.MetaSig]).1,
            [⟨K.SupportsInterfaceABI, addr, bn, [K.MetaSig], true, none⟩], "["⟩).calls,
        dropLastByte (Fetcher.addInterfaces F K.SupportsInterfaceABI addr bn K.optional
          ⟨(Fetcher.getSupportsInterface F w K.SupportsInterfaceABI addr bn [K.MetaSig]).1,
            [⟨K.SupportsInterfaceABI, addr, bn, [K.MetaSig], true, none⟩], "["⟩).abiStr ++
          "]", none⟩ := by
  unfold Fetcher.FetchABI
  rcases hm : Fetcher.getSupportsInterface F w K.SupportsInterfaceABI addr bn [K.MetaSig]
    with ⟨w2, supports, err⟩
  rw [hm] at hmeta
  simp only [Prod.mk.injEq] at hmeta
  obtain ⟨h1, h2⟩ := hmeta
  subst h1 h2
  rfl

theorem FetchABI_ok (K : ResolverConstants) (F : BoolFetcher W) (w : W) (addr : String)
    (bn : Int)
    (hmeta : (Fetcher.getSupportsInterface F w K.SupportsInterfaceABI addr bn [K.MetaSig]).2 =
      (true, none)) :
    (Fetcher.FetchABI K F w addr bn).err = none ∧
    (Fetcher.FetchABI K F w addr bn).calls.map SupportsCall.methodArgs =
      [K.MetaSig] :: K.optional.map (fun p => [p.1]) ∧
    (Fetcher.FetchABI K F w addr bn).abi =
      dropLastByte ("[" ++ commaEach (K.chosen (Fetcher.FetchABI K F w addr bn).calls.tail)) ++
        "]" := by
  obtain ⟨cs, h1, h2, h3⟩ := addInterfaces_spec F K.SupportsInterfaceABI addr bn K.optional
    ⟨(Fetcher.getSupportsInterface F w K.SupportsInterfaceABI addr bn [K.MetaSig]).1,
      [⟨K.SupportsInterfaceABI, addr, bn, [K.MetaSig], true, none⟩], "["⟩
  rw [FetchABI_fold K F w addr bn hmeta]
  refine ⟨rfl, ?_, ?_⟩
  · simp only
    rw [h2, List.map_append, h1]
    rfl
  · simp only
    rw [h2, h3]
    rfl

theorem addInterface_lenient (F : BoolFetcher W) (a addr : String) (bn : Int)
    (sig iface : String) (s s1 : AbiState W) (hw : s1.world = s.world)
    (ha : s1.abiStr = s.abiStr) :
    (Fetcher.addInterface (failuresAsUnsupported F) a addr bn sig iface s1).world =
      (Fetcher.addInterface F a addr bn sig iface s).world ∧
    (Fetcher.addInterface (failuresAsUnsupported F) a addr bn sig iface s1).abiStr =
      (Fetcher.addInterface F a addr bn sig iface s).abiStr := by
  unfold Fetcher.addInterface Fetcher.getSupportsInterface failuresAsUnsupported
  rw [hw, ha]
  rcases hF : F.FetchBool s.world "supportsInterface" a addr bn [sig] with ⟨w1, b, e⟩
  cases b <;> cases e <;> simp [hF]

theorem addInterfaces_lenient (F : BoolFetcher W) (a addr : String) (bn : Int) :
    ∀ (l : List (String × String)) (s s1 : AbiState W), s1.world = s.world →
      s1.abiStr = s.abiStr →
      (Fetcher.addInterfaces (failuresAsUnsupported F) a addr bn l s1).world =
        (Fetcher.addInterfaces F a addr bn l s).world ∧
      (Fetcher.addInterfaces (failuresAsUnsupported F) a addr bn l s1).abiStr =
        (Fetcher.addInterfaces F a addr bn l s).abiStr := by
  intro l
  induction l with
  | nil => intro s s1 hw ha; exact ⟨hw, ha⟩
  | cons p rest ih =>
    intro s s1 hw ha
    obtain ⟨h1, h2⟩ := addInterface_lenient F a addr bn p.1 p.2 s s1 hw ha
    exact ih _ _ h1 h2

theorem FetchABI_lenient (K : ResolverConstants) (F : BoolFetcher W) (w : W) (addr : String)
    (bn : Int)
    (hmeta : (Fetcher.getSupportsInterface F w K.SupportsInterfaceABI addr bn [K.MetaSig]).2 =
      (true, none)) :
    (Fetcher.FetchABI K (failuresAsUnsupported F) w addr bn).abi =
      (Fetcher.FetchABI K F w addr bn).abi ∧
    (Fetcher.FetchABI K (failuresAsUnsupported F) w addr bn).world =
      (Fetcher.FetchABI K F w addr bn).world ∧
    (Fetcher.FetchABI K (failuresAsUnsupported F) w addr bn).err = none := by
  have hmeta1 : (Fetcher.getSupportsInterface (failuresAsUnsupported F) w K.SupportsInterfaceABI
      addr bn [K.MetaSig]).2 = (true, none) := by
    unfold Fetcher.getSupportsInterface failuresAsUnsupported
    unfold Fetcher.getSupportsInterface at hmeta
    simp only
    rw [hmeta]
    rfl
  rw [FetchABI_fold K F w addr bn hmeta, FetchABI_fold K _ w addr bn hmeta1]
  obtain ⟨h1, h2⟩ := addInterfaces_lenient F K.SupportsInterfaceABI addr bn K.optional
    ⟨(Fetcher.getSupportsInterface F w K.SupportsInterfaceABI addr bn [K.MetaSig]).1,
      [⟨K.SupportsInterfaceABI, addr, bn, [K.MetaSig], true, none⟩], "["⟩
    ⟨(Fetcher.getSupportsInterface (failuresAsUnsupported F) w K.SupportsInterfaceABI addr bn
        [K.MetaSig]).1,
      [⟨K.SupportsInterfaceABI, addr, bn, [K.MetaSig], true, none⟩], "["⟩ rfl rfl
  refine ⟨?_, h1, rfl⟩
  simp only
  rw [h2]

theorem FetchABI_refused (K : ResolverConstants) (F : BoolFetcher W) (w : W) (addr : String)
    (bn : Int)
    (hmeta : (Fetcher.getSupportsInterface F w K.SupportsInterfaceABI addr bn [K.MetaSig]).2 ≠
      (true, none)) :
    (Fetcher.FetchABI K F w addr bn).err ≠ none ∧ (Fetcher.FetchABI K F w addr bn).abi = "" ∧
    (Fetcher.FetchABI K F w addr bn).calls.length = 1 := by
  unfold Fetcher.FetchABI
  rcases hm : Fetcher.getSupportsInterface F w K.SupportsInterfaceABI addr bn [K.MetaSig]
    with ⟨w2, supports, err⟩
  rw [hm] at hmeta
  cases err with
  | some e => simp
  | none =>
    cases supports with
    | false => simp
    | true => exact absurd rfl hmeta


theorem mapReceipts_spec (receiptsCids : List String) (receiptMeta : List ReceiptModel) :
    ∀ (rest : List Receipt) (i : Nat) (m : GoMap ReceiptModel),
      receiptsCids.length = i + rest.length → i ≤ receiptMeta.length →
      (receiptMeta.length < i + rest.length →
        mapReceipts receiptsCids receiptMeta i rest m =
          .indexOutOfRange receiptMeta.length receiptMeta.length) ∧
      (i + rest.length ≤ receiptMeta.length →
        ∃ m1, mapReceipts receiptsCids receiptMeta i rest m = .ok m1) := by
  intro rest
  induction rest with
  | nil =>
    intro i m _ hi
    constructor
    · intro h; simp at h; omega
    · intro _; exact ⟨m, rfl⟩
  | cons rct rest ih =>
    intro i m hlen hi
    have hc : i < receiptsCids.length := by simp at hlen; omega
    rw [mapReceipts]
    rw [List.getElem?_eq_getElem hc]
    simp only
    by_cases hm : i < receiptMeta.length
    · rw [List.getElem?_eq_getElem hm]
      simp only
      have := ih (i + 1) (GoMap.set m rct.TxHash
        ⟨receiptsCids[i], receiptMeta[i].Contract, receiptMeta[i].Topic0s,
          receiptMeta[i].Topic1s, receiptMeta[i].Topic2s, receiptMeta[i].Topic3s⟩)
        (by simp at hlen ⊢; omega) (by omega)
      constructor
      · intro h
        exact this.1 (by simp at h ⊢; omega)
      · intro h
        exact this.2 (by simp at h ⊢; omega)
    · have heq : i = receiptMeta.length := by omega
      rw [List.getElem?_eq_none (by omega)]
      simp only
      constructor
      · intro _; rw [← heq]
      · intro h; simp at h; omega


/-! ## Passes of Init in detail, the fetcher behind the poller, address keys -/

theorem addEventColumns_ids (C : Collaborators W) (con : Contract) :
    ∀ (l : List (String × Event)) (w : W) (tr : Transformer),
      ∀ d ∈ (addEventColumns C con l w tr).trace, ∃ id e, d = Call.AddCheckColumn id e ∧
        ∃ p ∈ l, id = columnID p.2.Name con.Address := by
  intro l
  induction l with
  | nil => intro w tr d hd; simp [addEventColumns] at hd
  | cons p rest ih =>
    intro w tr d hd
    obtain ⟨name, event⟩ := p
    unfold addEventColumns at hd
    split at hd
    · simp only [List.mem_singleton] at hd
      exact ⟨_, _, hd, (name, event), List.mem_cons_self _ _, rfl⟩
    · rename_i w1 _
      simp only [List.mem_cons] at hd
      rcases hd with hd | hd
      · exact ⟨_, _, hd, (name, event), List.mem_cons_self _ _, rfl⟩
      · obtain ⟨id, e, h1, p, hp, h2⟩ := ih _ _ d hd
        exact ⟨id, e, h1, p, List.mem_cons_of_mem _ hp, h2⟩

theorem addMethodColumns_ids (C : Collaborators W) (con : Contract) :
    ∀ (l : List (String × Method)) (w : W) (tr : Transformer),
      ∀ d ∈ (addMethodColumns C con l w tr).trace, ∃ id e, d = Call.AddCheckColumn id e ∧
        ∃ p ∈ l, id = columnID p.2.Name con.Address := by
  intro l
  induction l with
  | nil => intro w tr d hd; simp [addMethodColumns] at hd
  | cons p rest ih =>
    intro w tr d hd
    obtain ⟨name, m⟩ := p
    unfold addMethodColumns at hd
    split at hd
    · simp only [List.mem_singleton] at hd
      exact ⟨_, _, hd, (name, m), List.mem_cons_self _ _, rfl⟩
    · rename_i w1 _
      simp only [List.mem_cons] at hd
      rcases hd with hd | hd
      · exact ⟨_, _, hd, (name, m), List.mem_cons_self _ _, rfl⟩
      · obtain ⟨id, e, h1, p, hp, h2⟩ := ih _ _ d hd
        exact ⟨id, e, h1, p, List.mem_cons_of_mem _ hp, h2⟩

theorem addColumns_ids (C : Collaborators W) (con : Contract) (w2 : W) (tr1 : Transformer) :
    ∀ d ∈ (addColumns C con w2 tr1).trace, ∃ id e, d = Call.AddCheckColumn id e ∧
      ((∃ p ∈ con.Events, id = columnID p.2.Name con.Address) ∨
        (∃ p ∈ con.Methods, id = columnID p.2.Name con.Address)) := by
  have hev := addEventColumns_ids C con (rangeMap C w2 con.Events).2 (rangeMap C w2 con.Events).1
    { tr1 with sortedEventIds := GoMap.set tr1.sortedEventIds con.Address [] }
  have hevs : ∀ t : List Call, (∀ d ∈ t, ∃ id e, d = Call.AddCheckColumn id e ∧
        ∃ p ∈ (rangeMap C w2 con.Events).2, id = columnID p.2.Name con.Address) →
      ∀ d ∈ t, ∃ id e, d = Call.AddCheckColumn id e ∧
        ((∃ p ∈ con.Events, id = columnID p.2.Name con.Address) ∨
          (∃ p ∈ con.Methods, id = columnID p.2.Name con.Address)) := by
    intro t ht d hd
    obtain ⟨id, e, h1, p, hp, h2⟩ := ht d hd
    exact ⟨id, e, h1, Or.inl ⟨p, (mem_rangeMap C _ _ _).mp hp, h2⟩⟩
  have hmes : ∀ (w3 : W) (t : List Call), (∀ d ∈ t, ∃ id e, d = Call.AddCheckColumn id e ∧
        ∃ p ∈ (rangeMap C w3 con.Methods).2, id = columnID p.2.Name con.Address) →
      ∀ d ∈ t, ∃ id e, d = Call.AddCheckColumn id e ∧
        ((∃ p ∈ con.Events, id = columnID p.2.Name con.Address) ∨
          (∃ p ∈ con.Methods, id = columnID p.2.Name con.Address)) := by
    intro w3 t ht d hd
    obtain ⟨id, e, h1, p, hp, h2⟩ := ht d hd
    exact ⟨id, e, h1, Or.inr ⟨p, (mem_rangeMap C _ _ _).mp hp, h2⟩⟩
  unfold addColumns
  split
  · rename_i w3 tr2 evTrace heq
    rw [heq] at hev
    simp only at hev
    have hme := addMethodColumns_ids C con (rangeMap C w3 con.Methods).2
      (rangeMap C w3 con.Methods).1
      { tr2 with sortedMethodIds := GoMap.set tr2.sortedMethodIds con.Address [] }
    split
    · rename_i w4 tr3 meTrace heq2
      rw [heq2] at hme
      simp only at hme
      intro d hd
      rcases List.mem_append.mp hd with hd | hd
      · exact hevs _ hev d hd
      · exact hmes w3 _ hme d hd
    · rename_i w4 tr3 meTrace out hne heq2
      rw [heq2] at hme
      simp only at hme
      intro d hd
      rcases List.mem_append.mp hd with hd | hd
      · exact hevs _ hev d hd
      · exact hmes w3 _ hme d hd
  · rename_i w3 tr2 evTrace out hne heq
    rw [heq] at hev
    simp only at hev
    exact hevs _ hev

theorem buildFrom_detail (C : Collaborators W) (addr : String) (tr : Transformer) (pc : Call)
    (w1 : W) (ret : Int) (err : Option GoError) :
    PassDetail C tr.Config addr (buildFrom C addr tr pc w1 ret err) := by
  unfold buildFrom
  rcases hf : C.FetchContractData w1 (C.Abi w1) addr "name" none (-1) with ⟨w2, name, pollingErr⟩
  simp only
  have hany := addColumns_any C (newContract C tr addr w2 name ret err) w2
    { tr with
      Contracts := GoMap.set tr.Contracts addr (newContract C tr addr w2 name ret err)
      contractAddresses := tr.contractAddresses ++
        [(newContract C tr addr w2 name ret err).Address] }
  have hids := addColumns_ids C (newContract C tr addr w2 name ret err) w2
    { tr with
      Contracts := GoMap.set tr.Contracts addr (newContract C tr addr w2 name ret err)
      contractAddresses := tr.contractAddresses ++
        [(newContract C tr addr w2 name ret err).Address] }
  obtain ⟨-, -, a3, -⟩ := hany
  refine ⟨w1, pc, ret, err,
    (addColumns C (newContract C tr addr w2 name ret err) w2
      { tr with
        Contracts := GoMap.set tr.Contracts addr (newContract C tr addr w2 name ret err)
        contractAddresses := tr.contractAddresses ++
          [(newContract C tr addr w2 name ret err).Address] }).trace,
    newContract C tr addr w2 name ret err, ?_, ?_, ?_, ?_, ?_, ?_⟩
  · rw [hf]
  · simp only [a3]
    exact GoMap.lookup_set_self _ _ _
  · rw [hf]; rfl
  · rw [hf]; rfl
  · rw [hf]; rfl
  · exact hids

theorem buildContract_detail (C : Collaborators W) (addr : String) (w : W) (tr : Transformer)
    (pc : Call) :
    (∃ ret e, e ≠ GoError.ErrNoRows ∧
      (buildContract C addr w tr pc).trace = [pc, Call.RetrieveFirstBlock ret (some e)]) ∨
    PassDetail C tr.Config addr (buildContract C addr w tr pc) := by
  unfold buildContract
  split
  · rename_i w1 ret e _
    split
    · exact Or.inr (buildFrom_detail C addr tr pc w1 ret (some e))
    · rename_i hne
      exact Or.inl ⟨ret, e, hne, rfl⟩
  · rename_i w1 ret _
    exact Or.inr (buildFrom_detail C addr tr pc w1 ret none)

theorem initContract_detail (C : Collaborators W) (addr : String) (w : W) (tr : Transformer) :
    (∃ e, (initContract C addr w tr).trace = [parseCallOf tr.Config addr (some e)]) ∨
    (∃ ret e, e ≠ GoError.ErrNoRows ∧
      (initContract C addr w tr).trace =
        [parseCallOf tr.Config addr none, Call.RetrieveFirstBlock ret (some e)]) ∨
    PassDetail C tr.Config addr (initContract C addr w tr) := by
  unfold initContract parseCallOf
  split
  · split
    · rename_i w1 e _
      exact Or.inl ⟨e, rfl⟩
    · rename_i w1 _
      exact Or.inr (buildContract_detail C addr w1 tr _)
  · split
    · rename_i w1 e _
      exact Or.inl ⟨e, rfl⟩
    · rename_i w1 _
      exact Or.inr (buildContract_detail C addr w1 tr _)

theorem initContract_ok_detail (C : Collaborators W) (addr : String) (w : W) (tr : Transformer)
    (hok : (initContract C addr w tr).out = .ok) :
    ∃ con w2, List.lookup addr (initContract C addr w tr).tr.Contracts = some con ∧
      con.Events = C.GetEvents w2 (GoMap.getD tr.Config.Events addr []) ∧
      con.Methods = C.GetSelectMethods w2 (GoMap.getD tr.Config.Methods addr []) ∧
      (∀ id e, Call.AddCheckColumn id e ∈ (initContract C addr w tr).trace →
        (∃ p ∈ con.Events, id = columnID p.2.Name addr) ∨
          (∃ p ∈ con.Methods, id = columnID p.2.Name addr)) := by
  obtain ⟨-, hshape⟩ := initContract_shape C addr w tr
  have hpc : ∀ id e err, Call.AddCheckColumn id e ≠ parseCallOf tr.Config addr err := by
    intro id e err h
    unfold parseCallOf at h
    split at h <;> cases h
  rcases hshape with ⟨e1, -, ho, -⟩ | ⟨ret1, e1, -, -, ho, -⟩ |
    ⟨ret1, err1, abi1, name1, perr, cols1, con1, -, h1, -, -, -, -, -, -, -⟩
  · rw [ho] at hok; cases hok
  · rw [ho] at hok; cases hok
  · rcases initContract_detail C addr w tr with ⟨e, h⟩ | ⟨ret, e, -, h⟩ |
      ⟨w1, pc, ret, err, cols, con, g1, g2, -, g4, g5, g6⟩
    · rw [h1] at h
      have := congrArg List.length h
      simp at this
    · rw [h1] at h
      have := congrArg List.length h
      simp at this
    · refine ⟨con, _, g2, g4, g5, ?_⟩
      intro id e hmem
      have hpceq : pc = parseCallOf tr.Config addr none := by
        rw [h1] at g1
        simp only [List.cons.injEq] at g1
        exact g1.1.symm
      rw [g1, hpceq] at hmem
      simp only [List.mem_cons] at hmem
      rcases hmem with hmem | hmem | hmem | hmem
      · exact absurd hmem (hpc _ _ _)
      · cases hmem
      · cases hmem
      · obtain ⟨id1, e2, q1, q2⟩ := g6 _ hmem
        cases q1
        exact q2

theorem initLoop_detail (C : Collaborators W) :
    ∀ (l : List (String × Bool)) (w : W) (tr : Transformer),
      (initLoop C l w tr).out = .ok →
      ∀ a ∈ l.map Prod.fst, ∃ t con w2, (a, t) ∈ (initLoop C l w tr).log ∧
        List.lookup a (initLoop C l w tr).tr.Contracts = some con ∧
        con.Events = C.GetEvents w2 (GoMap.getD tr.Config.Events a []) ∧
        con.Methods = C.GetSelectMethods w2 (GoMap.getD tr.Config.Methods a []) ∧
        (∀ id e, Call.AddCheckColumn id e ∈ t →
          (∃ p ∈ con.Events, id = columnID p.2.Name a) ∨
            (∃ p ∈ con.Methods, id = columnID p.2.Name a)) := by
  intro l
  induction l with
  | nil => intro w tr _ a ha; cases ha
  | cons p rest ih =>
    intro w tr
    obtain ⟨addr, b⟩ := p
    have hdet := initContract_ok_detail C addr w tr
    have hcfg := (initContract_shape C addr w tr).1
    unfold initLoop
    split
    · rename_i w1 tr1 t heq
      rw [heq] at hdet hcfg
      simp only at hdet hcfg
      intro hok a ha
      obtain ⟨-, i2, -⟩ := initLoop_spec C rest w1 tr1 hok
      by_cases hrest : a ∈ rest.map Prod.fst
      · obtain ⟨t1, con, w2, h1, h2, h3, h4, h5⟩ := ih w1 tr1 hok a hrest
        rw [hcfg] at h3 h4
        exact ⟨t1, con, w2, List.mem_cons_of_mem _ h1, h2, h3, h4, h5⟩
      · simp only [List.map_cons, List.mem_cons] at ha
        rcases ha with rfl | ha
        · obtain ⟨con, w2, g1, g2, g3, g4⟩ := hdet trivial
          refine ⟨t, con, w2, List.mem_cons_self _ _, ?_, g2, g3, g4⟩
          rw [(i2 a hrest).1]
          exact g1
        · exact absurd ha hrest
    · rename_i w1 tr1 t out hne heq
      intro hok
      exact absurd hok hne

theorem Init_detail (C : Collaborators W) (tr : Transformer) (w : W)
    (hok : (Init C tr w).out = .ok) (addr : String)
    (hcfg : addr ∈ tr.Config.Addresses.map Prod.fst) :
    ∃ t con w2, (addr, t) ∈ (Init C tr w).log ∧
      List.lookup addr (Init C tr w).tr.Contracts = some con ∧
      con.Events = C.GetEvents w2 (GoMap.getD tr.Config.Events addr []) ∧
      con.Methods = C.GetSelectMethods w2 (GoMap.getD tr.Config.Methods addr []) ∧
      (∀ id e, Call.AddCheckColumn id e ∈ t →
        (∃ p ∈ con.Events, id = columnID p.2.Name addr) ∨
          (∃ p ∈ con.Methods, id = columnID p.2.Name addr)) := by
  unfold Init at hok ⊢
  have h := initLoop_detail C _ _ _ hok addr (by
    obtain ⟨p, hp, rfl⟩ := List.mem_map.mp hcfg
    exact List.mem_map_of_mem _ ((mem_rangeMap C w tr.Config.Addresses p).mpr hp))
  exact h

theorem specGetEvents_names (abiEvents : List Event) (names : List String) :
    ∀ p ∈ specGetEvents abiEvents names, p.2 ∈ abiEvents ∧ p.1 = p.2.Name ∧
      (names = [] ∨ p.1 ∈ names) := by
  intro p hp
  unfold specGetEvents at hp
  rw [List.mem_map] at hp
  obtain ⟨e, he, rfl⟩ := hp
  rw [List.mem_filter] at he
  refine ⟨he.1, rfl, ?_⟩
  have := he.2
  simp only [Bool.or_eq_true, List.isEmpty_iff, List.contains_eq_any_beq, List.any_eq_true,
    beq_iff_eq] at this
  rcases this with h | ⟨x, hx, hxe⟩
  · exact Or.inl h
  · right
    simp only
    rw [hxe]
    exact hx

theorem specGetSelectMethods_names (abiMethods : List Method) (names : List String) :
    ∀ p ∈ specGetSelectMethods abiMethods names, p.2 ∈ abiMethods ∧ p.1 = p.2.Name ∧
      p.1 ∈ names := by
  intro p hp
  unfold specGetSelectMethods at hp
  rw [List.mem_map] at hp
  obtain ⟨e, he, rfl⟩ := hp
  rw [List.mem_filter] at he
  refine ⟨he.1, rfl, ?_⟩
  have := he.2
  simp only [List.contains_eq_any_beq, List.any_eq_true, beq_iff_eq] at this
  obtain ⟨x, hx, hxe⟩ := this
  simp only
  rw [hxe]
  exact hx

theorem Init_error_cases (C : Collaborators W) (tr : Transformer) (w : W) :
    (Init C tr w).out = .ok ∨
    ∃ addr t c e, (Init C tr w).log.getLast? = some (addr, t) ∧ t.getLast? = some c ∧
      c.err = some e ∧
      (((c.isParse = true ∨ c.isParseAbiStr = true) ∧
          (Init C tr w).out = .error (parseErrorOf tr.Config addr e)) ∨
        (c.isRetrieveFirstBlock = true ∧ e ≠ GoError.ErrNoRows ∧
          (Init C tr w).out = .error ("error retrieving first block: " ++ e.Error)) ∨
        (c.isAddCheckColumn = true ∧
          (Init C tr w).out = .error ("error adding check column: " ++ e.Error))) := by
  have hloop := initLoop_out C (rangeMap C w tr.Config.Addresses).2
    (rangeMap C w tr.Config.Addresses).1
    { tr with contractAddresses := [], sortedEventIds := [], sortedMethodIds := [],
              eventIds := [], eventFilters := [], Start := MaxInt64 }
  unfold Init
  rcases hloop with h | ⟨addr, t, w1, tr1, hcfg, hlast, htr, hout, hne⟩
  · exact Or.inl h
  right
  simp only at hcfg
  obtain ⟨-, hshape⟩ := initContract_shape C addr w1 tr1
  rw [hcfg] at hshape
  rcases hshape with ⟨e1, h1, ho, -⟩ | ⟨ret1, e1, hn, h1, ho, -⟩ |
    ⟨ret1, err1, abi, name, perr, cols, con, -, h1, hcols, hce, -, -, -, -, -⟩
  · rw [htr] at h1
    refine ⟨addr, t, parseCallOf tr.Config addr (some e1), e1, hlast, by rw [h1]; rfl, ?_,
      Or.inl ⟨?_, hout.trans ho⟩⟩
    · unfold parseCallOf; split <;> rfl
    · unfold parseCallOf; split
      · left; rfl
      · right; rfl
  · rw [htr] at h1
    exact ⟨addr, t, Call.RetrieveFirstBlock ret1 (some e1), e1, hlast, by rw [h1]; rfl, rfl,
      Or.inr (Or.inl ⟨rfl, hn, hout.trans ho⟩)⟩
  · rw [htr] at h1
    rcases hce with ⟨hok, -⟩ | ⟨id, e1, hl, ho⟩
    · exact absurd hok hne
    · refine ⟨addr, t, Call.AddCheckColumn id (some e1), e1, hlast, ?_, rfl,
        Or.inr (Or.inr ⟨rfl, hout.trans ho⟩)⟩
      rw [h1]
      exact getLast?_append_of_some [_, _, _] cols _ hl

theorem Fetcher_result_untouched (L : AbiLib) (client : EthClient W) (w : W)
    (abiJSON address method : String) (methodArgs : Option (List String)) (result : String)
    (blockNumber : Int)
    (herr : (Fetcher.FetchContractData L client w abiJSON address method methodArgs result
      blockNumber).err ≠ none) :
    (Fetcher.FetchContractData L client w abiJSON address method methodArgs result
      blockNumber).result = result ∨
    ∃ parsed output, L.ParseAbi abiJSON = (parsed, none) ∧
      L.Unpack parsed result method output =
        ((Fetcher.FetchContractData L client w abiJSON address method methodArgs result
            blockNumber).result,
          (Fetcher.FetchContractData L client w abiJSON address method methodArgs result
            blockNumber).err) := by
  revert herr
  unfold Fetcher.FetchContractData
  split
  · intro _; exact Or.inl rfl
  · rename_i parsed hparse
    split
    · intro _; exact Or.inl rfl
    · rename_i input hpk
      split
      · intro _; exact Or.inl rfl
      · rename_i w1 output call hcc
        intro _
        exact Or.inr ⟨parsed, output, hparse, rfl⟩

theorem initContract_name_call (C : Collaborators W) (addr : String) (w : W) (tr : Transformer)
    (abi a m : String) (args : Option (List String)) (bn : Int) (name : String)
    (perr : Option GoError)
    (hcall : Call.FetchContractData abi a m args bn name perr ∈ (initContract C addr w tr).trace) :
    ∃ w2, abi = C.Abi w2 ∧ (C.FetchContractData w2 abi addr "name" none (-1)).2 = (name, perr) := by
  have hpc : ∀ err, Call.FetchContractData abi a m args bn name perr ≠
      parseCallOf tr.Config addr err := by
    intro err h
    unfold parseCallOf at h
    split at h <;> cases h
  obtain ⟨-, hshape⟩ := initContract_shape C addr w tr
  rcases initContract_detail C addr w tr with ⟨e, h⟩ | ⟨ret, e, -, h⟩ |
    ⟨w1, pc, ret, err, cols, con, g1, -, -, -, -, g6⟩
  · rw [h, List.mem_singleton] at hcall
    exact absurd hcall (hpc _)
  · rw [h] at hcall
    simp only [List.mem_cons, List.mem_singleton, List.not_mem_nil, or_false] at hcall
    rcases hcall with hcall | hcall
    · exact absurd hcall (hpc _)
    · cases hcall
  · have hpceq : ∃ err, pc = parseCallOf tr.Config addr err := by
      rcases hshape with ⟨e1, h1, -, -⟩ | ⟨ret1, e1, -, h1, -, -⟩ |
        ⟨ret1, err1, abi1, name1, perr1, cols1, con1, -, h1, -⟩
      · rw [h1] at g1
        simp only [List.cons.injEq] at g1
        exact ⟨_, g1.1.symm⟩
      · rw [h1] at g1
        simp only [List.cons.injEq] at g1
        exact ⟨_, g1.1.symm⟩
      · rw [h1] at g1
        simp only [List.cons.injEq] at g1
        exact ⟨_, g1.1.symm⟩
    obtain ⟨err0, hpc0⟩ := hpceq
    rw [g1, hpc0] at hcall
    simp only [List.mem_cons] at hcall
    rcases hcall with hcall | hcall | hcall | hcall
    · exact absurd hcall (hpc _)
    · cases hcall
    · simp only [Call.FetchContractData.injEq] at hcall
      obtain ⟨q1, -, -, -, -, q6, q7⟩ := hcall
      refine ⟨w1, q1, ?_⟩
      rw [q1, q6, q7]
    · obtain ⟨id, e, q, -⟩ := g6 _ hcall
      cases q


/-! ## Execute: the claims -/

/-- Every entry of the log of `Execute` is the trace of the loop body at its header. -/
theorem Execute_log_entry (C : Collaborators W) (tr : Transformer) (w : W) (h : Header)
    (evs : List Call) (hmem : (h, evs) ∈ (Execute C tr w).log) :
    ∃ w1, (processHeader C tr h w1).trace = evs := by
  rcases Execute_cases C tr w with ⟨h0, -, -⟩ | ⟨w1, -, -, -, hlog, -, -, -, -, -⟩
  · rw [h0] at hmem; cases hmem
  · rw [hlog] at hmem
    rcases headerLoop_cases C tr (C.MissingHeadersForAll w tr.Start (-1) tr.eventIds).2.1 w1 tr.Start
      with ⟨-, -, h3, -, -⟩ | ⟨pre, h1, w2, hl, hpre, -, -, -, -, -⟩
    · obtain ⟨w3, h4, -⟩ := h3 _ hmem
      exact ⟨w3, h4⟩
    · rw [hl, List.mem_append, List.mem_singleton] at hmem
      rcases hmem with hmem | hmem
      · obtain ⟨w3, h4, -⟩ := hpre _ hmem
        exact ⟨w3, h4⟩
      · cases hmem
        exact ⟨w2, rfl⟩

theorem startAfter_ge (s : Int) (hs : List Header)
    (hbound : ∀ h ∈ hs, s ≤ h.BlockNumber ∧ h.BlockNumber < MaxInt64) : s ≤ startAfter s hs := by
  unfold startAfter
  cases hl : hs.getLast? with
  | none => simp
  | some h =>
    have hmem : h ∈ hs := List.mem_of_getLast?_eq_some hl
    obtain ⟨h1, h2⟩ := hbound h hmem
    simp only
    by_cases hmin : MinInt64 ≤ h.BlockNumber + 1
    · rw [wrapInt64_eq _ hmin (by omega)]
      omega
    · have := wrapInt64_ge (h.BlockNumber + 1)
      omega

/-- C1 (as amended): when `MissingHeadersForAll(Start, -1, eventIds)` returns only
headers with `Start ≤ block_number < MaxInt64` and `Execute` returns no error, the
value of `Start` after the call is at least its value before the call. -/
theorem checkpoint_monotone (C : Collaborators W) (tr : Transformer) (w : W)
    (hbound : ∀ h ∈ (C.MissingHeadersForAll w tr.Start (-1) tr.eventIds).2.1,
      tr.Start ≤ h.BlockNumber ∧ h.BlockNumber < MaxInt64)
    (hok : (Execute C tr w).out = .ok) :
    tr.Start ≤ (Execute C tr w).Start := by
  rcases Execute_cases C tr w with ⟨-, -, msg, hmsg⟩ | ⟨w1, -, -, -, -, hstart, hout, -, -, -⟩
  · rw [hmsg] at hok; cases hok
  · rw [hstart]
    rw [hout] at hok
    rcases headerLoop_cases C tr (C.MissingHeadersForAll w tr.Start (-1) tr.eventIds).2.1 w1 tr.Start
      with ⟨-, -, -, h4, -⟩ | ⟨pre, h1, w2, -, -, -, hne, -, -, -⟩
    · rw [h4]
      exact startAfter_ge _ _ hbound
    · exact absurd hok hne

/-- Witness of C1 (as amended): one log-free header at block 6, `Start` goes from 6 to 7. -/
theorem checkpoint_monotone_witness :
    (demoTransformer 6).Start ≤
      (Execute (withHeaderRepo demoCollab) (demoTransformer 6) (demoDB, ())).Start :=
  checkpoint_monotone (withHeaderRepo demoCollab) (demoTransformer 6) (demoDB, ())
    (by decide) (by decide)

/-- C1 fails as stated: the header repository returns one header, at or above `Start`
and in ascending order; `Execute` returns no error; and `Start` drops from 10 to the
smallest `int64`, because `header.BlockNumber + 1` overflows. -/
theorem checkpoint_monotone_counterexample :
    (∀ h ∈ ((withHeaderRepo demoCollab).MissingHeadersForAll (edgeDB, ())
        (demoTransformer 10).Start (-1) (demoTransformer 10).eventIds).2.1,
      (demoTransformer 10).Start ≤ h.BlockNumber) ∧
    (((withHeaderRepo demoCollab).MissingHeadersForAll (edgeDB, ())
        (demoTransformer 10).Start (-1) (demoTransformer 10).eventIds).2.1).Pairwise
      (fun a b => a.BlockNumber ≤ b.BlockNumber) ∧
    (Execute (withHeaderRepo demoCollab) (demoTransformer 10) (edgeDB, ())).out = .ok ∧
    (Execute (withHeaderRepo demoCollab) (demoTransformer 10) (edgeDB, ())).Start = MinInt64 ∧
    ¬ ((demoTransformer 10).Start ≤
      (Execute (withHeaderRepo demoCollab) (demoTransformer 10) (edgeDB, ())).Start) := by
  decide

/-- C2: if `FetchLogs`, `ConvertBatch` or `PersistLogs` fails while `Execute` processes
the header `h`, then `Execute` returns an error, no `MarkHeaderCheckedForAll` call is made
while `h` is processed (and, header ids being distinct, none with the id of `h` in the
whole call), `h` is the last header processed, and `Start` equals `h.block_number`. -/
theorem failure_before_marking (C : Collaborators W) (tr : Transformer) (w : W) (h : Header)
    (evs : List Call) (c : Call)
    (hmem : (h, evs) ∈ (Execute C tr w).log) (hc : c ∈ evs)
    (hkind : c.isFetchLogs = true ∨ c.isConvertBatch = true ∨ c.isPersistLogs = true)
    (hfail : c.failed = true) :
    (∃ msg, (Execute C tr w).out = .error msg) ∧
    (∀ d ∈ evs, d.isMark = false) ∧
    (((C.MissingHeadersForAll w tr.Start (-1) tr.eventIds).2.1.map Header.ID).Nodup →
      ∀ d ∈ (Execute C tr w).before ++ ((Execute C tr w).log.map Prod.snd).flatten,
        ∀ ids err, d ≠ Call.MarkHeaderCheckedForAll h.ID ids err) ∧
    (Execute C tr w).log.getLast? = some (h, evs) ∧
    (Execute C tr w).Start = h.BlockNumber := by
  -- the failing call belongs to the event phase, so the loop body stops there
  have hbody : ∀ w1, (processHeader C tr h w1).trace = evs →
      (∃ msg, (processHeader C tr h w1).out = .error msg) ∧ ∀ d ∈ evs, d.isMark = false := by
    intro w1 htr
    obtain ⟨ev, mp, hsplit, hev, hfailed, hmp⟩ := processHeader_split C tr h w1
    have hmpPhase : ∀ d ∈ mp, d.isMarkPhase = true := by
      rcases hmp with ⟨rfl, -⟩ | ⟨w2, rfl, -⟩
      · simp
      · exact markAndPoll_markPhase C tr h w2
    rw [htr] at hsplit
    have hcev : c ∈ ev := by
      rw [hsplit, List.mem_append] at hc
      rcases hc with hc | hc
      · exact hc
      · have := hmpPhase c hc
        cases c <;> simp [Call.isMarkPhase, Call.isFetchLogs, Call.isConvertBatch,
          Call.isPersistLogs] at this hkind
    obtain ⟨hnil, hout⟩ := hfailed ⟨c, hcev, hfail⟩
    refine ⟨hout, ?_⟩
    intro d hd
    rw [hsplit, hnil, List.append_nil] at hd
    have := hev d hd
    cases d <;> simp [Call.isEventPhase, Call.isMark] at this ⊢
  rcases Execute_cases C tr w with ⟨h0, -, -⟩ | ⟨w1, -, -, -, hlog, hstart, hout, -, hbefore, -⟩
  · rw [h0] at hmem; cases hmem
  · rw [hlog] at hmem
    rw [hlog, hstart, hout, hbefore]
    rcases headerLoop_cases C tr (C.MissingHeadersForAll w tr.Start (-1) tr.eventIds).2.1 w1 tr.Start
      with ⟨-, -, h3, -, -⟩ | ⟨pre, h1, w2, hl, hpre, hpout, -, hst, hinit, -⟩
    · obtain ⟨w3, h4, h5⟩ := h3 _ hmem
      obtain ⟨⟨msg, hmsg⟩, -⟩ := hbody w3 h4
      rw [hmsg] at h5; cases h5
    · have hlast : (h, evs) = (h1, (processHeader C tr h1 w2).trace) := by
        rw [hl, List.mem_append, List.mem_singleton] at hmem
        rcases hmem with hmem | hmem
        · obtain ⟨w3, h4, h5⟩ := hpre _ hmem
          obtain ⟨⟨msg, hmsg⟩, -⟩ := hbody w3 h4
          rw [hmsg] at h5; cases h5
        · exact hmem
      cases hlast
      obtain ⟨hmsg, hnomark⟩ := hbody w2 rfl
      refine ⟨hpout ▸ hmsg, hnomark, ?_, by rw [hl]; simp, hst⟩
      intro hnodup d hd ids err hEq
      subst hEq
      simp only [List.singleton_append, List.mem_cons, reduceCtorEq, List.mem_flatten,
        List.mem_map, Prod.exists, exists_eq_right, false_or] at hd
      obtain ⟨t, ⟨h2, hentry⟩, hdt⟩ := hd
      -- the ids of the processed headers are distinct
      have hnd : ((pre.map Prod.fst ++ [h]).map Header.ID).Nodup :=
        (hinit.sublist.map Header.ID).nodup hnodup
      rw [hl, List.mem_append, List.mem_singleton] at hentry
      rcases hentry with hentry | hentry
      · obtain ⟨w3, h4, -⟩ := hpre _ hentry
        simp only at h4
        rw [← h4] at hdt
        have hid := processHeader_mark_id C tr h2 w3 _ _ _ hdt
        rw [List.map_append, List.nodup_append] at hnd
        refine hnd.2.2 ?_ (List.mem_singleton.mpr rfl)
        rw [hid]
        exact List.mem_map_of_mem _ (List.mem_map_of_mem Prod.fst hentry)
      · cases hentry
        have := hnomark _ hdt
        simp [Call.isMark] at this

/-- Witness of C2: `PersistLogs` fails at the header of block 5. -/
theorem failure_before_marking_witness :
    (∃ msg, (Execute (withHeaderRepo persistFails) (demoTransformer 5) (demoDB, ())).out =
      .error msg) ∧
    (Execute (withHeaderRepo persistFails) (demoTransformer 5) (demoDB, ())).log.length = 1 ∧
    (Execute (withHeaderRepo persistFails) (demoTransformer 5) (demoDB, ())).Start = 5 :=
  have key := failure_before_marking (withHeaderRepo persistFails) (demoTransformer 5)
    (demoDB, ()) ⟨1, 5, "0xh5"⟩
    ((processHeader (withHeaderRepo persistFails) (demoTransformer 5) ⟨1, 5, "0xh5"⟩
      (demoDB, ())).trace)
    (Call.PersistLogs [⟨1, []⟩] ⟨"Transfer", "0xddf252ad"⟩ "0xaa" ""
      (some (.other "sql: connection refused")))
    (by decide) (by decide) (by decide) (by decide)
  ⟨key.1, by decide, key.2.2.2.2⟩

/-- C5: among the calls `Execute` makes while it processes one header, no `PersistLogs`
call comes after a `PollContractAt` call. -/
theorem persist_before_poll (C : Collaborators W) (tr : Transformer) (w : W) (h : Header)
    (evs a b : List Call) (c : Call)
    (hmem : (h, evs) ∈ (Execute C tr w).log) (hsplit : evs = a ++ c :: b)
    (hpoll : c.isPollContractAt = true) :
    ∀ d ∈ b, d.isPersistLogs = false := by
  obtain ⟨w1, htr⟩ := Execute_log_entry C tr w h evs hmem
  obtain ⟨ev, mp, hs, hev, -, hmp⟩ := processHeader_split C tr h w1
  have hmpPhase : ∀ d ∈ mp, d.isMarkPhase = true := by
    rcases hmp with ⟨rfl, -⟩ | ⟨w2, rfl, -⟩
    · simp
    · exact markAndPoll_markPhase C tr h w2
  rw [htr, hsplit] at hs
  have hb : ∀ d ∈ b, d ∈ mp := by
    rcases List.append_eq_append_iff.mp hs with ⟨a1, h1, h2⟩ | ⟨c1, -, h2⟩
    · cases a1 with
      | nil =>
        intro d hd
        simp only [List.nil_append] at h2
        rw [← h2]
        simp [hd]
      | cons x a2 =>
        simp only [List.cons_append, List.cons.injEq] at h2
        have hx : c ∈ ev := by rw [h1, h2.1]; simp
        have := hev c hx
        cases c <;> simp [Call.isEventPhase, Call.isPollContractAt] at this hpoll
    · intro d hd
      rw [h2]
      simp [hd]
  intro d hd
  have := hmpPhase d (hb d hd)
  cases d <;> simp [Call.isMarkPhase, Call.isPersistLogs] at this ⊢

/-- Witness of C5: the header of block 5 has a log, which is persisted before the poll. -/
theorem persist_before_poll_witness :
    (Call.MarkHeaderCheckedForAll 1 ["balanceof_0xaa"] none).isPersistLogs = false :=
  persist_before_poll (withHeaderRepo demoCollab) (demoTransformer 5) (demoDB, ())
    ⟨1, 5, "0xh5"⟩
    ((processHeader (withHeaderRepo demoCollab) (demoTransformer 5) ⟨1, 5, "0xh5"⟩
      (demoDB, ())).trace)
    [Call.FetchLogs ["0xaa"] ["0xddf252ad"] ⟨1, 5, "0xh5"⟩ [⟨"0xAA", ["0xddf252ad"], "0x2a"⟩] none,
      Call.ConverterUpdate (some (demoContract "0xaa" 5)),
      Call.ConvertBatch [⟨"0xAA", ["0xddf252ad"], "0x2a"⟩]
        [("Transfer", ⟨"Transfer", "0xddf252ad"⟩)] 1 none,
      Call.PersistLogs [⟨1, []⟩] ⟨"Transfer", "0xddf252ad"⟩ "0xaa" "" none,
      Call.MarkHeaderCheckedForAll 1 ["transfer_0xaa"] none]
    [Call.MarkHeaderCheckedForAll 1 ["balanceof_0xaa"] none]
    (Call.PollContractAt (demoContract "0xaa" 5) 5 none)
    (by decide) (by decide) (by decide)
    (Call.MarkHeaderCheckedForAll 1 ["balanceof_0xaa"] none) (List.mem_singleton.mpr rfl)

/-- C3 fails on the code: `PollContractAt` fails at the header of block 5, `Execute`
returns an error with `Start` left at 5, but the event-id columns of that header
were already marked, so the next `Execute` (with a poller that works again) does not get
the header back from `MissingHeadersForAll(5, -1, eventIds)`, processes only the header
of block 6 and never polls at block 5. -/
theorem polling_failure_not_retried :
    (Execute (withHeaderRepo pollFails) (demoTransformer 5) (demoDB, ())).out =
      .error "error polling methods: error polling contract 0xaa: rpc: timeout" ∧
    Call.PollContractAt (demoContract "0xaa" 5) 5 (some (.other "rpc: timeout")) ∈
      ((Execute (withHeaderRepo pollFails) (demoTransformer 5) (demoDB, ())).log.map
        Prod.snd).flatten ∧
    (Execute (withHeaderRepo pollFails) (demoTransformer 5) (demoDB, ())).Start = 5 ∧
    (⟨1, 5, "0xh5"⟩ : Header) ∉
      ((withHeaderRepo demoCollab).MissingHeadersForAll
        (Execute (withHeaderRepo pollFails) (demoTransformer 5) (demoDB, ())).world
        5 (-1) (demoTransformer 5).eventIds).2.1 ∧
    (Execute (withHeaderRepo demoCollab)
        ((Execute (withHeaderRepo pollFails) (demoTransformer 5) (demoDB, ())).transformer
          (demoTransformer 5))
        (Execute (withHeaderRepo pollFails) (demoTransformer 5) (demoDB, ())).world).log.map
      Prod.fst = [⟨2, 6, "0xh6"⟩] ∧
    (Execute (withHeaderRepo demoCollab)
        ((Execute (withHeaderRepo pollFails) (demoTransformer 5) (demoDB, ())).transformer
          (demoTransformer 5))
        (Execute (withHeaderRepo pollFails) (demoTransformer 5) (demoDB, ())).world).out = .ok := by
  decide

/-- C4 (as amended): with the header repository of the specification and every header
below the largest `int64` block number, a second `Execute` after a successful one
processes no header: it only asks for the missing headers, so it makes no `PersistLogs`
and no `PollContractAt` call, and leaves the whole world (header repository and
everything the other collaborators own) and `Start` as the first run left them. -/
theorem execute_idempotent (C : Collaborators E) (tr : Transformer) (db : HeaderDB) (e : E)
    (hbound : ∀ h ∈ db.headers, h.BlockNumber < MaxInt64)
    (hok : (Execute (withHeaderRepo C) tr (db, e)).out = .ok) :
    (Execute (withHeaderRepo C) ((Execute (withHeaderRepo C) tr (db, e)).transformer tr)
        (Execute (withHeaderRepo C) tr (db, e)).world).out = .ok ∧
    (Execute (withHeaderRepo C) ((Execute (withHeaderRepo C) tr (db, e)).transformer tr)
        (Execute (withHeaderRepo C) tr (db, e)).world).log = [] ∧
    (∀ d ∈ (Execute (withHeaderRepo C) ((Execute (withHeaderRepo C) tr (db, e)).transformer tr)
        (Execute (withHeaderRepo C) tr (db, e)).world).before,
      d.isPersistLogs = false ∧ d.isPollContractAt = false) ∧
    (Execute (withHeaderRepo C) ((Execute (withHeaderRepo C) tr (db, e)).transformer tr)
        (Execute (withHeaderRepo C) tr (db, e)).world).world =
      (Execute (withHeaderRepo C) tr (db, e)).world ∧
    (Execute (withHeaderRepo C) ((Execute (withHeaderRepo C) tr (db, e)).transformer tr)
        (Execute (withHeaderRepo C) tr (db, e)).world).Start =
      (Execute (withHeaderRepo C) tr (db, e)).Start := by
  rcases Execute_cases (withHeaderRepo C) tr (db, e) with
    ⟨-, -, msg, hmsg⟩ | ⟨w1, hw1, -, hne, -, hstart, hout, hworld, -, -⟩
  · rw [hmsg] at hok; cases hok
  · have hw1eq : w1 = (db, e) := by rw [← hw1]; rfl
    subst hw1eq
    have hhs : ((withHeaderRepo C).MissingHeadersForAll (db, e) tr.Start (-1) tr.eventIds).2.1 =
        db.MissingHeadersForAll tr.Start (-1) tr.eventIds := rfl
    rw [hhs] at hstart hout hworld
    rw [hout] at hok
    have hdb := headerLoop_db C tr (db.MissingHeadersForAll tr.Start (-1) tr.eventIds) (db, e)
      tr.Start
    have hmarked := hdb.2 hok
    rcases headerLoop_cases (withHeaderRepo C) tr (db.MissingHeadersForAll tr.Start (-1) tr.eventIds)
      (db, e) tr.Start with ⟨-, -, -, h4, -⟩ | ⟨pre, h1, w2, -, -, -, hno, -, -, -⟩
    swap
    · exact absurd hok hno
    have hge : tr.Start ≤ (Execute (withHeaderRepo C) tr (db, e)).Start := by
      rw [hstart, h4]
      apply startAfter_ge
      intro h hmem
      rw [HeaderDB.mem_missing] at hmem
      exact ⟨hmem.2.1, hbound h hmem.1⟩
    -- nothing at or above the new `Start` is missing any more
    have hempty : (Execute (withHeaderRepo C) tr (db, e)).world.1.MissingHeadersForAll
        (Execute (withHeaderRepo C) tr (db, e)).Start (-1) tr.eventIds = [] := by
      apply List.eq_nil_iff_forall_not_mem.mpr
      intro h hmem
      rw [HeaderDB.mem_missing] at hmem
      obtain ⟨hin, hlo, -, hmiss⟩ := hmem
      rw [hworld] at hin hmiss
      rw [hdb.1.1] at hin
      have hnot : ¬ (headerLoop (withHeaderRepo C) tr
          (db.MissingHeadersForAll tr.Start (-1) tr.eventIds) (db, e) tr.Start).world.1.marked
            tr.eventIds h.ID := by
        rw [← HeaderDB.isMissing_eq_false, hmiss]; simp
      by_cases hm : db.isMissing tr.eventIds h = true
      · apply hnot
        apply hmarked h
        rw [HeaderDB.mem_missing]
        exact ⟨hin, by omega, Or.inl (by decide), hm⟩
      · apply hnot
        simp only [Bool.not_eq_true] at hm
        rw [HeaderDB.isMissing_eq_false] at hm
        exact HeaderDB.marked_le hdb.1 hm
    have key := Execute_nothing_missing (withHeaderRepo C)
      ((Execute (withHeaderRepo C) tr (db, e)).transformer tr)
      (Execute (withHeaderRepo C) tr (db, e)).world hne
      (by
        have hcall : ∀ (w : HeaderDB × E) (lo hi : Int) (ids : List String),
            (withHeaderRepo C).MissingHeadersForAll w lo hi ids =
              (w, w.1.MissingHeadersForAll lo hi ids, none) := fun _ _ _ _ => rfl
        rw [hcall]
        simp only [ExecResult.transformer]
        rw [hempty])
    rw [key]
    simp [Call.isPersistLogs, Call.isPollContractAt, ExecResult.transformer]

/-- Witness of C4 (as amended): two headers, blocks 5 and 6; the second run does nothing. -/
theorem execute_idempotent_witness :
    (Execute (withHeaderRepo demoCollab)
        ((Execute (withHeaderRepo demoCollab) (demoTransformer 5) (demoDB, ())).transformer
          (demoTransformer 5))
        (Execute (withHeaderRepo demoCollab) (demoTransformer 5) (demoDB, ())).world).log = [] :=
  (execute_idempotent demoCollab (demoTransformer 5) demoDB () (by decide) (by decide)).2.1

/-- C4 fails as stated: the headers table holds an unchecked header at block 5 and one at
the largest `int64` block number, and `Start` is 10.  The first `Execute` succeeds on the
second header and `Start` wraps to the smallest `int64`; the second `Execute`, over the
same headers table, then processes the header of block 5 and calls `PersistLogs`. -/
theorem execute_idempotent_counterexample :
    (Execute (withHeaderRepo demoCollab) (demoTransformer 10) (edgeDB, ())).out = .ok ∧
    (Execute (withHeaderRepo demoCollab)
        ((Execute (withHeaderRepo demoCollab) (demoTransformer 10) (edgeDB, ())).transformer
          (demoTransformer 10))
        (Execute (withHeaderRepo demoCollab) (demoTransformer 10) (edgeDB, ())).world).out = .ok ∧
    Call.PersistLogs [⟨1, []⟩] ⟨"Transfer", "0xddf252ad"⟩ "0xaa" "" none ∈
      ((Execute (withHeaderRepo demoCollab)
        ((Execute (withHeaderRepo demoCollab) (demoTransformer 10) (edgeDB, ())).transformer
          (demoTransformer 10))
        (Execute (withHeaderRepo demoCollab) (demoTransformer 10) (edgeDB, ())).world).log.map
        Prod.snd).flatten := by
  decide

/-- C6 (as amended): among the calls `Execute` makes for one header `h`, every
`PollContractAt` call is made at the block of `h` after the event-id marker
`MarkHeaderCheckedForAll(h.id, eventIds)` was set, and a successful poll of a contract is
followed at once by the method-id marker of that contract; every marker is either the
event-id marker, set before any poll, or the method-id marker of the contract polled just
before it. -/
theorem marker_order (C : Collaborators W) (tr : Transformer) (w : W) (h : Header)
    (evs a b : List Call) (c : Call)
    (hmem : (h, evs) ∈ (Execute C tr w).log) (hsplit : evs = a ++ c :: b) :
    (∀ con bn e, c = Call.PollContractAt con bn e →
      bn = h.BlockNumber ∧ Call.MarkHeaderCheckedForAll h.ID tr.eventIds none ∈ a ∧
      (e = none → ∃ e1 b1, b = Call.MarkHeaderCheckedForAll h.ID
        (GoMap.getD tr.sortedMethodIds con.Address []) e1 :: b1)) ∧
    (∀ id ids e, c = Call.MarkHeaderCheckedForAll id ids e → id = h.ID ∧
      ((ids = tr.eventIds ∧ ∀ d ∈ a, d.isPollContractAt = false) ∨
        ∃ a1 con, a = a1 ++ [Call.PollContractAt con h.BlockNumber none] ∧
          ids = GoMap.getD tr.sortedMethodIds con.Address [])) := by
  obtain ⟨w1, htr⟩ := Execute_log_entry C tr w h evs hmem
  exact processHeader_around C tr h w1 a b c (htr.trans hsplit)

/-- Witness of C6 (as amended): the poll at the log-free header of block 6. -/
theorem marker_order_witness :
    Call.MarkHeaderCheckedForAll 2 ["transfer_0xaa"] none ∈
      [Call.FetchLogs ["0xaa"] ["0xddf252ad"] ⟨2, 6, "0xh6"⟩ [] none,
        Call.MarkHeaderCheckedForAll 2 ["transfer_0xaa"] none] :=
  ((marker_order (withHeaderRepo demoCollab) (demoTransformer 6) (demoDB, ()) ⟨2, 6, "0xh6"⟩
    ((processHeader (withHeaderRepo demoCollab) (demoTransformer 6) ⟨2, 6, "0xh6"⟩
      (demoDB, ())).trace)
    [Call.FetchLogs ["0xaa"] ["0xddf252ad"] ⟨2, 6, "0xh6"⟩ [] none,
      Call.MarkHeaderCheckedForAll 2 ["transfer_0xaa"] none]
    [Call.MarkHeaderCheckedForAll 2 ["balanceof_0xaa"] none]
    (Call.PollContractAt (demoContract "0xaa" 6) 6 none)
    (by decide) (by decide)).1 (demoContract "0xaa" 6) 6 none rfl).2.1

/-- C6 fails as stated: for the header of block 6 the calls are, in this order,
`FetchLogs`, the marker `MarkHeaderCheckedForAll(2, eventIds)`, `PollContractAt` at block 6,
and the method-id marker; a checked marker of the header is set before the poll. -/
theorem marker_order_counterexample :
    (Execute (withHeaderRepo demoCollab) (demoTransformer 6) (demoDB, ())).log =
      [(⟨2, 6, "0xh6"⟩,
        [Call.FetchLogs ["0xaa"] ["0xddf252ad"] ⟨2, 6, "0xh6"⟩ [] none,
          Call.MarkHeaderCheckedForAll 2 ["transfer_0xaa"] none,
          Call.PollContractAt (demoContract "0xaa" 6) 6 none,
          Call.MarkHeaderCheckedForAll 2 ["balanceof_0xaa"] none])] := by
  decide

/-- C7 (as amended): for every header `h` whose processing `Execute` finished without
error, `MarkHeaderCheckedForAll` was called for `h` with all event ids (`eventIds`) and with
the method ids (`sortedMethodIds[c.Address]`) of every contract `c` that has a method and
whose `StartingBlock` is not above `h.block_number`, and the loop left `h` with
`Start = h.block_number + 1` (in `int64` arithmetic). -/
theorem complete_marking (C : Collaborators W) (tr : Transformer) (w : W) (h : Header)
    (evs : List Call) (hmem : (h, evs) ∈ (Execute C tr w).log)
    (hdone : (Execute C tr w).out = .ok ∨ (Execute C tr w).log.getLast? ≠ some (h, evs)) :
    Call.MarkHeaderCheckedForAll h.ID tr.eventIds none ∈ evs ∧
    (∀ p ∈ tr.Contracts, p.2.Methods ≠ [] → p.2.StartingBlock ≤ h.BlockNumber →
      Call.MarkHeaderCheckedForAll h.ID (GoMap.getD tr.sortedMethodIds p.2.Address []) none ∈
        evs) ∧
    (∀ i : Nat, (Execute C tr w).log[i]? = some (h, evs) →
      (Execute C tr w).starts[i]? = some (wrapInt64 (h.BlockNumber + 1))) := by
  rcases Execute_cases C tr w with ⟨h0, -, -⟩ | ⟨w1, -, -, -, hlog, -, hout, -, -, hstarts⟩
  · rw [h0] at hmem; cases hmem
  rw [hlog] at hmem hdone
  rw [hout] at hdone
  rw [hlog, hstarts]
  have hmarks : OkRun C tr (h, evs) →
      Call.MarkHeaderCheckedForAll h.ID tr.eventIds none ∈ evs ∧
      (∀ p ∈ tr.Contracts, p.2.Methods ≠ [] → p.2.StartingBlock ≤ h.BlockNumber →
        Call.MarkHeaderCheckedForAll h.ID (GoMap.getD tr.sortedMethodIds p.2.Address []) none ∈
          evs) := by
    rintro ⟨w2, htr, hok⟩
    have := processHeader_ok_marks C tr h w2 hok
    simp only at htr
    rw [htr] at this
    exact ⟨this.1, fun p hp hm hs => (this.2 p hp hm hs).2⟩
  rcases headerLoop_cases C tr (C.MissingHeadersForAll w tr.Start (-1) tr.eventIds).2.1 w1 tr.Start
    with ⟨-, h2, h3, -, h5⟩ | ⟨pre, h1, w2, hl, hpre, -, hne, -, -, hst⟩
  · obtain ⟨m1, m2⟩ := hmarks (h3 _ hmem)
    refine ⟨m1, m2, ?_⟩
    intro i hi
    rw [h5, ← h2, List.map_map, List.getElem?_map, hi]
    rfl
  · have hlastne : (h, evs) ≠ (h1, (processHeader C tr h1 w2).trace) := by
      rcases hdone with hd | hd
      · exact absurd hd hne
      · intro heq
        apply hd
        rw [hl, heq]
        simp
    have hinpre : (h, evs) ∈ pre := by
      rw [hl, List.mem_append, List.mem_singleton] at hmem
      rcases hmem with hmem | hmem
      · exact hmem
      · exact absurd hmem hlastne
    obtain ⟨m1, m2⟩ := hmarks (hpre _ hinpre)
    refine ⟨m1, m2, ?_⟩
    intro i hi
    rw [hl] at hi
    rw [hst]
    have hlt : i < pre.length := by
      by_contra hge
      have hge : pre.length ≤ i := by omega
      rw [List.getElem?_append_right hge] at hi
      cases hk : i - pre.length with
      | zero =>
        rw [hk] at hi
        simp only [List.getElem?_cons_zero, Option.some.injEq] at hi
        exact hlastne hi.symm
      | succ k =>
        rw [hk] at hi
        simp at hi
    rw [List.getElem?_append_left hlt] at hi
    rw [List.getElem?_append_left (by simpa using hlt), List.getElem?_map, hi]
    rfl

/-- Witness of C7 (as amended): the header of block 6 under the single contract `0xaa`. -/
theorem complete_marking_witness :
    Call.MarkHeaderCheckedForAll 2 ["transfer_0xaa"] none ∈
      (processHeader (withHeaderRepo demoCollab) (demoTransformer 6) ⟨2, 6, "0xh6"⟩
        (demoDB, ())).trace :=
  (complete_marking (withHeaderRepo demoCollab) (demoTransformer 6) (demoDB, ()) ⟨2, 6, "0xh6"⟩
    ((processHeader (withHeaderRepo demoCollab) (demoTransformer 6) ⟨2, 6, "0xh6"⟩
      (demoDB, ())).trace)
    (by decide) (Or.inl (by decide))).1

/-- C7 fails as stated: contract `0xbb` is initialized with the method id
`balanceof_0xbb` and starting block 10; `Execute` finishes the headers of blocks 5 and 6
without error, and no `MarkHeaderCheckedForAll` call lists `balanceof_0xbb`. -/
theorem complete_marking_counterexample :
    GoMap.getD demoTransformer2.sortedMethodIds "0xbb" [] = ["balanceof_0xbb"] ∧
    (Execute (withHeaderRepo demoCollab) demoTransformer2 (demoDB, ())).out = .ok ∧
    (Execute (withHeaderRepo demoCollab) demoTransformer2 (demoDB, ())).log.map Prod.fst =
      [⟨1, 5, "0xh5"⟩, ⟨2, 6, "0xh6"⟩] ∧
    ∀ e ∈ (Execute (withHeaderRepo demoCollab) demoTransformer2 (demoDB, ())).log,
      ∀ d ∈ e.2, "balanceof_0xbb" ∉ d.markIds := by
  decide

/-! ## Init: the claims -/

/-- C8: when `Init` returns no error, for every configured address the contract `c` built
for it is stored under the address, `AddCheckColumn` was called successfully with
`lower(e.Name + "_" + c.Address)` for every event `e` and `lower(m.Name + "_" + c.Address)`
for every method `m` of `c`, and `sortedEventIds[c.Address]` and
`sortedMethodIds[c.Address]` hold exactly these ids, one entry per event and per method, in
the order in which the event map and the method map were enumerated. -/
theorem column_presence (C : Collaborators W) (tr : Transformer) (w : W)
    (hok : (Init C tr w).out = .ok) (addr : String)
    (hcfg : addr ∈ tr.Config.Addresses.map Prod.fst) :
    ∃ con t, List.lookup addr (Init C tr w).tr.Contracts = some con ∧ con.Address = addr ∧
      (addr, t) ∈ (Init C tr w).log ∧
      (∀ p ∈ con.Events, Call.AddCheckColumn (columnID p.2.Name con.Address) none ∈ t) ∧
      (∀ p ∈ con.Methods, Call.AddCheckColumn (columnID p.2.Name con.Address) none ∈ t) ∧
      (GoMap.getD (Init C tr w).tr.sortedEventIds con.Address []).Perm
        (con.Events.map (fun p => columnID p.2.Name con.Address)) ∧
      (GoMap.getD (Init C tr w).tr.sortedMethodIds con.Address []).Perm
        (con.Methods.map (fun p => columnID p.2.Name con.Address)) := by
  obtain ⟨t, ht, con, evs, ms, ret, err, pc, fc, g1, g2, -, -, g5, g6, g7, g8, g9, -, -⟩ :=
    Init_spec C tr w hok addr hcfg
  refine ⟨con, t, g1, g2, ht, ?_, ?_, ?_, ?_⟩
  · intro p hp
    have hp2 : p ∈ evs := g5.mem_iff.mpr hp
    rw [g9, g2]
    simp only [List.mem_cons, List.mem_append, List.mem_map]
    exact Or.inr (Or.inr (Or.inr (Or.inl ⟨p, hp2, rfl⟩)))
  · intro p hp
    have hp2 : p ∈ ms := g6.mem_iff.mpr hp
    rw [g9, g2]
    simp only [List.mem_cons, List.mem_append, List.mem_map]
    exact Or.inr (Or.inr (Or.inr (Or.inr ⟨p, hp2, rfl⟩)))
  · rw [g2, g7]
    exact g5.map _
  · rw [g2, g8]
    exact g6.map _

/-- Witness of C8: the contract built for `0xaa` in the two-contract configuration. -/
theorem column_presence_witness :
    ∃ con, List.lookup "0xaa"
        (Init (scripted demoResponses) (newTransformer demoConfig) ⟨"", []⟩).tr.Contracts =
          some con ∧
      (GoMap.getD (Init (scripted demoResponses) (newTransformer demoConfig)
          ⟨"", []⟩).tr.sortedEventIds con.Address []).Perm
        (con.Events.map (fun p => columnID p.2.Name con.Address)) :=
  match column_presence (scripted demoResponses) (newTransformer demoConfig) ⟨"", []⟩
    (by decide) "0xaa" (by decide) with
  | ⟨con, _, h1, _, _, _, _, h6, _⟩ => ⟨con, h1, h6⟩

/-- C10: when `Init` returns no error, for every configured address `a` the pass of the
loop for `a` called `RetrieveFirstBlock` exactly once, and the `StartingBlock` of the
contract stored under `a` is `max(f, Config.StartingBlocks[a])`, where `f` is the value that
call returned, taken as 0 when it signalled `sql.ErrNoRows`. -/
theorem starting_block_is_max (C : Collaborators W) (tr : Transformer) (w : W)
    (hok : (Init C tr w).out = .ok) (addr : String)
    (hcfg : addr ∈ tr.Config.Addresses.map Prod.fst) :
    ∃ con t ret err, List.lookup addr (Init C tr w).tr.Contracts = some con ∧
      (addr, t) ∈ (Init C tr w).log ∧
      t.filter Call.isRetrieveFirstBlock = [Call.RetrieveFirstBlock ret err] ∧
      (err = none ∨ err = some GoError.ErrNoRows) ∧
      con.StartingBlock =
        max (if err = some GoError.ErrNoRows then 0 else ret)
          (GoMap.getD tr.Config.StartingBlocks addr 0) := by
  obtain ⟨t, ht, con, evs, ms, ret, err, pc, fc, g1, -, g3, g4, -, -, -, -, g9, g10, g11⟩ :=
    Init_spec C tr w hok addr hcfg
  refine ⟨con, t, ret, err, g1, ht, ?_, g4, ?_⟩
  · have hcols : ∀ (l : List Call), (∀ d ∈ l, d.isRetrieveFirstBlock = false) →
        l.filter Call.isRetrieveFirstBlock = [] := by
      intro l hl
      apply List.filter_eq_nil_iff.mpr
      intro d hd
      rw [hl d hd]
      simp
    have hrest : (List.map (fun p => Call.AddCheckColumn (columnID p.2.Name addr) none) evs ++
        List.map (fun p => Call.AddCheckColumn (columnID p.2.Name addr) none) ms).filter
          Call.isRetrieveFirstBlock = [] := by
      apply hcols
      intro d hd
      simp only [List.mem_append, List.mem_map] at hd
      rcases hd with ⟨p, -, rfl⟩ | ⟨p, -, rfl⟩ <;> rfl
    rw [g9, List.filter_cons_of_neg (by rw [g10]; simp), List.filter_cons_of_pos rfl,
      List.filter_cons_of_neg (by rw [g11]; simp), hrest]
  · rw [g3, firstBlockFor_eq_max]

/-- Witness of C10: the contract built for `0xbb`, configured from block 10, with the
headers table starting at block 3. -/
theorem starting_block_is_max_witness :
    ∃ con ret err, List.lookup "0xbb"
        (Init (scripted demoResponses) (newTransformer demoConfig) ⟨"", []⟩).tr.Contracts =
          some con ∧
      con.StartingBlock =
        max (if err = some GoError.ErrNoRows then 0 else ret)
          (GoMap.getD (newTransformer demoConfig).Config.StartingBlocks "0xbb" 0) :=
  match starting_block_is_max (scripted demoResponses) (newTransformer demoConfig) ⟨"", []⟩
    (by decide) "0xbb" (by decide) with
  | ⟨con, _, ret, err, h1, _, _, _, h5⟩ => ⟨con, ret, err, h1, h5⟩

/-- C9 (as amended): for two successful runs of `Init` on the same configuration with
collaborators whose answers depend only on the arguments of the call, under any two
enumeration orders of the maps: `Start` is the same, every address has the same contract
in `Contracts`, and `contractAddresses`, `eventIds`, `eventFilters` and each
`sortedEventIds[a]`, `sortedMethodIds[a]` hold the same entries, in an order that follows
the enumeration order of the maps. -/
theorem init_order_independent (R : Responses) (tr : Transformer) (src : String)
    (o1 o2 : List (List Nat))
    (hok1 : (Init (scripted R) tr ⟨src, o1⟩).out = .ok)
    (hok2 : (Init (scripted R) tr ⟨src, o2⟩).out = .ok) :
    (Init (scripted R) tr ⟨src, o1⟩).tr.Start = (Init (scripted R) tr ⟨src, o2⟩).tr.Start ∧
    (Init (scripted R) tr ⟨src, o1⟩).tr.contractAddresses.Perm
      (Init (scripted R) tr ⟨src, o2⟩).tr.contractAddresses ∧
    (Init (scripted R) tr ⟨src, o1⟩).tr.eventIds.Perm
      (Init (scripted R) tr ⟨src, o2⟩).tr.eventIds ∧
    (Init (scripted R) tr ⟨src, o1⟩).tr.eventFilters.Perm
      (Init (scripted R) tr ⟨src, o2⟩).tr.eventFilters ∧
    ∀ addr,
      List.lookup addr (Init (scripted R) tr ⟨src, o1⟩).tr.Contracts =
        List.lookup addr (Init (scripted R) tr ⟨src, o2⟩).tr.Contracts ∧
      (GoMap.getD (Init (scripted R) tr ⟨src, o1⟩).tr.sortedEventIds addr []).Perm
        (GoMap.getD (Init (scripted R) tr ⟨src, o2⟩).tr.sortedEventIds addr []) ∧
      (GoMap.getD (Init (scripted R) tr ⟨src, o1⟩).tr.sortedMethodIds addr []).Perm
        (GoMap.getD (Init (scripted R) tr ⟨src, o2⟩).tr.sortedMethodIds addr []) := by
  -- the two visiting orders of the configured addresses
  have hperm : ∀ o : List (List Nat),
      (rangeMap (scripted R) ⟨src, o⟩ tr.Config.Addresses).2.Perm tr.Config.Addresses :=
    fun o => shuffle_perm _ _
  have h12 := (hperm o1).trans (hperm o2).symm
  have hl1 := scripted_initLoop R _ _ _ hok1
  have hl2 := scripted_initLoop R _ _ _ hok2
  have hg1 := initLoop_spec (scripted R) _ _ _ hok1
  have hg2 := initLoop_spec (scripted R) _ _ _ hok2
  simp only [Init] at *
  obtain ⟨a1, a2, a3, a4, a5⟩ := hl1
  obtain ⟨b1, b2, b3, b4, b5⟩ := hl2
  obtain ⟨-, c2, c3⟩ := hg1
  obtain ⟨-, d2, d3⟩ := hg2
  refine ⟨?_, ?_, ?_, ?_, ?_⟩
  · rw [a2, b2]
    exact List.Perm.foldl_eq' h12 (fun x _ y _ z => lowerStart_comm z _ _) _
  · rw [a1, b1]
    exact (List.Perm.refl _).append (h12.map _)
  · exact a3.trans (((List.Perm.refl _).append (h12.flatMap_right _)).trans b3.symm)
  · exact a4.trans (((List.Perm.refl _).append (h12.flatMap_right _)).trans b4.symm)
  · intro addr
    by_cases hmem : addr ∈ tr.Config.Addresses.map Prod.fst
    · have m1 : addr ∈ (rangeMap (scripted R) ⟨src, o1⟩ tr.Config.Addresses).2.map Prod.fst :=
        ((hperm o1).map _).mem_iff.mpr hmem
      have m2 : addr ∈ (rangeMap (scripted R) ⟨src, o2⟩ tr.Config.Addresses).2.map Prod.fst :=
        ((hperm o2).map _).mem_iff.mpr hmem
      obtain ⟨t1, -, con1, evs1, ms1, -, -, -, -, e1, -, -, -, e5, e6, e7, e8, -, -, -⟩ :=
        c3 addr m1
      obtain ⟨t2, -, con2, evs2, ms2, -, -, -, -, f1, -, -, -, f5, f6, f7, f8, -, -, -⟩ :=
        d3 addr m2
      have hc1 : con1 = builtContract R tr.Config addr := by
        have := a5 addr m1
        simp only at this
        rw [e1] at this
        exact Option.some.inj this
      have hc2 : con2 = builtContract R tr.Config addr := by
        have := b5 addr m2
        simp only at this
        rw [f1] at this
        exact Option.some.inj this
      refine ⟨?_, ?_, ?_⟩
      · rw [e1, f1, hc1, hc2]
      · rw [e7, f7]
        exact (e5.trans (by rw [hc1, ← hc2]; exact f5.symm)).map _
      · rw [e8, f8]
        exact (e6.trans (by rw [hc1, ← hc2]; exact f6.symm)).map _
    · have m1 : addr ∉ (rangeMap (scripted R) ⟨src, o1⟩ tr.Config.Addresses).2.map Prod.fst :=
        fun h => hmem (((hperm o1).map _).mem_iff.mp h)
      have m2 : addr ∉ (rangeMap (scripted R) ⟨src, o2⟩ tr.Config.Addresses).2.map Prod.fst :=
        fun h => hmem (((hperm o2).map _).mem_iff.mp h)
      obtain ⟨x1, x2, x3⟩ := c2 addr m1
      obtain ⟨y1, y2, y3⟩ := d2 addr m2
      refine ⟨x1.trans y1.symm, ?_, ?_⟩
      · simp only [GoMap.getD, x2, y2]
        exact List.Perm.refl _
      · simp only [GoMap.getD, x3, y3]
        exact List.Perm.refl _

/-- Witness of C9 (as amended): the two-contract configuration under the stored order and
under the order that visits `0xbb` first. -/
theorem init_order_independent_witness :
    (Init (scripted demoResponses) (newTransformer demoConfig) ⟨"", []⟩).tr.Start =
      (Init (scripted demoResponses) (newTransformer demoConfig) ⟨"", [[1]]⟩).tr.Start :=
  (init_order_independent demoResponses (newTransformer demoConfig) "" [] [[1]]
    (by decide) (by decide)).1

/-- C9 fails as stated: the same configuration and the same collaborator answers, once
with the address map enumerated as `0xaa, 0xbb` and once as `0xbb, 0xaa`; both runs of
`Init` succeed and `contractAddresses`, `eventIds` and `eventFilters` differ. -/
theorem init_order_independent_counterexample :
    (Init (scripted demoResponses) (newTransformer demoConfig) ⟨"", []⟩).out = .ok ∧
    (Init (scripted demoResponses) (newTransformer demoConfig) ⟨"", [[1]]⟩).out = .ok ∧
    (Init (scripted demoResponses) (newTransformer demoConfig) ⟨"", []⟩).tr.contractAddresses =
      ["0xaa", "0xbb"] ∧
    (Init (scripted demoResponses) (newTransformer demoConfig) ⟨"", [[1]]⟩).tr.contractAddresses =
      ["0xbb", "0xaa"] ∧
    (Init (scripted demoResponses) (newTransformer demoConfig) ⟨"", []⟩).tr.eventIds =
      ["transfer_0xaa", "approval_0xaa", "transfer_0xbb"] ∧
    (Init (scripted demoResponses) (newTransformer demoConfig) ⟨"", [[1]]⟩).tr.eventIds =
      ["transfer_0xbb", "transfer_0xaa", "approval_0xaa"] ∧
    (Init (scripted demoResponses) (newTransformer demoConfig) ⟨"", []⟩).tr.eventFilters ≠
      (Init (scripted demoResponses) (newTransformer demoConfig) ⟨"", [[1]]⟩).tr.eventFilters := by
  decide

/-! ## Init and Execute: more claims -/

/-- C11: after a successful `Init` (the configured address map having distinct keys),
`Start` is the minimum of `MaxInt64` and the `StartingBlock` of the contracts built: it is
at most `MaxInt64` and at most the `StartingBlock` of every contract stored for a
configured address, and it equals `MaxInt64` or one of these starting blocks; with an
empty address configuration `Start` is `MaxInt64`. -/
theorem start_is_minimum (C : Collaborators W) (tr : Transformer) (w : W)
    (hnodup : (tr.Config.Addresses.map Prod.fst).Nodup)
    (hok : (Init C tr w).out = .ok) :
    (Init C tr w).tr.Start ≤ MaxInt64 ∧
    (∀ a ∈ tr.Config.Addresses.map Prod.fst, ∀ con,
      List.lookup a (Init C tr w).tr.Contracts = some con →
        (Init C tr w).tr.Start ≤ con.StartingBlock) ∧
    ((Init C tr w).tr.Start = MaxInt64 ∨
      ∃ a ∈ tr.Config.Addresses.map Prod.fst, ∃ con,
        List.lookup a (Init C tr w).tr.Contracts = some con ∧
        (Init C tr w).tr.Start = con.StartingBlock) ∧
    (tr.Config.Addresses = [] → (Init C tr w).tr.Start = MaxInt64) := by
  have hperm : ((rangeMap C w tr.Config.Addresses).2.map Prod.fst).Perm
      (tr.Config.Addresses.map Prod.fst) := (shuffle_perm _ _).map _
  unfold Init at hok ⊢
  obtain ⟨h1, h2, h3⟩ := initLoop_start C _ _ _ hok
  simp only at h1 h2 h3
  have h3a := h3 (hperm.nodup_iff.mpr hnodup)
  have hthird : (initLoop C (rangeMap C w tr.Config.Addresses).2
      (rangeMap C w tr.Config.Addresses).1
      { tr with contractAddresses := [], sortedEventIds := [], sortedMethodIds := [],
                eventIds := [], eventFilters := [], Start := MaxInt64 }).tr.Start = MaxInt64 ∨
      ∃ a ∈ tr.Config.Addresses.map Prod.fst, ∃ con,
        List.lookup a (initLoop C (rangeMap C w tr.Config.Addresses).2
          (rangeMap C w tr.Config.Addresses).1
          { tr with contractAddresses := [], sortedEventIds := [], sortedMethodIds := [],
                    eventIds := [], eventFilters := [], Start := MaxInt64 }).tr.Contracts =
            some con ∧
        (initLoop C (rangeMap C w tr.Config.Addresses).2
          (rangeMap C w tr.Config.Addresses).1
          { tr with contractAddresses := [], sortedEventIds := [], sortedMethodIds := [],
                    eventIds := [], eventFilters := [], Start := MaxInt64 }).tr.Start =
            con.StartingBlock := by
    rcases h3a with h | ⟨a, ha, con, g1, g2⟩
    · exact Or.inl h
    · exact Or.inr ⟨a, hperm.mem_iff.mp ha, con, g1, g2⟩
  refine ⟨h1, ?_, hthird, ?_⟩
  · intro a ha con hcon
    exact h2 a (hperm.mem_iff.mpr ha) con hcon
  · intro hempty
    rcases hthird with h | ⟨a, ha, -⟩
    · exact h
    · rw [hempty] at ha
      cases ha

/-- C12: when `RetrieveFirstBlock` answers `sql.ErrNoRows` in the pass of `Init` for an
address, the pass goes on (it calls `name()` next and then only adds check columns) and the
contract it stores has `StartingBlock = max(0, Config.StartingBlocks[a])`, so 0 is used as
the first block; when it answers any other error, that call is the last one and `Init`
returns the error `error retrieving first block: ...`. -/
theorem first_block_error_translation (C : Collaborators W) (tr : Transformer) (w : W)
    (addr : String) (t : List Call) (ret : Int) (e : GoError)
    (hmem : (addr, t) ∈ (Init C tr w).log)
    (hcall : Call.RetrieveFirstBlock ret (some e) ∈ t) :
    (e = GoError.ErrNoRows →
      ∃ w1 tr1 abi name perr cols con, tr1.Config = tr.Config ∧
        (initContract C addr w1 tr1).trace = t ∧
        t = parseCallOf tr.Config addr none :: Call.RetrieveFirstBlock ret (some e) ::
          Call.FetchContractData abi addr "name" none (-1) name perr :: cols ∧
        (∀ d ∈ cols, d.isAddCheckColumn = true) ∧
        ColumnsEnd cols (initContract C addr w1 tr1).out ∧
        List.lookup addr (initContract C addr w1 tr1).tr.Contracts = some con ∧
        con.StartingBlock = max 0 (GoMap.getD tr.Config.StartingBlocks addr 0)) ∧
    (e ≠ GoError.ErrNoRows →
      (Init C tr w).out = .error ("error retrieving first block: " ++ e.Error) ∧
      t = [parseCallOf tr.Config addr none, Call.RetrieveFirstBlock ret (some e)] ∧
      (Init C tr w).log.getLast? = some (addr, t)) := by
  obtain ⟨w1, tr1, hcfg, htr, hend⟩ := Init_entry C tr w addr t hmem
  obtain ⟨-, hshape⟩ := initContract_shape C addr w1 tr1
  rw [hcfg] at hshape
  rcases hshape with ⟨e1, h1, -, -⟩ | ⟨ret1, e1, hne, h1, hout, -⟩ |
    ⟨ret1, err1, abi, name, perr, cols, con, herr, h1, hcols, hce, hl, -, -, hsb, -⟩
  · exfalso
    rw [htr] at h1
    rw [h1, List.mem_singleton] at hcall
    have := parseCallOf_not_retrieve tr.Config addr (some e1)
    rw [← hcall] at this
    simp [Call.isRetrieveFirstBlock] at this
  · rw [htr] at h1
    have heq : ret = ret1 ∧ e = e1 := by
      rw [h1] at hcall
      simp only [List.mem_cons, List.mem_singleton, List.not_mem_nil, or_false] at hcall
      rcases hcall with hcall | hcall
      · have := parseCallOf_not_retrieve tr.Config addr none
        rw [← hcall] at this
        simp [Call.isRetrieveFirstBlock] at this
      · simpa using hcall
    obtain ⟨rfl, rfl⟩ := heq
    constructor
    · intro he; exact absurd he hne
    · intro _
      rcases hend with hok | ⟨hlast, ho, -⟩
      · rw [hout] at hok; cases hok
      · exact ⟨ho.trans hout, h1, hlast⟩
  · rw [htr] at h1
    have heq : ret = ret1 ∧ some e = err1 := by
      rw [h1] at hcall
      simp only [List.mem_cons] at hcall
      rcases hcall with hcall | hcall | hcall | hcall
      · have := parseCallOf_not_retrieve tr.Config addr none
        rw [← hcall] at this
        simp [Call.isRetrieveFirstBlock] at this
      · simpa using hcall
      · cases hcall
      · exact absurd hcall (columns_not_retrieve cols hcols _ _)
    obtain ⟨rfl, rfl⟩ := heq
    have hErr : e = GoError.ErrNoRows := by
      rcases herr with h | h
      · cases h
      · exact Option.some.inj h
    constructor
    · intro _
      refine ⟨w1, tr1, abi, name, perr, cols, con, hcfg, htr, h1, hcols, hce, hl, ?_⟩
      rw [hsb, firstBlockFor_eq_max, hErr]
      simp
    · intro hne; exact absurd hErr hne

/-- C13: when the parser call of the pass of `Init` for an address fails (`Parse` for an
address without configured ABI, `ParseAbiStr` for one with a configured ABI), that call is
the only call of the pass, so no `AddCheckColumn` call is made in it, the pass is the last
one, and `Init` returns an error. -/
theorem abi_failure_aborts (C : Collaborators W) (tr : Transformer) (w : W)
    (addr : String) (t : List Call) (c : Call)
    (hmem : (addr, t) ∈ (Init C tr w).log) (hc : c ∈ t)
    (hkind : c.isParse = true ∨ c.isParseAbiStr = true) (hfail : c.failed = true) :
    (∃ e, c = parseCallOf tr.Config addr (some e) ∧
      (Init C tr w).out = .error (parseErrorOf tr.Config addr e)) ∧
    t = [c] ∧
    (∀ d ∈ t, d.isAddCheckColumn = false) ∧
    (Init C tr w).log.getLast? = some (addr, t) := by
  obtain ⟨w1, tr1, hcfg, htr, hend⟩ := Init_entry C tr w addr t hmem
  obtain ⟨-, hshape⟩ := initContract_shape C addr w1 tr1
  rw [hcfg] at hshape
  have hnone : c ≠ parseCallOf tr.Config addr none := by
    intro h
    rw [h] at hfail
    unfold parseCallOf at hfail
    split at hfail <;> simp [Call.failed, Call.err] at hfail
  rcases hshape with ⟨e1, h1, hout, -⟩ | ⟨ret1, e1, hne, h1, hout, -⟩ |
    ⟨ret1, err1, abi, name, perr, cols, con, herr, h1, hcols, -, -, -, -, -, -⟩
  · rw [htr] at h1
    rw [h1, List.mem_singleton] at hc
    subst hc
    rcases hend with hok | ⟨hlast, ho, -⟩
    · rw [hout] at hok; cases hok
    · refine ⟨⟨e1, rfl, ho.trans hout⟩, h1, ?_, hlast⟩
      intro d hd
      rw [h1, List.mem_singleton] at hd
      rw [hd]
      exact parseCallOf_not_column _ _ _
  · exfalso
    rw [htr] at h1
    rw [h1] at hc
    simp only [List.mem_cons, List.mem_singleton, List.not_mem_nil, or_false] at hc
    rcases hc with hc | hc
    · exact hnone hc
    · rw [hc] at hkind
      simp [Call.isParse, Call.isParseAbiStr] at hkind
  · exfalso
    rw [htr] at h1
    rw [h1] at hc
    simp only [List.mem_cons] at hc
    rcases hc with hc | hc | hc | hc
    · exact hnone hc
    · rw [hc] at hkind
      simp [Call.isParse, Call.isParseAbiStr] at hkind
    · rw [hc] at hkind
      simp [Call.isParse, Call.isParseAbiStr] at hkind
    · have := hcols c hc
      cases c <;> simp [Call.isParse, Call.isParseAbiStr, Call.isAddCheckColumn] at hkind this

/-- C14 (as amended): `Init` returns an error only when a collaborator call returned one:
the last call of the last pass is a failed `Parse` or `ParseAbiStr`, a `RetrieveFirstBlock`
that failed with an error other than `sql.ErrNoRows`, or a failed `AddCheckColumn`, and the
error of `Init` is built from the error of that call; what `GetEvents` and
`GetSelectMethods` return for the configured names never makes `Init` fail.  After a
successful `Init` the contract of every configured address has as `Events` and `Methods`
what `GetEvents` and `GetSelectMethods` returned for the configured names, and every check
column added in the pass of the address is the column of one of these events or methods.
With the parser of the specification, which selects by name from the events and methods of
the ABI, every event and method of the contract and every check column therefore belongs
to an event or method of the ABI: a configured name that does not occur in the ABI is
absent and gets no column. -/
theorem init_error_sources (C : Collaborators W) (tr : Transformer) (w : W) :
    ((Init C tr w).out = .ok ∨
      ∃ addr t c e, (Init C tr w).log.getLast? = some (addr, t) ∧ t.getLast? = some c ∧
        c.err = some e ∧
        (((c.isParse = true ∨ c.isParseAbiStr = true) ∧
            (Init C tr w).out = .error (parseErrorOf tr.Config addr e)) ∨
          (c.isRetrieveFirstBlock = true ∧ e ≠ GoError.ErrNoRows ∧
            (Init C tr w).out = .error ("error retrieving first block: " ++ e.Error)) ∨
          (c.isAddCheckColumn = true ∧
            (Init C tr w).out = .error ("error adding check column: " ++ e.Error)))) ∧
    ((Init C tr w).out = .ok → ∀ addr ∈ tr.Config.Addresses.map Prod.fst,
      ∃ t con w2, (addr, t) ∈ (Init C tr w).log ∧
        List.lookup addr (Init C tr w).tr.Contracts = some con ∧
        con.Events = C.GetEvents w2 (GoMap.getD tr.Config.Events addr []) ∧
        con.Methods = C.GetSelectMethods w2 (GoMap.getD tr.Config.Methods addr []) ∧
        (∀ id e, Call.AddCheckColumn id e ∈ t →
          (∃ p ∈ con.Events, id = columnID p.2.Name addr) ∨
            (∃ p ∈ con.Methods, id = columnID p.2.Name addr))) ∧
    (∀ (abiEvents : W → List Event) (abiMethods : W → List Method),
      (∀ w1 names, C.GetEvents w1 names = specGetEvents (abiEvents w1) names) →
      (∀ w1 names, C.GetSelectMethods w1 names = specGetSelectMethods (abiMethods w1) names) →
      (Init C tr w).out = .ok → ∀ addr ∈ tr.Config.Addresses.map Prod.fst,
      ∃ t con w2, (addr, t) ∈ (Init C tr w).log ∧
        List.lookup addr (Init C tr w).tr.Contracts = some con ∧
        (∀ p ∈ con.Events, p.2 ∈ abiEvents w2 ∧ p.1 = p.2.Name ∧
          (GoMap.getD tr.Config.Events addr [] = [] ∨
            p.1 ∈ GoMap.getD tr.Config.Events addr [])) ∧
        (∀ p ∈ con.Methods, p.2 ∈ abiMethods w2 ∧ p.1 = p.2.Name ∧
          p.1 ∈ GoMap.getD tr.Config.Methods addr []) ∧
        (∀ id e, Call.AddCheckColumn id e ∈ t →
          (∃ ev ∈ abiEvents w2, id = columnID ev.Name addr) ∨
            (∃ m ∈ abiMethods w2, id = columnID m.Name addr))) := by
  refine ⟨Init_error_cases C tr w, fun hok addr ha => Init_detail C tr w hok addr ha, ?_⟩
  intro abiEvents abiMethods hev hme hok addr ha
  obtain ⟨t, con, w2, h1, h2, h3, h4, h5⟩ := Init_detail C tr w hok addr ha
  rw [hev] at h3
  rw [hme] at h4
  have hE : ∀ p ∈ con.Events, p.2 ∈ abiEvents w2 ∧ p.1 = p.2.Name ∧
      (GoMap.getD tr.Config.Events addr [] = [] ∨
        p.1 ∈ GoMap.getD tr.Config.Events addr []) := by
    intro p hp
    rw [h3] at hp
    exact specGetEvents_names _ _ p hp
  have hM : ∀ p ∈ con.Methods, p.2 ∈ abiMethods w2 ∧ p.1 = p.2.Name ∧
      p.1 ∈ GoMap.getD tr.Config.Methods addr [] := by
    intro p hp
    rw [h4] at hp
    exact specGetSelectMethods_names _ _ p hp
  refine ⟨t, con, w2, h1, h2, hE, hM, ?_⟩
  intro id e hmem
  rcases h5 id e hmem with ⟨p, hp, hid⟩ | ⟨p, hp, hid⟩
  · exact Or.inl ⟨p.2, (hE p hp).1, hid⟩
  · exact Or.inr ⟨p.2, (hM p hp).1, hid⟩

/-- C15 (as amended): when the `name()` call of the pass of `Init` for an address returns an
error, the call was made for that address with method `name`, no arguments and block
number -1, the pass goes on with the check columns (it ends without error or on a failed
`AddCheckColumn`), and the contract it stores has as its `Name` what the call left in the
result variable.  When the poller hands the call to `Fetcher.FetchContractData`, that is
the empty string, unless the failing step was the final `Unpack` and it wrote the
variable. -/
theorem contract_name_best_effort (C : Collaborators W) (tr : Transformer) (w : W)
    (addr : String) (t : List Call) (abi a m : String) (args : Option (List String))
    (bn : Int) (name : String) (e : GoError)
    (hmem : (addr, t) ∈ (Init C tr w).log)
    (hcall : Call.FetchContractData abi a m args bn name (some e) ∈ t) :
    a = addr ∧ m = "name" ∧ args = none ∧ bn = -1 ∧
    (∃ w1 tr1 w2 ret err cols con, tr1.Config = tr.Config ∧
      (initContract C addr w1 tr1).trace = t ∧
      t = parseCallOf tr.Config addr none :: Call.RetrieveFirstBlock ret err ::
        Call.FetchContractData abi addr "name" none (-1) name (some e) :: cols ∧
      abi = C.Abi w2 ∧
      (C.FetchContractData w2 abi addr "name" none (-1)).2 = (name, some e) ∧
      (∀ d ∈ cols, d.isAddCheckColumn = true) ∧
      ColumnsEnd cols (initContract C addr w1 tr1).out ∧
      List.lookup addr (initContract C addr w1 tr1).tr.Contracts = some con ∧
      con.Name = name) ∧
    (∀ (L : AbiLib) (client : EthClient W), C.FetchContractData = pollerFetch L client →
      name = "" ∨ ∃ parsed output, L.ParseAbi abi = (parsed, none) ∧
        L.Unpack parsed "" "name" output = (name, some e)) := by
  obtain ⟨w1, tr1, hcfg, htr, -⟩ := Init_entry C tr w addr t hmem
  obtain ⟨-, hshape⟩ := initContract_shape C addr w1 tr1
  rw [hcfg] at hshape
  have hcall1 := hcall
  rw [← htr] at hcall1
  obtain ⟨w2, habi, htie⟩ := initContract_name_call C addr w1 tr1 abi a m args bn name (some e)
    hcall1
  have hpc : ∀ err, Call.FetchContractData abi a m args bn name (some e) ≠
      parseCallOf tr.Config addr err := by
    intro err h
    unfold parseCallOf at h
    split at h <;> cases h
  have hfetch : ∀ (L : AbiLib) (client : EthClient W), C.FetchContractData = pollerFetch L client →
      name = "" ∨ ∃ parsed output, L.ParseAbi abi = (parsed, none) ∧
        L.Unpack parsed "" "name" output = (name, some e) := by
    intro L client hC
    rw [hC] at htie
    unfold pollerFetch at htie
    simp only [Prod.mk.injEq] at htie
    obtain ⟨h1, h2⟩ := htie
    have hne : (Fetcher.FetchContractData L client w2 abi addr "name" none "" (-1)).err ≠ none := by
      rw [h2]; simp
    rcases Fetcher_result_untouched L client w2 abi addr "name" none "" (-1) hne with h | h
    · left
      rw [← h1, h]
    · right
      obtain ⟨parsed, output, g1, g2⟩ := h
      rw [h1, h2] at g2
      exact ⟨parsed, output, g1, g2⟩
  rcases hshape with ⟨e1, h1, -, -⟩ | ⟨ret1, e1, -, h1, -, -⟩ |
    ⟨ret1, err1, abi1, name1, perr, cols, con, -, h1, hcols, hce, hl, hn, -, -, -⟩
  · exfalso
    rw [htr] at h1
    rw [h1, List.mem_singleton] at hcall
    exact hpc _ hcall
  · exfalso
    rw [htr] at h1
    rw [h1] at hcall
    simp only [List.mem_cons, List.mem_singleton, List.not_mem_nil, or_false] at hcall
    rcases hcall with hcall | hcall
    · exact hpc _ hcall
    · cases hcall
  · rw [htr] at h1
    have heq : Call.FetchContractData abi a m args bn name (some e) =
        Call.FetchContractData abi1 addr "name" none (-1) name1 perr := by
      rw [h1] at hcall
      simp only [List.mem_cons] at hcall
      rcases hcall with hcall | hcall | hcall | hcall
      · exact absurd hcall (hpc _)
      · cases hcall
      · exact hcall
      · have := hcols _ hcall
        simp [Call.isAddCheckColumn] at this
    cases heq
    exact ⟨rfl, rfl, rfl, rfl,
      ⟨w1, tr1, w2, ret1, err1, cols, con, hcfg, htr, h1, habi, htie, hcols, hce, hl, hn⟩, hfetch⟩

/-- C17: for a header `h` for which `FetchLogs` answered no log and whose processing
ended without error, the calls `Execute` made are exactly `FetchLogs`, then
`MarkHeaderCheckedForAll(h.id, eventIds)`, then the calls of method polling at `h`; there is
no `ConvertBatch` and no `PersistLogs` call; and the loop left `h` with
`Start = h.block_number + 1`. -/
theorem no_match_header (C : Collaborators W) (tr : Transformer) (w : W) (h : Header)
    (evs : List Call) (addrs topics : List String) (h1 : Header) (e : Option GoError)
    (hmem : (h, evs) ∈ (Execute C tr w).log)
    (hfetch : Call.FetchLogs addrs topics h1 [] e ∈ evs)
    (hdone : (Execute C tr w).out = .ok ∨ (Execute C tr w).log.getLast? ≠ some (h, evs)) :
    (∃ w1, evs = Call.FetchLogs tr.contractAddresses tr.eventFilters h [] none ::
        Call.MarkHeaderCheckedForAll h.ID tr.eventIds none ::
          (methodPolling C tr h tr.sortedMethodIds w1).trace ∧
      (methodPolling C tr h tr.sortedMethodIds w1).out = .ok) ∧
    (∀ d ∈ evs, d.isConvertBatch = false ∧ d.isPersistLogs = false) ∧
    (∀ i : Nat, (Execute C tr w).log[i]? = some (h, evs) →
      (Execute C tr w).starts[i]? = some (wrapInt64 (h.BlockNumber + 1))) := by
  obtain ⟨⟨w0, htr, hok⟩, hstart⟩ := Execute_done_entry C tr w h evs hmem hdone
  simp only at htr hok
  rw [← htr] at hfetch
  obtain ⟨w1, hshape, hpoll⟩ := processHeader_no_logs C tr h w0 addrs topics h1 e hfetch hok
  rw [htr] at hshape
  refine ⟨⟨w1, hshape, hpoll⟩, ?_, hstart⟩
  intro d hd
  rw [hshape] at hd
  simp only [List.mem_cons] at hd
  rcases hd with rfl | rfl | hd
  · exact ⟨rfl, rfl⟩
  · exact ⟨rfl, rfl⟩
  · have := pollContracts_markPhase C tr.sortedMethodIds h _ _ d hd
    cases d <;> simp [Call.isMarkPhase, Call.isConvertBatch, Call.isPersistLogs] at this ⊢

/-- C19: `methodPolling` at a header polls only contracts of `Contracts` that have a
method and whose `StartingBlock` is not above the header, at the block of the header; when
it returns no error it has polled every such contract; every successful poll of a contract
`c` is followed at once by `MarkHeaderCheckedForAll(h.id, sortedMethodIds[c.Address])`; and
a failed call is the last call, so no contract is polled after a failure.  The logs of the
header are no input of `methodPolling`. -/
theorem method_polling_rule (C : Collaborators W) (tr : Transformer) (h : Header)
    (smi : GoMap (List String)) (w : W) :
    (∀ con bn e, Call.PollContractAt con bn e ∈ (methodPolling C tr h smi w).trace →
      bn = h.BlockNumber ∧ (∃ k, (k, con) ∈ tr.Contracts) ∧ con.Methods ≠ [] ∧
        con.StartingBlock ≤ h.BlockNumber) ∧
    ((methodPolling C tr h smi w).out = .ok →
      ∀ p ∈ tr.Contracts, p.2.Methods ≠ [] → p.2.StartingBlock ≤ h.BlockNumber →
        Call.PollContractAt p.2 h.BlockNumber none ∈ (methodPolling C tr h smi w).trace ∧
        Call.MarkHeaderCheckedForAll h.ID (GoMap.getD smi p.2.Address []) none ∈
          (methodPolling C tr h smi w).trace) ∧
    (∀ a b con bn, (methodPolling C tr h smi w).trace = a ++ Call.PollContractAt con bn none :: b →
      ∃ e1 b1, b = Call.MarkHeaderCheckedForAll h.ID (GoMap.getD smi con.Address []) e1 :: b1) ∧
    (∀ c ∈ (methodPolling C tr h smi w).trace.dropLast, c.failed = false) := by
  unfold methodPolling
  refine ⟨?_, ?_, ?_, ?_⟩
  · intro con bn e hc
    obtain ⟨h1, ⟨k, h2⟩, h3, h4⟩ := pollContracts_eligible C smi h _ _ con bn e hc
    exact ⟨h1, ⟨k, (mem_rangeMap C w tr.Contracts (k, con)).mp h2⟩, h3, h4⟩
  · intro hok p hp hm hs
    exact pollContracts_ok C smi h _ _ hok p ((mem_rangeMap C w tr.Contracts p).mpr hp) hm hs
  · intro a b con bn htr
    exact ((pollContracts_split C smi h _ _ a b _ htr).1 con bn none rfl).2 rfl
  · exact (pollContracts_only_last_fails C smi h _ _).1

/-- C16: `Execute` on a transformer with no contract returns the error
`error: transformer has no initialized contracts`, makes no collaborator call, and leaves
the world and `Start` as they were. -/
theorem execute_without_contracts (C : Collaborators W) (tr : Transformer) (w : W)
    (hempty : tr.Contracts = []) :
    Execute C tr w =
      ⟨w, tr.Start, [], [], [], .error "error: transformer has no initialized contracts"⟩ := by
  unfold Execute
  rw [if_pos (by rw [hempty]; rfl)]

/-- Witness of C11: the two-contract configuration, first block 3: `Start` is 3. -/
theorem start_is_minimum_witness :
    (Init (scripted demoResponses) (newTransformer demoConfig) ⟨"", []⟩).tr.Start = MaxInt64 ∨
      ∃ a ∈ (newTransformer demoConfig).Config.Addresses.map Prod.fst, ∃ con,
        List.lookup a
          (Init (scripted demoResponses) (newTransformer demoConfig) ⟨"", []⟩).tr.Contracts =
            some con ∧
        (Init (scripted demoResponses) (newTransformer demoConfig) ⟨"", []⟩).tr.Start =
          con.StartingBlock :=
  (start_is_minimum (scripted demoResponses) (newTransformer demoConfig) ⟨"", []⟩
    (by decide) (by decide)).2.2.1

/-- Witness of C12: the headers table is empty and contract `0xaa` is configured from
block 0; its pass goes on and stores a contract with starting block `max(0, 0)`. -/
theorem first_block_error_translation_witness :
    ∃ con : Contract,
      con.StartingBlock = max 0 (GoMap.getD (newTransformer demoConfig).Config.StartingBlocks "0xaa" 0) :=
  match (first_block_error_translation (scripted noRowsResponses) (newTransformer demoConfig)
    ⟨"", []⟩ "0xaa"
    ((List.lookup "0xaa"
      (Init (scripted noRowsResponses) (newTransformer demoConfig) ⟨"", []⟩).log).getD [])
    0 GoError.ErrNoRows (by decide) (by decide)).1 rfl with
  | ⟨_, _, _, _, _, _, con, _, _, _, _, _, _, h⟩ => ⟨con, h⟩

/-- Witness of C13: no ABI can be resolved for `0xaa`; the failed `Parse` is the only call. -/
theorem abi_failure_aborts_witness :
    [Call.Parse "0xaa" (some (GoError.other "no abi found"))] =
      [Call.Parse "0xaa" (some (GoError.other "no abi found"))] ∧
    (Init (scripted parseFailsResponses) (newTransformer demoConfig) ⟨"", []⟩).log.getLast? =
      some ("0xaa", [Call.Parse "0xaa" (some (GoError.other "no abi found"))]) :=
  have key := abi_failure_aborts (scripted parseFailsResponses) (newTransformer demoConfig)
    ⟨"", []⟩ "0xaa" [Call.Parse "0xaa" (some (GoError.other "no abi found"))]
    (Call.Parse "0xaa" (some (GoError.other "no abi found")))
    (by decide) (by decide) (Or.inl rfl) rfl
  ⟨key.2.1, key.2.2.2⟩

/-- C14 fails as stated: the ABI of `0xaa` has the event `Transfer` and the method
`balanceOf` only, the configuration also asks for the event `Bogus` and the method `bogus`;
`Init` returns no error and builds the contract without them. -/
theorem init_error_sources_counterexample :
    "Bogus" ∈ GoMap.getD unknownNameConfig.Events "0xaa" [] ∧
    "bogus" ∈ GoMap.getD unknownNameConfig.Methods "0xaa" [] ∧
    (Init (scripted tokenResponses) (newTransformer unknownNameConfig) ⟨"", []⟩).out = .ok ∧
    (Init (scripted tokenResponses) (newTransformer unknownNameConfig) ⟨"", []⟩).tr.eventIds =
      ["transfer_0xaa"] ∧
    GoMap.getD (Init (scripted tokenResponses) (newTransformer unknownNameConfig)
      ⟨"", []⟩).tr.sortedMethodIds "0xaa" [] = ["balanceof_0xaa"] := by
  decide

/-- Witness of C14 (as amended): with the parser of the specification over the ABI of a
token, the contract built for `0xaa` has no event outside that ABI. -/
theorem init_error_sources_witness :
    ∃ con : Contract,
      List.lookup "0xaa" (Init (scripted tokenResponses) (newTransformer unknownNameConfig)
        ⟨"", []⟩).tr.Contracts = some con ∧
      ∀ p ∈ con.Events, p.2 ∈ [(⟨"Transfer", "topic0 of Transfer"⟩ : Event)] := by
  obtain ⟨t, con, w2, -, h2, h3, -, -⟩ :=
    (init_error_sources (scripted tokenResponses) (newTransformer unknownNameConfig)
      ⟨"", []⟩).2.2 (fun _ => [⟨"Transfer", "topic0 of Transfer"⟩]) (fun _ => [⟨"balanceOf"⟩])
      (fun _ _ => rfl) (fun _ _ => rfl) (by decide) "0xaa" (by decide)
  exact ⟨con, h2, fun p hp => (h3 p hp).1⟩

/-- C15 fails as stated: a poller whose failing `name()` call has written `Token` into the
result variable; `Init` returns no error and the contract is built with the name `Token`,
not with an empty name. -/
theorem contract_name_best_effort_counterexample :
    Call.FetchContractData "abi of 0xaa" "0xaa" "name" none (-1) "Token"
        (some (.other "abi: cannot unmarshal")) ∈
      (List.lookup "0xaa"
        (Init (scripted writesThenFails) (newTransformer demoConfig) ⟨"", []⟩).log).getD [] ∧
    (Init (scripted writesThenFails) (newTransformer demoConfig) ⟨"", []⟩).out = .ok ∧
    (List.lookup "0xaa"
      (Init (scripted writesThenFails) (newTransformer demoConfig) ⟨"", []⟩).tr.Contracts).map
        Contract.Name = some "Token" := by
  decide

/-- Witness of C15 (as amended): the poller hands the call to the fetcher and the node
cannot be reached; the call fails and the contract is built with an empty name. -/
theorem contract_name_best_effort_witness :
    (Init offlineCollab (newTransformer demoConfig) ()).out = .ok ∧
    ∃ con : Contract, con.Name = "" :=
  ⟨by decide,
    match (contract_name_best_effort offlineCollab (newTransformer demoConfig) () "0xaa"
      ((List.lookup "0xaa" (Init offlineCollab (newTransformer demoConfig) ()).log).getD [])
      "" "0xaa" "name" none (-1) "" (GoError.other "connection refused")
      (by decide) (by decide)).2.2.2.2.1 with
    | ⟨_, _, _, _, _, _, con, _, _, _, _, _, _, _, _, h⟩ => ⟨con, h⟩⟩

/-- Witness of C16: a transformer that was never initialized. -/
theorem execute_without_contracts_witness :
    Execute quietCollab (newTransformer demoConfig) () =
      ⟨(), 0, [], [], [], .error "error: transformer has no initialized contracts"⟩ :=
  execute_without_contracts quietCollab (newTransformer demoConfig) () rfl

/-- Witness of C17: the header of block 6 has no log. -/
theorem no_match_header_witness :
    ∃ w1, (processHeader (withHeaderRepo demoCollab) (demoTransformer 6) ⟨2, 6, "0xh6"⟩
        (demoDB, ())).trace =
        Call.FetchLogs (demoTransformer 6).contractAddresses (demoTransformer 6).eventFilters
            ⟨2, 6, "0xh6"⟩ [] none ::
          Call.MarkHeaderCheckedForAll 2 (demoTransformer 6).eventIds none ::
            (methodPolling (withHeaderRepo demoCollab) (demoTransformer 6) ⟨2, 6, "0xh6"⟩
              (demoTransformer 6).sortedMethodIds w1).trace ∧
      (methodPolling (withHeaderRepo demoCollab) (demoTransformer 6) ⟨2, 6, "0xh6"⟩
        (demoTransformer 6).sortedMethodIds w1).out = .ok :=
  (no_match_header (withHeaderRepo demoCollab) (demoTransformer 6) (demoDB, ()) ⟨2, 6, "0xh6"⟩
    ((processHeader (withHeaderRepo demoCollab) (demoTransformer 6) ⟨2, 6, "0xh6"⟩
      (demoDB, ())).trace)
    ["0xaa"] ["0xddf252ad"] ⟨2, 6, "0xh6"⟩ none
    (by decide) (by decide) (Or.inl (by decide))).1

/-- C18 (as amended): when `MissingHeadersForAll` returns an empty list, `Execute` returns
no error, its only call is `MissingHeadersForAll` (no `FetchLogs`, `PersistLogs`,
`PollContractAt` or `MarkHeaderCheckedForAll` call), and `Start` is unchanged; in the
scenario of one contract with starting block 100 and an empty headers table, `Start` is 100
both after `Init` and after `Execute`. -/
theorem empty_range (C : Collaborators W) (tr : Transformer) (w : W)
    (hne : tr.Contracts ≠ [])
    (hempty : (C.MissingHeadersForAll w tr.Start (-1) tr.eventIds).2 = ([], none)) :
    Execute C tr w =
      ⟨(C.MissingHeadersForAll w tr.Start (-1) tr.eventIds).1, tr.Start,
        [Call.MissingHeadersForAll tr.Start (-1) tr.eventIds none], [], [], .ok⟩ ∧
    (Init (withHeaderStore (scripted demoResponses)) (newTransformer scenarioConfig)
      (emptyDB, ⟨"", []⟩)).out = .ok ∧
    (Init (withHeaderStore (scripted demoResponses)) (newTransformer scenarioConfig)
      (emptyDB, ⟨"", []⟩)).tr.Start = 100 ∧
    (Execute (withHeaderStore (scripted demoResponses))
      (Init (withHeaderStore (scripted demoResponses)) (newTransformer scenarioConfig)
        (emptyDB, ⟨"", []⟩)).tr
      (Init (withHeaderStore (scripted demoResponses)) (newTransformer scenarioConfig)
        (emptyDB, ⟨"", []⟩)).world).out = .ok ∧
    (Execute (withHeaderStore (scripted demoResponses))
      (Init (withHeaderStore (scripted demoResponses)) (newTransformer scenarioConfig)
        (emptyDB, ⟨"", []⟩)).tr
      (Init (withHeaderStore (scripted demoResponses)) (newTransformer scenarioConfig)
        (emptyDB, ⟨"", []⟩)).world).Start = 100 :=
  ⟨Execute_empty_range C tr w hne hempty, by decide, by decide, by decide, by decide⟩

/-- Witness of C18 (as amended): the scenario itself; `Execute` only asks for the missing
headers. -/
theorem empty_range_witness :
    (Execute (withHeaderStore (scripted demoResponses))
      (Init (withHeaderStore (scripted demoResponses)) (newTransformer scenarioConfig)
        (emptyDB, ⟨"", []⟩)).tr
      (Init (withHeaderStore (scripted demoResponses)) (newTransformer scenarioConfig)
        (emptyDB, ⟨"", []⟩)).world).log = [] :=
  congrArg ExecResult.log (empty_range (withHeaderStore (scripted demoResponses))
    (Init (withHeaderStore (scripted demoResponses)) (newTransformer scenarioConfig)
      (emptyDB, ⟨"", []⟩)).tr
    (Init (withHeaderStore (scripted demoResponses)) (newTransformer scenarioConfig)
      (emptyDB, ⟨"", []⟩)).world
    (by decide) (by decide)).1

/-- C18 fails as stated: in the scenario of one contract with starting block 100 and an
empty headers table, `RetrieveFirstBlock` signals no rows, the first block 0 is raised to
the configured 100, and `Start` is `min(MaxInt64, 100) = 100` after `Init` and after
`Execute`, not `MaxInt64`. -/
theorem empty_range_counterexample :
    (Init (withHeaderStore (scripted demoResponses)) (newTransformer scenarioConfig)
      (emptyDB, ⟨"", []⟩)).out = .ok ∧
    (Init (withHeaderStore (scripted demoResponses)) (newTransformer scenarioConfig)
      (emptyDB, ⟨"", []⟩)).tr.Start ≠ MaxInt64 ∧
    (Execute (withHeaderStore (scripted demoResponses))
      (Init (withHeaderStore (scripted demoResponses)) (newTransformer scenarioConfig)
        (emptyDB, ⟨"", []⟩)).tr
      (Init (withHeaderStore (scripted demoResponses)) (newTransformer scenarioConfig)
        (emptyDB, ⟨"", []⟩)).world).Start ≠ MaxInt64 := by
  decide

/-- Witness of C19: polling the two contracts at block 6: `0xaa` (from block 0) is polled
and its method ids are marked. -/
theorem method_polling_rule_witness :
    Call.PollContractAt (demoContract "0xaa" 0) 6 none ∈
        (methodPolling (withHeaderRepo demoCollab) demoTransformer2 ⟨2, 6, "0xh6"⟩
          demoTransformer2.sortedMethodIds (demoDB, ())).trace ∧
      Call.MarkHeaderCheckedForAll 2 (GoMap.getD demoTransformer2.sortedMethodIds "0xaa" []) none ∈
        (methodPolling (withHeaderRepo demoCollab) demoTransformer2 ⟨2, 6, "0xh6"⟩
          demoTransformer2.sortedMethodIds (demoDB, ())).trace :=
  (method_polling_rule (withHeaderRepo demoCollab) demoTransformer2 ⟨2, 6, "0xh6"⟩
    demoTransformer2.sortedMethodIds (demoDB, ())).2.1 (by decide)
    ("0xaa", demoContract "0xaa" 0) (by decide) (by decide) (by decide)

/-- C20: when the ABI is parsed and the call packed without error, `FetchContractData`
issues exactly one `eth_call` on the client, from the world it was called in: with no
block (latest) when `blockNumber ≤ 0` and with exactly `blockNumber` otherwise, addressed to
the given contract address, with the packed method input as data; it leaves the world the
client left, returns the error of the client with the result variable untouched, or else
what unpacking the output of the client gives.  When parsing or packing fails no
`eth_call` is issued. -/
theorem fetch_contract_data_block {W : Type} (L : AbiLib) (client : EthClient W) (w : W)
    (abiJSON address method : String) (methodArgs : Option (List String)) (result : String)
    (blockNumber : Int) :
    ((L.ParseAbi abiJSON).2 = none →
      (L.Pack (L.ParseAbi abiJSON).1 method (methodArgs.getD [])).2 = none →
      (Fetcher.FetchContractData L client w abiJSON address method methodArgs result
        blockNumber).calls =
        [⟨⟨L.HexToAddress address, (L.Pack (L.ParseAbi abiJSON).1 method (methodArgs.getD [])).1⟩,
          if blockNumber ≤ 0 then none else some blockNumber,
          (client.CallContract w
            ⟨L.HexToAddress address,
              (L.Pack (L.ParseAbi abiJSON).1 method (methodArgs.getD [])).1⟩
            (if blockNumber ≤ 0 then none else some blockNumber)).2.1,
          (client.CallContract w
            ⟨L.HexToAddress address,
              (L.Pack (L.ParseAbi abiJSON).1 method (methodArgs.getD [])).1⟩
            (if blockNumber ≤ 0 then none else some blockNumber)).2.2⟩] ∧
      (Fetcher.FetchContractData L client w abiJSON address method methodArgs result
        blockNumber).world =
        (client.CallContract w
          ⟨L.HexToAddress address,
            (L.Pack (L.ParseAbi abiJSON).1 method (methodArgs.getD [])).1⟩
          (if blockNumber ≤ 0 then none else some blockNumber)).1 ∧
      ((client.CallContract w
          ⟨L.HexToAddress address,
            (L.Pack (L.ParseAbi abiJSON).1 method (methodArgs.getD [])).1⟩
          (if blockNumber ≤ 0 then none else some blockNumber)).2.2 ≠ none →
        (Fetcher.FetchContractData L client w abiJSON address method methodArgs result
          blockNumber).err =
          (client.CallContract w
            ⟨L.HexToAddress address,
              (L.Pack (L.ParseAbi abiJSON).1 method (methodArgs.getD [])).1⟩
            (if blockNumber ≤ 0 then none else some blockNumber)).2.2 ∧
        (Fetcher.FetchContractData L client w abiJSON address method methodArgs result
          blockNumber).result = result) ∧
      ((client.CallContract w
          ⟨L.HexToAddress address,
            (L.Pack (L.ParseAbi abiJSON).1 method (methodArgs.getD [])).1⟩
          (if blockNumber ≤ 0 then none else some blockNumber)).2.2 = none →
        ((Fetcher.FetchContractData L client w abiJSON address method methodArgs result
            blockNumber).result,
          (Fetcher.FetchContractData L client w abiJSON address method methodArgs result
            blockNumber).err) =
          L.Unpack (L.ParseAbi abiJSON).1 result method
            (client.CallContract w
              ⟨L.HexToAddress address,
                (L.Pack (L.ParseAbi abiJSON).1 method (methodArgs.getD [])).1⟩
              (if blockNumber ≤ 0 then none else some blockNumber)).2.1)) ∧
    (((L.ParseAbi abiJSON).2 ≠ none ∨
        (L.Pack (L.ParseAbi abiJSON).1 method (methodArgs.getD [])).2 ≠ none) →
      (Fetcher.FetchContractData L client w abiJSON address method methodArgs result
        blockNumber).calls = [] ∧
      (Fetcher.FetchContractData L client w abiJSON address method methodArgs result
        blockNumber).world = w ∧
      (Fetcher.FetchContractData L client w abiJSON address method methodArgs result
        blockNumber).result = result ∧
      (Fetcher.FetchContractData L client w abiJSON address method methodArgs result
        blockNumber).err ≠ none) := by
  have hpack : ∀ parsed, Fetcher.packInput L parsed method methodArgs =
      L.Pack parsed method (methodArgs.getD []) := by
    intro parsed
    cases methodArgs <;> rfl
  have hbn : (if blockNumber > 0 then some blockNumber else none) =
      (if blockNumber ≤ 0 then none else some blockNumber) := by
    by_cases h : blockNumber > 0
    · rw [if_pos h, if_neg (by omega)]
    · rw [if_neg h, if_pos (by omega)]
  have hcall : ∀ (input : List Nat),
      Fetcher.callContract L client w address input
        (if blockNumber ≤ 0 then none else some blockNumber) =
      ((client.CallContract w ⟨L.HexToAddress address, input⟩
          (if blockNumber ≤ 0 then none else some blockNumber)).1,
        (client.CallContract w ⟨L.HexToAddress address, input⟩
          (if blockNumber ≤ 0 then none else some blockNumber)).2.1,
        (client.CallContract w ⟨L.HexToAddress address, input⟩
          (if blockNumber ≤ 0 then none else some blockNumber)).2.2,
        ⟨⟨L.HexToAddress address, input⟩, if blockNumber ≤ 0 then none else some blockNumber,
          (client.CallContract w ⟨L.HexToAddress address, input⟩
            (if blockNumber ≤ 0 then none else some blockNumber)).2.1,
          (client.CallContract w ⟨L.HexToAddress address, input⟩
            (if blockNumber ≤ 0 then none else some blockNumber)).2.2⟩) := by
    intro input
    rfl
  unfold Fetcher.FetchContractData
  rw [hbn]
  split
  · rename_i x perr hparse
    rw [hparse]
    constructor
    · intro h; cases h
    · intro _
      exact ⟨rfl, rfl, rfl, by simp⟩
  · rename_i parsed hparse
    rw [hparse, hpack]
    simp only
    split
    · rename_i x kerr hpk
      rw [hpk]
      constructor
      · intro _ h; cases h
      · intro _
        exact ⟨rfl, rfl, rfl, by simp⟩
    · rename_i input hpk
      rw [hpk]
      simp only
      rw [hcall]
      rcases client.CallContract w ⟨L.HexToAddress address, input⟩
        (if blockNumber ≤ 0 then none else some blockNumber) with ⟨w1, output, _ | cerr⟩
      · simp
      · simp

/-- Witness of C20: the call of the integration test, `balanceOf` at block 5167471, and
the `name()` call of `Init` at block -1. -/
theorem fetch_contract_data_block_witness :
    (Fetcher.FetchContractData demoAbiLib demoClient () "abi" "0xD26114cd" "balanceOf"
      (some ["0xd2"]) "" 5167471).calls =
      [⟨⟨"0xd26114cd", [9, 1]⟩, some 5167471, [0], none⟩] ∧
    (Fetcher.FetchContractData demoAbiLib demoClient () "abi" "0xD26114cd" "name" none ""
      (-1)).calls = [⟨⟨"0xd26114cd", [4, 0]⟩, none, [0], none⟩] :=
  ⟨((fetch_contract_data_block demoAbiLib demoClient () "abi" "0xD26114cd" "balanceOf"
      (some ["0xd2"]) "" 5167471).1 rfl rfl).1.trans (by decide),
    ((fetch_contract_data_block demoAbiLib demoClient () "abi" "0xD26114cd" "name" none ""
      (-1)).1 rfl rfl).1.trans (by decide)⟩

/-! ## The fetchers, the log partition and the publisher -/

/-- C21: `FetchEthLogsWithCustomQuery` makes exactly one `FilterLogs` call on the client,
with the query it was given; when the client answers an error it returns that error and an
empty list of logs, otherwise the logs of the client and no error. -/
theorem fetch_logs_pass_through (client : EthClient W) (w : W) (query : FilterQuery) :
    (Fetcher.FetchEthLogsWithCustomQuery client w query).queries = [query] ∧
    (Fetcher.FetchEthLogsWithCustomQuery client w query).world =
      (client.FilterLogs w query).1 ∧
    (Fetcher.FetchEthLogsWithCustomQuery client w query).err =
      (client.FilterLogs w query).2.2 ∧
    (Fetcher.FetchEthLogsWithCustomQuery client w query).logs =
      if (client.FilterLogs w query).2.2 = none then (client.FilterLogs w query).2.1 else [] := by
  unfold Fetcher.FetchEthLogsWithCustomQuery
  rcases client.FilterLogs w query with ⟨w1, logs, _ | e⟩
  · simp
  · simp

/-- C22: the headers `Execute` processes are an initial segment of the list
`MissingHeadersForAll(Start, -1, eventIds)` returned, in its order, and the whole list when
`Execute` returns no error; the calls for each processed header start with its one
`FetchLogs` call, made with the lists `contractAddresses` and `eventFilters` of the
transformer; every header before the last processed one ended without error, and an
error of `Execute` is the error of the last processed header; every checked marker set
while a header is processed carries the id of that header.  Hence any order relation that
holds along the returned list (ascending block number) holds along the processed headers
and their markers. -/
theorem header_order (C : Collaborators W) (tr : Transformer) (w : W) :
    ((Execute C tr w).log.map Prod.fst) <+:
      (C.MissingHeadersForAll w tr.Start (-1) tr.eventIds).2.1 ∧
    ((Execute C tr w).out = .ok →
      (Execute C tr w).log.map Prod.fst =
        (C.MissingHeadersForAll w tr.Start (-1) tr.eventIds).2.1) ∧
    (∀ e ∈ (Execute C tr w).log, ∃ logs err rest,
      e.2 = Call.FetchLogs tr.contractAddresses tr.eventFilters e.1 logs err :: rest ∧
      ∀ c ∈ rest, c.isFetchLogs = false) ∧
    (∀ e ∈ (Execute C tr w).log.dropLast, OkRun C tr e) ∧
    ((Execute C tr w).out = .ok ∨ (Execute C tr w).log = [] ∨
      ∃ h w1, (Execute C tr w).log.getLast? = some (h, (processHeader C tr h w1).trace) ∧
        (processHeader C tr h w1).out = (Execute C tr w).out) ∧
    (∀ e ∈ (Execute C tr w).log, ∀ id ids err,
      Call.MarkHeaderCheckedForAll id ids err ∈ e.2 → id = e.1.ID) ∧
    (∀ R : Header → Header → Prop,
      (C.MissingHeadersForAll w tr.Start (-1) tr.eventIds).2.1.Pairwise R →
        ((Execute C tr w).log.map Prod.fst).Pairwise R) := by
  have hseg : ((Execute C tr w).log.map Prod.fst) <+:
        (C.MissingHeadersForAll w tr.Start (-1) tr.eventIds).2.1 ∧
      ((Execute C tr w).out = .ok →
        (Execute C tr w).log.map Prod.fst =
          (C.MissingHeadersForAll w tr.Start (-1) tr.eventIds).2.1) ∧
      (∀ e ∈ (Execute C tr w).log.dropLast, OkRun C tr e) ∧
      ((Execute C tr w).out = .ok ∨ (Execute C tr w).log = [] ∨
        ∃ h w1, (Execute C tr w).log.getLast? = some (h, (processHeader C tr h w1).trace) ∧
          (processHeader C tr h w1).out = (Execute C tr w).out) := by
    rcases Execute_cases C tr w with ⟨hlog, -, msg, hout⟩ |
      ⟨w1, -, -, -, hlog, -, hout, -, -, -⟩
    · rw [hlog, hout]
      refine ⟨by simp, ?_, ?_, Or.inr (Or.inl rfl)⟩
      · intro h; cases h
      · intro e he; cases he
    · rw [hlog, hout]
      rcases headerLoop_cases C tr (C.MissingHeadersForAll w tr.Start (-1) tr.eventIds).2.1
          w1 tr.Start with ⟨hok, hmap, hall, -, -⟩ |
        ⟨pre, h, w2, hl, hpre, ho, hne, -, hpfx, -⟩
      · refine ⟨?_, fun _ => hmap, ?_, Or.inl hok⟩
        · rw [hmap]
        · intro e he
          exact hall e (List.mem_of_mem_dropLast he)
      · refine ⟨?_, ?_, ?_, Or.inr (Or.inr ⟨h, w2, ?_, ho⟩)⟩
        · rw [hl, List.map_append]
          exact hpfx
        · intro h1; exact absurd h1 hne
        · rw [hl, List.dropLast_concat]
          exact hpre
        · rw [hl]; simp
  obtain ⟨h1, h2, h3, h4⟩ := hseg
  refine ⟨h1, h2, ?_, h3, h4, ?_, ?_⟩
  · rintro ⟨h, t⟩ he
    obtain ⟨w1, htr, -⟩ := Execute_entry C tr w h t he
    obtain ⟨rest, hr, hrest⟩ := processHeader_fetch C tr h w1
    rw [htr] at hr
    exact ⟨_, _, rest, hr, hrest⟩
  · rintro ⟨h, t⟩ he id ids err hm
    obtain ⟨w1, htr, -⟩ := Execute_entry C tr w h t he
    rw [← htr] at hm
    exact processHeader_mark_id C tr h w1 id ids err hm
  · intro R hR
    exact List.Pairwise.sublist h1.sublist hR

/-- C23: the non-empty list of logs fetched at a header is split into groups keyed by the
lowercased hex address: the keys are distinct, the group of a key holds exactly the logs
with that lowercased address in their fetched order, and every log is in the group of its
address.  The `ConvertBatch` calls made for the header are, in the order the groups are
visited, one call per visited group with the logs of the group, the events of the contract
stored under the key of the group and the id of the header; every group has been visited
once a checked marker is set for the header.  Every `PersistLogs` call has a non-empty
list of rows, which is the bucket of an event name in the answer of the `ConvertBatch`
call of a group, and is made with the event of that name, the address and the name of the
contract. -/
theorem log_partition (C : Collaborators W) (tr : Transformer) (w : W) (h : Header)
    (t : List Call) (addrs topics : List String) (h1 : Header) (allLogs : List Log)
    (hmem : (h, t) ∈ (Execute C tr w).log)
    (hfetch : Call.FetchLogs addrs topics h1 allLogs none ∈ t)
    (hne : allLogs ≠ []) :
    ((sortLogs allLogs).map Prod.fst).Nodup ∧
    (∀ g ∈ sortLogs allLogs,
      g.2 ≠ [] ∧ g.2 = allLogs.filter (fun x => toLower x.Address = g.1)) ∧
    (∀ x ∈ allLogs, ∃ g ∈ sortLogs allLogs, g.1 = toLower x.Address ∧ x ∈ g.2) ∧
    ∃ (vis : List (String × List Log)) (n : Nat), vis.Perm (sortLogs allLogs) ∧
      t.filterMap Call.convertArgs = (vis.take n).filterMap (groupArgs tr h) ∧
      (∀ g ∈ vis.take n, ∃ con, List.lookup g.1 tr.Contracts = some con) ∧
      ((∃ id ids e, Call.MarkHeaderCheckedForAll id ids e ∈ t) → n = vis.length) ∧
      (∀ rows ev addr name e, Call.PersistLogs rows ev addr name e ∈ t →
        rows ≠ [] ∧ ∃ g ∈ vis, ∃ con w1 eventName,
          List.lookup g.1 tr.Contracts = some con ∧
          (convertOf C h con g.2 w1).2.2 = none ∧
          (eventName, rows) ∈ (convertOf C h con g.2 w1).2.1 ∧
          ev = GoMap.getD con.Events eventName ⟨"", ""⟩ ∧
          addr = con.Address ∧ name = con.Name) := by
  obtain ⟨hnd, hgrp, hall⟩ := sortLogs_spec allLogs
  refine ⟨hnd, fun g hg => ⟨(hgrp g hg).2, (hgrp g hg).1⟩, ?_, ?_⟩
  · intro x hx
    obtain ⟨g, hg⟩ := hall x hx
    refine ⟨_, hg, rfl, ?_⟩
    rw [(hgrp _ hg).1]
    simp [hx]
  obtain ⟨w1, htr, -⟩ := Execute_entry C tr w h t hmem
  rw [← htr] at hfetch
  obtain ⟨-, hperm, mp, hshape, hmp, hmpne, -, -, -⟩ :=
    processHeader_partition C tr h w1 addrs topics h1 allLogs hfetch hne
  obtain ⟨n, -, hconv, hlook, hok, hpers⟩ :=
    processContracts_groups C tr h (visited C tr h w1)
      (rangeMap C (C.FetchLogs w1 tr.contractAddresses tr.eventFilters h).1
        (sortLogs (C.FetchLogs w1 tr.contractAddresses tr.eventFilters h).2.1)).1
      (visited_nonempty C tr h w1)
  have hmpnone : mp.filterMap Call.convertArgs = [] := by
    apply filterMap_nil_of_forall
    intro c hc
    have := hmp c hc
    cases c <;> first | rfl | cases this
  rw [htr] at hshape
  refine ⟨visited C tr h w1, n, hperm, ?_, hlook, ?_, ?_⟩
  · rw [hshape, List.filterMap_cons, List.filterMap_append, hmpnone, List.append_nil]
    exact hconv
  · rintro ⟨id, ids, e, hm⟩
    apply hok
    apply hmpne
    rw [hshape] at hm
    rcases List.mem_cons.mp hm with hm | hm
    · cases hm
    · rcases List.mem_append.mp hm with hm | hm
      · have := processContracts_convertPhase C tr h _ _ _ hm
        cases this
      · exact List.ne_nil_of_mem hm
  · intro rows ev addr name e hm
    apply hpers rows ev addr name e
    rw [hshape] at hm
    rcases List.mem_cons.mp hm with hm | hm
    · cases hm
    · rcases List.mem_append.mp hm with hm | hm
      · exact hm
      · have := hmp _ hm
        cases this

/-- C26 (as amended): when `Init` ended without error, every configured address key is
written as the lowercased `Hex()` form of its address (`0x` and 40 lowercase digits), and
every log a `FetchLogs` call of `Execute` answered has the address of a configured key,
then the key of every group of the log partition has an initialized contract with that
address stored under it in `Contracts`; `Execute` never updates the converter with a nil
contract and never faults on a missing contract. -/
theorem contract_lookup_safe (C : Collaborators W) (tr0 : Transformer) (w0 w : W)
    (hinit : (Init C tr0 w0).out = .ok)
    (hkeys : ∀ k ∈ tr0.Config.Addresses.map Prod.fst, lowerHexOf k = k)
    (hlogs : ∀ e ∈ (Execute C (Init C tr0 w0).tr w).log, ∀ c ∈ e.2, ∀ x ∈ c.fetchedLogs,
      ∃ k ∈ tr0.Config.Addresses.map Prod.fst, toLower x.Address = lowerHexOf k) :
    (∀ e ∈ (Execute C (Init C tr0 w0).tr w).log, ∀ c ∈ e.2, ∀ g ∈ sortLogs c.fetchedLogs,
      ∃ con, List.lookup g.1 (Init C tr0 w0).tr.Contracts = some con ∧ con.Address = g.1) ∧
    (∀ e ∈ (Execute C (Init C tr0 w0).tr w).log, Call.ConverterUpdate none ∉ e.2) ∧
    (∀ msg, (Execute C (Init C tr0 w0).tr w).out ≠ .fault msg) := by
  have hgroup : ∀ e ∈ (Execute C (Init C tr0 w0).tr w).log, ∀ c ∈ e.2,
      ∀ g ∈ sortLogs c.fetchedLogs,
      ∃ con, List.lookup g.1 (Init C tr0 w0).tr.Contracts = some con ∧ con.Address = g.1 := by
    intro e he c hc g hg
    obtain ⟨hfil, hne⟩ := (sortLogs_spec c.fetchedLogs).2.1 g hg
    obtain ⟨x, hx⟩ := List.exists_mem_of_ne_nil _ hne
    rw [hfil, List.mem_filter] at hx
    obtain ⟨k, hk, hxk⟩ := hlogs e he c hc x hx.1
    have hkey : g.1 = k := by
      have h1 : toLower x.Address = g.1 := by simpa using hx.2
      rw [← h1, hxk, hkeys k hk]
    rw [hkey]
    exact Init_contract_at C tr0 w0 hinit k hk
  have hentry : ∀ h w1, (h, (processHeader C (Init C tr0 w0).tr h w1).trace) ∈
      (Execute C (Init C tr0 w0).tr w).log →
      ∀ g ∈ sortLogs (C.FetchLogs w1 (Init C tr0 w0).tr.contractAddresses
        (Init C tr0 w0).tr.eventFilters h).2.1,
      ∃ con, List.lookup g.1 (Init C tr0 w0).tr.Contracts = some con := by
    intro h w1 hm g hg
    obtain ⟨rest, hr, -⟩ := processHeader_fetch C (Init C tr0 w0).tr h w1
    obtain ⟨con, hc, -⟩ := hgroup _ hm
      (Call.FetchLogs (Init C tr0 w0).tr.contractAddresses (Init C tr0 w0).tr.eventFilters h
        (C.FetchLogs w1 (Init C tr0 w0).tr.contractAddresses
          (Init C tr0 w0).tr.eventFilters h).2.1
        (C.FetchLogs w1 (Init C tr0 w0).tr.contractAddresses
          (Init C tr0 w0).tr.eventFilters h).2.2)
      (by simp only; rw [hr]; exact List.mem_cons_self _ _) g hg
    exact ⟨con, hc⟩
  refine ⟨hgroup, ?_, ?_⟩
  · rintro ⟨h, t⟩ he
    obtain ⟨w1, htr, -⟩ := Execute_entry C _ w h t he
    subst htr
    exact (processHeader_no_fault C _ h w1 (hentry h w1 he)).2
  · intro msg hf
    obtain ⟨h, w1, hm, hout⟩ := Execute_fault_entry C _ w msg hf
    exact (processHeader_no_fault C _ h w1 (hentry h w1 hm)).1 msg hout

/-- C27: for a header that `Execute` processed without error and a group of the logs found
at it, whatever the starting block of the contract of the group: the logs of the group are
converted with the events of that contract, every non-empty bucket of the answer is
persisted, and the header is marked checked for all event ids.  Only polling looks at
starting blocks: a contract polled at the header has a method and a starting block not
above the block number of the header, so a contract whose starting block is above it has
its logs converted and persisted but is not polled.  The header query is
`MissingHeadersForAll(Start, -1, eventIds)` with the one value `Start`, which after a
successful `Init` is at most the starting block of every contract and (the configured keys
being distinct) is `MaxInt64` or the starting block of one of them. -/
theorem events_ignore_starting_block (C : Collaborators W) (tr : Transformer) (w : W)
    (h : Header) (t : List Call) (addrs topics : List String) (h1 : Header)
    (allLogs : List Log) (g : String × List Log)
    (hmem : (h, t) ∈ (Execute C tr w).log)
    (hdone : (Execute C tr w).out = .ok ∨ (Execute C tr w).log.getLast? ≠ some (h, t))
    (hfetch : Call.FetchLogs addrs topics h1 allLogs none ∈ t)
    (hg : g ∈ sortLogs allLogs) :
    (∃ con w1, List.lookup g.1 tr.Contracts = some con ∧
      Call.ConvertBatch g.2 con.Events h.ID none ∈ t ∧
      (convertOf C h con g.2 w1).2.2 = none ∧
      (∀ b ∈ (convertOf C h con g.2 w1).2.1, b.2 ≠ [] →
        Call.PersistLogs b.2 (GoMap.getD con.Events b.1 ⟨"", ""⟩) con.Address con.Name none ∈ t) ∧
      (h.BlockNumber < con.StartingBlock → ∀ bn e, Call.PollContractAt con bn e ∉ t)) ∧
    Call.MarkHeaderCheckedForAll h.ID tr.eventIds none ∈ t ∧
    (∀ con bn e, Call.PollContractAt con bn e ∈ t →
      bn = h.BlockNumber ∧ (∃ k, (k, con) ∈ tr.Contracts) ∧ con.Methods ≠ [] ∧
        con.StartingBlock ≤ h.BlockNumber) ∧
    (Execute C tr w).before = [Call.MissingHeadersForAll tr.Start (-1) tr.eventIds none] ∧
    (∀ tr0 w0, tr = (Init C tr0 w0).tr → (Init C tr0 w0).out = .ok →
      (∀ a ∈ tr0.Config.Addresses.map Prod.fst, ∀ con,
        List.lookup a tr.Contracts = some con → tr.Start ≤ con.StartingBlock) ∧
      ((tr0.Config.Addresses.map Prod.fst).Nodup →
        tr.Start = MaxInt64 ∨
        ∃ a ∈ tr0.Config.Addresses.map Prod.fst, ∃ con,
          List.lookup a tr.Contracts = some con ∧ tr.Start = con.StartingBlock)) := by
  obtain ⟨⟨w1, htr, hok⟩, -⟩ := Execute_done_entry C tr w h t hmem hdone
  simp only at htr hok
  have hpoll : ∀ con bn e, Call.PollContractAt con bn e ∈ t →
      bn = h.BlockNumber ∧ (∃ k, (k, con) ∈ tr.Contracts) ∧ con.Methods ≠ [] ∧
        con.StartingBlock ≤ h.BlockNumber := by
    intro con bn e hp
    rw [← htr] at hp
    exact processHeader_poll_eligible C tr h w1 con bn e hp
  have hne : allLogs ≠ [] := by
    intro hnil
    subst hnil
    simp [sortLogs] at hg
  have hfetch1 := hfetch
  rw [← htr] at hfetch1
  obtain ⟨-, hperm, mp, hshape, -, -, hevok, -, -⟩ :=
    processHeader_partition C tr h w1 addrs topics h1 allLogs hfetch1 hne
  rw [htr] at hshape
  have hgroups := processContracts_ok_groups C tr h (visited C tr h w1)
    (rangeMap C (C.FetchLogs w1 tr.contractAddresses tr.eventFilters h).1
      (sortLogs (C.FetchLogs w1 tr.contractAddresses tr.eventFilters h).2.1)).1
    (visited_nonempty C tr h w1) (hevok hok) g (hperm.mem_iff.mpr hg)
  obtain ⟨con, w2, hl, hcb, -, hconv, hpers⟩ := hgroups
  have hin : ∀ c, c ∈ (eventPhase C tr h w1).trace → c ∈ t := by
    intro c hc
    rw [hshape]
    exact List.mem_cons_of_mem _ (List.mem_append_left _ hc)
  refine ⟨⟨con, w2, hl, hin _ hconv, hcb, fun b hb hbne => hin _ (hpers b hb hbne), ?_⟩,
    ?_, hpoll, ?_, ?_⟩
  · intro hlt bn e hp
    have := (hpoll con bn e hp).2.2.2
    omega
  · have := (processHeader_ok_marks C tr h w1 hok).1
    rw [htr] at this
    exact this
  · rcases Execute_cases C tr w with ⟨hlog, -, -⟩ | ⟨_, -, -, -, -, -, -, -, hb, -⟩
    · rw [hlog] at hmem; cases hmem
    · exact hb
  · intro tr0 w0 heq hinit
    rw [heq]
    exact Init_start_min C tr0 w0 hinit

/-- C24: when the meta interface is reported as supported, `FetchABI` returns no error
after nine `supportsInterface` calls, for the meta signature and the eight optional
signatures in the fixed order; when at least one optional interface is reported as
supported the string is `[`, the fragments of the supported ones in that order joined by
commas, and `]`; when none is, the string is `]` alone: the closing statement cuts the
opening bracket instead of a trailing comma. -/
theorem fetch_abi_shape (K : ResolverConstants) (F : BoolFetcher W) (w : W) (addr : String)
    (bn : Int)
    (hmeta : (Fetcher.getSupportsInterface F w K.SupportsInterfaceABI addr bn [K.MetaSig]).2 =
      (true, none)) :
    (Fetcher.FetchABI K F w addr bn).err = none ∧
    (Fetcher.FetchABI K F w addr bn).calls.map SupportsCall.methodArgs =
      [[K.MetaSig], [K.AddrChangeSig], [K.NameChangeSig], [K.ContentChangeSig],
        [K.AbiChangeSig], [K.PubkeyChangeSig], [K.ContentHashChangeSig],
        [K.MultihashChangeSig], [K.TextChangeSig]] ∧
    (K.chosen (Fetcher.FetchABI K F w addr bn).calls.tail ≠ [] →
      (Fetcher.FetchABI K F w addr bn).abi =
        bracketed (K.chosen (Fetcher.FetchABI K F w addr bn).calls.tail)) ∧
    (K.chosen (Fetcher.FetchABI K F w addr bn).calls.tail = [] →
      (Fetcher.FetchABI K F w addr bn).abi = "]" ∧
      (Fetcher.FetchABI K F w addr bn).abi ≠ bracketed []) := by
  obtain ⟨h1, h2, h3⟩ := FetchABI_ok K F w addr bn hmeta
  refine ⟨h1, h2, ?_, ?_⟩
  · intro hne
    rw [h3, closing_bracket, if_neg hne]
  · intro hnil
    have : (Fetcher.FetchABI K F w addr bn).abi = "]" := by
      rw [h3, closing_bracket, if_pos hnil]
    rw [this]
    exact ⟨rfl, by decide⟩

/-- C25: `FetchABI` returns an error exactly when the `supportsInterface` call for the meta
signature fails or answers false, and then it made that one call and returns the empty
string.  Otherwise it makes the nine calls and returns no error whatever the eight later
calls answer, and a failed one among them counts as an unsupported interface: the string
is built from the fragments of the calls that answered true without error, and it is the
string `FetchABI` returns for a resolver that answers false wherever this one fails. -/
theorem fetch_abi_failure (K : ResolverConstants) (F : BoolFetcher W) (w : W) (addr : String)
    (bn : Int) :
    ((Fetcher.FetchABI K F w addr bn).err ≠ none ↔
      ((Fetcher.getSupportsInterface F w K.SupportsInterfaceABI addr bn [K.MetaSig]).2.2 ≠ none ∨
        (Fetcher.getSupportsInterface F w K.SupportsInterfaceABI addr bn [K.MetaSig]).2.1 =
          false)) ∧
    ((Fetcher.FetchABI K F w addr bn).err ≠ none →
      (Fetcher.FetchABI K F w addr bn).abi = "" ∧
      (Fetcher.FetchABI K F w addr bn).calls.length = 1) ∧
    ((Fetcher.FetchABI K F w addr bn).err = none →
      (Fetcher.FetchABI K F w addr bn).calls.length = 9 ∧
      (Fetcher.FetchABI K F w addr bn).abi =
        dropLastByte ("[" ++ commaEach (K.chosen (Fetcher.FetchABI K F w addr bn).calls.tail)) ++
          "]" ∧
      (Fetcher.FetchABI K (failuresAsUnsupported F) w addr bn).err = none ∧
      (Fetcher.FetchABI K (failuresAsUnsupported F) w addr bn).abi =
        (Fetcher.FetchABI K F w addr bn).abi) := by
  by_cases hmeta : (Fetcher.getSupportsInterface F w K.SupportsInterfaceABI addr bn
      [K.MetaSig]).2 = (true, none)
  · obtain ⟨h1, h2, h3⟩ := FetchABI_ok K F w addr bn hmeta
    obtain ⟨g1, -, g3⟩ := FetchABI_lenient K F w addr bn hmeta
    have hlen : (Fetcher.FetchABI K F w addr bn).calls.length = 9 := by
      have := congrArg List.length h2
      simpa [ResolverConstants.optional] using this
    refine ⟨?_, fun h => absurd h1 h, fun _ => ⟨hlen, h3, g3, g1⟩⟩
    constructor
    · intro h; exact absurd h1 h
    · intro h
      have e1 := congrArg Prod.fst hmeta
      have e2 := congrArg Prod.snd hmeta
      simp only at e1 e2
      rcases h with h | h
      · exact absurd e2 h
      · rw [e1] at h; cases h
  · obtain ⟨h1, h2, h3⟩ := FetchABI_refused K F w addr bn hmeta
    refine ⟨⟨fun _ => ?_, fun _ => h1⟩, fun _ => ⟨h2, h3⟩, fun h => absurd h h1⟩
    rcases hm : (Fetcher.getSupportsInterface F w K.SupportsInterfaceABI addr bn [K.MetaSig]).2
      with ⟨b, e⟩
    rw [hm] at hmeta
    cases e with
    | some e => left; simp
    | none =>
      right
      cases b with
      | false => rfl
      | true => exact absurd rfl hmeta

/-- C28: when the putter returns one CID per receipt, `publishReceipts` checks that number
against the receipts only: with fewer metadata entries than receipts it panics on
`receiptMeta[i]`, index out of range at the first index past the metadata; with at least
as many metadata entries as receipts it returns a mapping. -/
theorem publish_receipts_index (DagPut : W → List Receipt → W × List String × Option GoError)
    (w : W) (receipts : List Receipt) (receiptMeta : List ReceiptModel)
    (hput : (DagPut w receipts).2.2 = none)
    (hlen : (DagPut w receipts).2.1.length = receipts.length) :
    (receiptMeta.length < receipts.length →
      (publishReceipts DagPut w receipts receiptMeta).2 =
        .indexOutOfRange receiptMeta.length receiptMeta.length) ∧
    (receipts.length ≤ receiptMeta.length →
      ∃ mapped, (publishReceipts DagPut w receipts receiptMeta).2 = .ok mapped) := by
  unfold publishReceipts
  rcases hd : DagPut w receipts with ⟨w1, cids, err⟩
  rw [hd] at hput hlen
  simp only at hput hlen
  subst hput
  simp only
  rw [if_neg (by simpa using hlen)]
  have := mapReceipts_spec cids receiptMeta receipts 0 [] (by simpa using hlen) (Nat.zero_le _)
  simpa using this

/-- Witness of C28, the failing input: one receipt, no metadata, one CID from the putter. -/
theorem publish_receipts_index_witness :
    (publishReceipts demoPutter () [⟨"0xt1", 1⟩] []).2 = .indexOutOfRange 0 0 :=
  (publish_receipts_index demoPutter () [⟨"0xt1", 1⟩] [] rfl (by decide)).1 (by decide)

/-- Witness of C24, the failing input: a resolver that supports the meta interface and
none of the eight optional ones; the result is the string `]`. -/
theorem fetch_abi_shape_witness :
    (Fetcher.FetchABI demoConstants metaOnly 0 "0xres" 7).abi = "]" ∧
    (Fetcher.FetchABI demoConstants metaOnly 0 "0xres" 7).abi ≠ bracketed [] ∧
    (Fetcher.FetchABI demoConstants someInterfaces 0 "0xres" 7).abi = "[A,T]" :=
  ⟨((fetch_abi_shape demoConstants metaOnly 0 "0xres" 7 (by decide)).2.2.2 (by decide)).1,
    ((fetch_abi_shape demoConstants metaOnly 0 "0xres" 7 (by decide)).2.2.2 (by decide)).2,
    by decide⟩

/-- Witness of C23: the three logs found at block 5 fall into the groups of `0xaa` (two
logs, in their fetched order) and `0xbb` (one log). -/
theorem log_partition_witness :
    sortLogs threeLogs =
      [("0xaa", [⟨"0xAA", ["0xddf252ad"], "0x01"⟩, ⟨"0xAA", ["0xddf252ad"], "0x03"⟩]),
        ("0xbb", [⟨"0xBB", ["0xddf252ad"], "0x02"⟩])] ∧
    ((sortLogs threeLogs).map Prod.fst).Nodup :=
  ⟨by decide,
    (log_partition (withHeaderRepo twoCollab) demoTransformer2 (demoDB, ()) ⟨1, 5, "0xh5"⟩
      (firstTrace (Execute (withHeaderRepo twoCollab) demoTransformer2 (demoDB, ())))
      demoTransformer2.contractAddresses demoTransformer2.eventFilters ⟨1, 5, "0xh5"⟩ threeLogs
      (by decide) (by decide) (by decide)).1⟩

/-- C26 fails as stated: the key of the one configured contract is its 40 lowercase hex
digits without `0x`, the one log found has the address of that key; `Init` ends without
error, the lookup under the lowercased `Hex()` form of the log address finds no contract
and `Execute` faults on the nil contract. -/
theorem contract_lookup_safe_counterexample :
    (∀ k ∈ bareKeyConfig.Addresses.map Prod.fst, isLowerHex k = true) ∧
    (∀ e ∈ (Execute (scriptedLogAt "0x00000000000000000000000000000000000000bb")
        (Init (scriptedLogAt "0x00000000000000000000000000000000000000bb")
          (newTransformer bareKeyConfig) ⟨"", []⟩).tr ⟨"", []⟩).log,
      ∀ c ∈ e.2, ∀ x ∈ c.fetchedLogs,
        ∃ k ∈ bareKeyConfig.Addresses.map Prod.fst, toLower x.Address = lowerHexOf k) ∧
    (Init (scriptedLogAt "0x00000000000000000000000000000000000000bb")
      (newTransformer bareKeyConfig) ⟨"", []⟩).out = .ok ∧
    (Execute (scriptedLogAt "0x00000000000000000000000000000000000000bb")
      (Init (scriptedLogAt "0x00000000000000000000000000000000000000bb")
        (newTransformer bareKeyConfig) ⟨"", []⟩).tr ⟨"", []⟩).out =
      .fault "invalid memory address or nil pointer dereference" ∧
    Call.ConverterUpdate none ∈
      firstTrace (Execute (scriptedLogAt "0x00000000000000000000000000000000000000bb")
        (Init (scriptedLogAt "0x00000000000000000000000000000000000000bb")
          (newTransformer bareKeyConfig) ⟨"", []⟩).tr ⟨"", []⟩) := by
  decide

/-- Witness of C26 (as amended): the key `0x00…aa` in the lowercased `Hex()` form, one log
of the address `0x00…AA` at block 5. -/
theorem contract_lookup_safe_witness :
    (Init (scriptedLogAt "0x00000000000000000000000000000000000000AA")
      (newTransformer fullKeyConfig) ⟨"", []⟩).out = .ok ∧
    Call.ConverterUpdate none ∉
      firstTrace (Execute (scriptedLogAt "0x00000000000000000000000000000000000000AA")
        (Init (scriptedLogAt "0x00000000000000000000000000000000000000AA")
          (newTransformer fullKeyConfig) ⟨"", []⟩).tr ⟨"", []⟩) :=
  ⟨by decide,
    (contract_lookup_safe (scriptedLogAt "0x00000000000000000000000000000000000000AA")
      (newTransformer fullKeyConfig) ⟨"", []⟩ ⟨"", []⟩
      (by decide) (by decide) (by decide)).2.1
      (⟨1, 5, "0xh5"⟩,
        firstTrace (Execute (scriptedLogAt "0x00000000000000000000000000000000000000AA")
          (Init (scriptedLogAt "0x00000000000000000000000000000000000000AA")
            (newTransformer fullKeyConfig) ⟨"", []⟩).tr ⟨"", []⟩))
      (by decide)⟩

/-- Witness of C27: at block 5 a log of contract `0xbb`, watched from block 10, is
converted, and the header is marked checked for all event ids. -/
theorem events_ignore_starting_block_witness :
    ∃ con : Contract, List.lookup "0xbb" demoTransformer2.Contracts = some con ∧
      (5 : Int) < con.StartingBlock ∧
      Call.ConvertBatch [⟨"0xBB", ["0xddf252ad"], "0x02"⟩] con.Events 1 none ∈
        firstTrace (Execute (withHeaderRepo twoCollab) demoTransformer2 (demoDB, ())) ∧
      Call.MarkHeaderCheckedForAll 1 demoTransformer2.eventIds none ∈
        firstTrace (Execute (withHeaderRepo twoCollab) demoTransformer2 (demoDB, ())) := by
  obtain ⟨⟨con, _, hl, hc, _⟩, hm, _⟩ :=
    events_ignore_starting_block (withHeaderRepo twoCollab) demoTransformer2 (demoDB, ())
      ⟨1, 5, "0xh5"⟩
      (firstTrace (Execute (withHeaderRepo twoCollab) demoTransformer2 (demoDB, ())))
      demoTransformer2.contractAddresses demoTransformer2.eventFilters ⟨1, 5, "0xh5"⟩ threeLogs
      ("0xbb", [⟨"0xBB", ["0xddf252ad"], "0x02"⟩])
      (by decide) (Or.inl (by decide)) (by decide) (by decide)
  have hcon : con = demoContract "0xbb" 10 := by
    have h2 : List.lookup "0xbb" demoTransformer2.Contracts = some (demoContract "0xbb" 10) := by
      decide
    simp only at hl
    rw [h2] at hl
    exact (Option.some.inj hl).symm
  subst hcon
  exact ⟨_, hl, by decide, hc, hm⟩

end ContractWatcher
